import Mathlib

/-!
Verification of the GraphRAG service core (backend/app/core/graphrag_service.py,
backend/app/core/graphrag_query_adapter.py, backend/app/services/cluster_service.py,
backend/scripts/run_graphrag_index.py) against its natural-language specification.

The Python code is shallowly embedded: SQLAlchemy rows become Lean structures,
JSON property maps become association lists, database tables become lists, and
each operation becomes a pure function from a store state to a store state plus
a result.  External collaborators (networkx, the Gemini client, the embedding
model, `math.log`) are passed in as explicit function parameters, exactly where
the Python code calls out to them.  The embedding models the default
configuration (GRAPH_STORE = sqlite, QDRANT_URL unset, ENABLE_GRAPHRAG = true),
which is the relational core the specification describes.  Python floats are
modelled as rationals; `round(x, n)` is modelled exactly (round-half-to-even).
-/

/-- Property values stored in the JSON `properties` column: strings or numbers. -/
inductive PVal where
  | str (s : String)
  | num (q : ℚ)
  deriving DecidableEq, Repr

/-- A JSON object (`properties` column): insertion-ordered association list. -/
abbrev Props := List (String × PVal)

/-- `props.get(key)`. -/
def getP (ps : Props) (k : String) : Option PVal :=
  (ps.find? (fun p => p.1 = k)).map (·.2)

/-- `props[key] = v`: replace in place if the key exists, else append
(Python dict update semantics, insertion order preserved). -/
def setP (ps : Props) (k : String) (v : PVal) : Props :=
  if ps.any (fun p => p.1 = k) then
    ps.map (fun p => if p.1 = k then (k, v) else p)
  else ps ++ [(k, v)]

/-- Numeric read, mirroring `isinstance(v, (int, float))` checks. -/
def getNumP (ps : Props) (k : String) : Option ℚ :=
  match getP ps k with
  | some (.num q) => some q
  | _ => none

/-- String read. -/
def getStrP (ps : Props) (k : String) : Option String :=
  match getP ps k with
  | some (.str s) => some s
  | _ => none

/-- A `GraphNode` row (table `graphrag_nodes`). -/
structure GNode where
  id : String
  label : String
  name : String
  props : Props
  source_ids : List String
  embedding : List ℚ
  nsCol : Option String
  deriving DecidableEq, Repr

/-- A `GraphEdge` row (table `graphrag_edges`). -/
structure GEdge where
  id : String
  source_id : String
  target_id : String
  relation : String
  confidence : ℚ
  props : Props
  deriving DecidableEq, Repr

/-- An `IngestLog` row (table `graphrag_ingest_log`). -/
structure LogRow where
  id : String
  nsCol : String
  content_hash : String
  status : String
  prev_hashes : List String
  deriving DecidableEq, Repr

/-- A `GraphClusterMembership` row. -/
structure MembershipRow where
  node_id : String
  cluster_id : String
  nsCol : String
  algorithm : String
  deriving DecidableEq, Repr

/-- A `GraphSnapshot` row; `cluster_sizes` is `metadata_json["cluster_sizes"]`. -/
structure SnapshotRec where
  id : String
  nsCol : String
  node_count : Nat
  edge_count : Nat
  modularity : Option ℚ
  cluster_sizes : List (String × Nat)
  deriving DecidableEq, Repr

/-- The relational store state used by the graph operations. -/
structure Store where
  nodes : List GNode
  edges : List GEdge
  log : List LogRow
  deriving DecidableEq, Repr

/-- `settings.DEFAULT_NAMESPACE` (config.py default `"public"`). -/
def DEFAULT_NAMESPACE : String := "public"

/-- `(n.properties or {}).get("namespace")`. -/
def propNs (ps : Props) : Option String := getStrP ps "namespace"

/-- `(n.properties or {}).get("namespace", settings.DEFAULT_NAMESPACE)`:
the namespace a node resolves to in the Python-side filters. -/
def nodeResolvedNs (n : GNode) : String := (propNs n.props).getD DEFAULT_NAMESPACE

/-- `(e.properties or {}).get("namespace", settings.DEFAULT_NAMESPACE)`. -/
def edgeResolvedNs (e : GEdge) : String := (propNs e.props).getD DEFAULT_NAMESPACE

/-! ## Python `round` on rationals

Python `round(x, n)` rounds half to even.  `roundHalfEven q` is the integer
nearest to `q`, ties to the even integer; `roundTo n q` is `round(q, n)`. -/

/-- Round half to even (banker's rounding), as Python `round` does. -/
def roundHalfEven (q : ℚ) : ℤ :=
  let f : ℤ := ⌊q⌋
  let r : ℚ := q - f
  if r < 1/2 then f
  else if 1/2 < r then f + 1
  else if f % 2 = 0 then f else f + 1

/-- Python `round(q, n)`. -/
def roundTo (n : ℕ) (q : ℚ) : ℚ :=
  (roundHalfEven (q * (10 : ℚ) ^ n) : ℚ) / (10 : ℚ) ^ n

theorem roundHalfEven_le (q : ℚ) : (roundHalfEven q : ℚ) ≤ q + 1/2 := by
  unfold roundHalfEven
  have hf : (⌊q⌋ : ℚ) ≤ q := Int.floor_le q
  by_cases h1 : q - ⌊q⌋ < 1/2
  · rw [if_pos h1]
    linarith
  · rw [if_neg h1]
    by_cases h2 : 1/2 < q - ⌊q⌋
    · rw [if_pos h2]
      push_cast
      linarith
    · rw [if_neg h2]
      have heq : q - ⌊q⌋ = 1/2 := le_antisymm (not_lt.mp h2) (not_lt.mp h1)
      by_cases h3 : (⌊q⌋ : ℤ) % 2 = 0
      · rw [if_pos h3]; linarith
      · rw [if_neg h3]; push_cast; linarith

theorem le_roundHalfEven (q : ℚ) : q - 1/2 ≤ (roundHalfEven q : ℚ) := by
  unfold roundHalfEven
  have hf : q - 1 < (⌊q⌋ : ℚ) := Int.sub_one_lt_floor q
  by_cases h1 : q - ⌊q⌋ < 1/2
  · rw [if_pos h1]
    linarith
  · rw [if_neg h1]
    have hge : (1 : ℚ)/2 ≤ q - ⌊q⌋ := not_lt.mp h1
    by_cases h2 : 1/2 < q - ⌊q⌋
    · rw [if_pos h2]
      push_cast
      linarith
    · rw [if_neg h2]
      by_cases h3 : (⌊q⌋ : ℤ) % 2 = 0
      · rw [if_pos h3]; linarith
      · rw [if_neg h3]; push_cast; linarith

theorem roundHalfEven_mono {a b : ℚ} (h : a ≤ b) :
    roundHalfEven a ≤ roundHalfEven b := by
  rcases eq_or_lt_of_le h with rfl | hab
  · exact le_refl _
  by_contra hlt
  push_neg at hlt
  have h1 : (roundHalfEven b : ℚ) + 1 ≤ (roundHalfEven a : ℚ) := by
    exact_mod_cast Int.add_one_le_of_lt hlt
  have h2 := roundHalfEven_le a
  have h3 := le_roundHalfEven b
  linarith

theorem roundTo_mono (n : ℕ) {a b : ℚ} (h : a ≤ b) : roundTo n a ≤ roundTo n b := by
  unfold roundTo
  have hp : (0 : ℚ) < (10 : ℚ) ^ n := by positivity
  have hmul : a * (10 : ℚ) ^ n ≤ b * (10 : ℚ) ^ n := by nlinarith
  have := roundHalfEven_mono hmul
  have hc : ((roundHalfEven (a * (10 : ℚ) ^ n) : ℤ) : ℚ) ≤
      ((roundHalfEven (b * (10 : ℚ) ^ n) : ℤ) : ℚ) := by exact_mod_cast this
  exact (div_le_div_iff_of_pos_right hp).mpr hc

theorem roundHalfEven_intCast (z : ℤ) : roundHalfEven (z : ℚ) = z := by
  unfold roundHalfEven
  norm_num

theorem roundHalfEven_zero : roundHalfEven 0 = 0 := by
  have h := roundHalfEven_intCast 0
  simpa using h

theorem roundTo_zero (n : ℕ) : roundTo n 0 = 0 := by
  unfold roundTo
  rw [zero_mul, roundHalfEven_zero]
  simp

theorem roundTo_one (n : ℕ) : roundTo n 1 = 1 := by
  unfold roundTo
  have h : (1 : ℚ) * (10 : ℚ) ^ n = (((10 : ℤ) ^ n : ℤ) : ℚ) := by push_cast; ring
  rw [h, roundHalfEven_intCast]
  have hp : ((10 : ℤ) ^ n : ℚ) ≠ 0 := by positivity
  field_simp

theorem roundTo_nonneg (n : ℕ) {q : ℚ} (h : 0 ≤ q) : 0 ≤ roundTo n q := by
  have := roundTo_mono n h
  rwa [roundTo_zero] at this

theorem roundTo_le_one (n : ℕ) {q : ℚ} (h : q ≤ 1) : roundTo n q ≤ 1 := by
  have := roundTo_mono n h
  rwa [roundTo_one] at this

/-! ## Stable descending sort

Python `list.sort(key=..., reverse=True)` is a stable sort placing larger keys
first; equal keys keep their original relative order.  `insertDesc`/`sortDesc`
implement exactly that. -/

/-- Insert into a descending-sorted list, after all elements with key ≥ the
new element's key (stability). -/
def insertDesc {α : Type} (key : α → ℚ) (x : α) : List α → List α
  | [] => [x]
  | y :: ys => if key x ≤ key y then y :: insertDesc key x ys else x :: y :: ys

/-- Stable descending sort by a rational key. -/
def sortDesc {α : Type} (key : α → ℚ) : List α → List α
  | [] => []
  | x :: xs => insertDesc key x (sortDesc key xs)

theorem mem_insertDesc {α : Type} (key : α → ℚ) (x : α) (l : List α) (z : α) :
    z ∈ insertDesc key x l ↔ z = x ∨ z ∈ l := by
  induction l with
  | nil => simp [insertDesc]
  | cons y ys ih =>
      by_cases h : key x ≤ key y
      · simp [insertDesc, h, ih]
        tauto
      · simp [insertDesc, h]

theorem mem_sortDesc {α : Type} (key : α → ℚ) (l : List α) (z : α) :
    z ∈ sortDesc key l ↔ z ∈ l := by
  induction l with
  | nil => simp [sortDesc]
  | cons y ys ih => simp [sortDesc, mem_insertDesc, ih]

theorem sorted_insertDesc {α : Type} (key : α → ℚ) (x : α) (l : List α)
    (h : l.Pairwise (fun a b => key b ≤ key a)) :
    (insertDesc key x l).Pairwise (fun a b => key b ≤ key a) := by
  induction l with
  | nil => simp [insertDesc]
  | cons y ys ih =>
      rcases List.pairwise_cons.mp h with ⟨hy, hys⟩
      by_cases hxy : key x ≤ key y
      · simp only [insertDesc, hxy, if_true]
        refine List.pairwise_cons.mpr ⟨?_, ih hys⟩
        intro a ha
        rcases (mem_insertDesc key x ys a).mp ha with rfl | ha2
        · exact hxy
        · exact hy a ha2
      · simp only [insertDesc, hxy, if_false]
        refine List.pairwise_cons.mpr ⟨?_, h⟩
        intro a ha
        rcases ha with _ | ha2
        · exact le_of_lt (not_le.mp hxy)
        · exact le_trans (hy a (by assumption)) (le_of_lt (not_le.mp hxy))

theorem sorted_sortDesc {α : Type} (key : α → ℚ) (l : List α) :
    (sortDesc key l).Pairwise (fun a b => key b ≤ key a) := by
  induction l with
  | nil => simp [sortDesc]
  | cons y ys ih => exact sorted_insertDesc key y (sortDesc key ys) ih

/-! ## Snapshot service (GraphRAGService.create_snapshot / diff_snapshots) -/

/-- The `clusters` part of a snapshot diff. -/
structure DiffClusters where
  added : List (String × Nat)
  removed : List (String × Nat)
  size_delta : List (String × ℤ)
  deriving DecidableEq, Repr

/-- The result of `diff_snapshots` on the success path. -/
structure DiffResult where
  a : String
  b : String
  delta_nodes : ℤ
  delta_edges : ℤ
  delta_modularity : ℚ
  clusters : DiffClusters
  deriving DecidableEq, Repr

/-- `GraphRAGService.diff_snapshots(snapshot_a, snapshot_b)`: look both ids up,
return the not-found error if either is missing, else the per-field deltas
`b - a` and the cluster-size changes. -/
def diffSnapshots (tbl : List SnapshotRec) (snapshot_a snapshot_b : String) :
    Except String DiffResult :=
  match tbl.find? (fun s => s.id = snapshot_a), tbl.find? (fun s => s.id = snapshot_b) with
  | some sa, some sb =>
      let ca := sa.cluster_sizes
      let cb := sb.cluster_sizes
      let added := cb.filter (fun p => (ca.lookup p.1).isNone)
      let size_delta := cb.filterMap (fun p =>
        match ca.lookup p.1 with
        | some v =>
            let d : ℤ := (p.2 : ℤ) - (v : ℤ)
            if d ≠ 0 then some (p.1, d) else none
        | none => none)
      let removed := ca.filter (fun p => (cb.lookup p.1).isNone)
      Except.ok
        { a := sa.id
          b := sb.id
          delta_nodes := (sb.node_count : ℤ) - (sa.node_count : ℤ)
          delta_edges := (sb.edge_count : ℤ) - (sa.edge_count : ℤ)
          delta_modularity := sb.modularity.getD 0 - sa.modularity.getD 0
          clusters := ⟨added, removed, size_delta⟩ }
  | _, _ => Except.error "snapshot not found"

/-- `GraphRAGService.create_snapshot(namespace)`: the node count is taken over
nodes whose `namespace` column equals `ns` or is NULL, while the edge count is
taken over the whole edge table (the edge query has no namespace filter);
modularity is read from the cluster cache, cluster sizes from the membership
table rows of `ns`. -/
def createSnapshot (σ : Store) (memberships : List MembershipRow)
    (cachedModularity : Option ℚ) (ns : String) (snapId : String) : SnapshotRec :=
  let node_count := (σ.nodes.filter (fun n => n.nsCol = some ns ∨ n.nsCol = none)).length
  let edge_count := σ.edges.length
  let relevant := memberships.filter (fun m => m.nsCol = ns)
  let cids := (relevant.map (·.cluster_id)).dedup
  let sizes := cids.map (fun c => (c, (relevant.filter (fun m => m.cluster_id = c)).length))
  { id := snapId, nsCol := ns, node_count := node_count, edge_count := edge_count
    modularity := cachedModularity, cluster_sizes := sizes }

/-- C9 — Snapshot diff antisymmetry: whenever both snapshot ids resolve,
`diff_snapshots(a, b).delta_nodes = -diff_snapshots(b, a).delta_nodes` and
likewise for `delta_edges`; if either id is missing the call returns the
not-found error instead of a delta. -/
theorem C9_snapshot_diff_antisymmetry (tbl : List SnapshotRec) (a b : String) :
    (∀ ra rb, diffSnapshots tbl a b = Except.ok ra →
      diffSnapshots tbl b a = Except.ok rb →
      ra.delta_nodes = -rb.delta_nodes ∧ ra.delta_edges = -rb.delta_edges) ∧
    (((tbl.find? (fun s => s.id = a)).isNone ∨ (tbl.find? (fun s => s.id = b)).isNone) →
      diffSnapshots tbl a b = Except.error "snapshot not found") := by
  constructor
  · intro ra rb hab hba
    unfold diffSnapshots at hab hba
    rcases hfa : tbl.find? (fun s => s.id = a) with _ | sa <;> rw [hfa] at hab hba
    · simp at hab
    rcases hfb : tbl.find? (fun s => s.id = b) with _ | sb <;> rw [hfb] at hab hba
    · simp at hab
    simp only [Except.ok.injEq] at hab hba
    subst hab
    subst hba
    constructor <;> simp
  · intro h
    unfold diffSnapshots
    rcases hfa : tbl.find? (fun s => s.id = a) with _ | sa
    · rw [hfa]
    rcases hfb : tbl.find? (fun s => s.id = b) with _ | sb
    · rw [hfa, hfb]
    rw [hfa, hfb] at h
    simp at h

/-- A concrete snapshot used as witness input. -/
def exSnap1 : SnapshotRec :=
  { id := "s1", nsCol := "public", node_count := 3, edge_count := 2,
    modularity := none, cluster_sizes := [("c1", 2)] }

/-- A second concrete snapshot used as witness input. -/
def exSnap2 : SnapshotRec :=
  { id := "s2", nsCol := "public", node_count := 5, edge_count := 1,
    modularity := none, cluster_sizes := [] }

/-- A two-snapshot table used as a concrete witness input. -/
def exSnapTbl : List SnapshotRec := [exSnap1, exSnap2]

/-- Witness for C9 at a concrete snapshot table. -/
theorem C9_snapshot_diff_antisymmetry_witness :
    ({ a := "s1", b := "s2", delta_nodes := 2, delta_edges := -1,
       delta_modularity := 0,
       clusters := ⟨[], [("c1", 2)], []⟩ } : DiffResult).delta_nodes =
      -({ a := "s2", b := "s1", delta_nodes := -2, delta_edges := 1,
          delta_modularity := 0,
          clusters := ⟨[("c1", 2)], [], []⟩ } : DiffResult).delta_nodes ∧
    ({ a := "s1", b := "s2", delta_nodes := 2, delta_edges := -1,
       delta_modularity := 0,
       clusters := ⟨[], [("c1", 2)], []⟩ } : DiffResult).delta_edges =
      -({ a := "s2", b := "s1", delta_nodes := -2, delta_edges := 1,
          delta_modularity := 0,
          clusters := ⟨[("c1", 2)], [], []⟩ } : DiffResult).delta_edges :=
  (C9_snapshot_diff_antisymmetry exSnapTbl "s1" "s2").1 _ _
    (by
      unfold diffSnapshots
      rw [show exSnapTbl.find? (fun s => s.id = "s1") = some exSnap1 from by decide,
          show exSnapTbl.find? (fun s => s.id = "s2") = some exSnap2 from by decide]
      norm_num [exSnap1, exSnap2, List.filter, List.filterMap, List.lookup])
    (by
      unfold diffSnapshots
      rw [show exSnapTbl.find? (fun s => s.id = "s1") = some exSnap1 from by decide,
          show exSnapTbl.find? (fun s => s.id = "s2") = some exSnap2 from by decide]
      norm_num [exSnap1, exSnap2, List.filter, List.filterMap, List.lookup])

/-! ## Batch index orchestrator (scripts/run_graphrag_index.py, orchestrate) -/

/-- The orchestrator status values. -/
inductive OrchStatus where
  | UNKNOWN
  | DRY_RUN
  | NOOP
  | GENERATED
  | SUCCESS
  | PARTIAL
  | FAILED
  | IMPORT_FAILED
  | LOCKED
  deriving DecidableEq, Repr

/-- Environment and outcome parameters of one `orchestrate` call.  File-system
and subprocess outcomes are inputs to the embedding: `lockAvailable` is whether
the non-blocking `flock` succeeds, `mkdirRaises` models an exception escaping
before the `_RUNNING` marker is written (caught by the outermost handler),
`generationRaises` models an exception escaping the artifact-generation phase
(e.g. `run_dummy_pipeline`; the graphrag/gemini branch has its own inner
`except` that falls back rather than escaping), and `importOutcome` is `none`
when `import_artifacts` raises, else the list of missing artifact names it
reports.  Marker writes themselves are modelled as succeeding. -/
structure OrchInput where
  force : Bool
  dry_run : Bool
  lockAvailable : Bool
  staleDocIds : List String
  totalDocs : Nat
  mkdirRaises : Bool
  generationRaises : Bool
  importOutcome : Option (List String)
  deriving Repr

/-- Observable outcome of an `orchestrate` call: the returned status, whether
the `run-{ts}` staging directory was created, and which marker files were
written into it. -/
structure OrchOutput where
  status : OrchStatus
  stagingCreated : Bool
  markers : List String
  staleDocs : Nat
  totalDocs : Nat
  deriving DecidableEq, Repr

/-- `orchestrate(namespace, force, dry_run, ...)` control flow: LOCKED on lock
contention without `force`; DRY_RUN when `dry_run`; NOOP when there are no
stale docs and not `force` (before any staging is created); otherwise create
staging, write `_RUNNING`, generate artifacts, import them, and derive
SUCCESS / PARTIAL / FAILED / IMPORT_FAILED; exceptions escaping to the
outermost handler yield FAILED.  The internal GENERATED state is always
overwritten before return. -/
def orchestrate (inp : OrchInput) : OrchOutput :=
  let staleDocs := inp.staleDocIds.length
  if ¬inp.lockAvailable ∧ ¬inp.force then
    { status := .LOCKED, stagingCreated := false, markers := [],
      staleDocs := staleDocs, totalDocs := inp.totalDocs }
  else if inp.dry_run then
    { status := .DRY_RUN, stagingCreated := false, markers := [],
      staleDocs := staleDocs, totalDocs := inp.totalDocs }
  else if staleDocs = 0 ∧ ¬inp.force then
    { status := .NOOP, stagingCreated := false, markers := [],
      staleDocs := staleDocs, totalDocs := inp.totalDocs }
  else if inp.mkdirRaises then
    { status := .FAILED, stagingCreated := false, markers := [],
      staleDocs := staleDocs, totalDocs := inp.totalDocs }
  else if inp.generationRaises then
    { status := .FAILED, stagingCreated := true, markers := ["_RUNNING"],
      staleDocs := staleDocs, totalDocs := inp.totalDocs }
  else
    -- status = 'GENERATED' here, immediately refined by the import phase
    match inp.importOutcome with
    | none =>
        { status := .IMPORT_FAILED, stagingCreated := true,
          markers := ["_RUNNING", "_FAILED"],
          staleDocs := staleDocs, totalDocs := inp.totalDocs }
    | some missing =>
        if "entities" ∈ missing ∨ "relationships" ∈ missing then
          { status := .FAILED, stagingCreated := true,
            markers := ["_RUNNING", "_FAILED"],
            staleDocs := staleDocs, totalDocs := inp.totalDocs }
        else if missing ≠ [] then
          { status := .PARTIAL, stagingCreated := true,
            markers := ["_RUNNING", "_PARTIAL"],
            staleDocs := staleDocs, totalDocs := inp.totalDocs }
        else
          { status := .SUCCESS, stagingCreated := true,
            markers := ["_RUNNING", "_SUCCESS"],
            staleDocs := staleDocs, totalDocs := inp.totalDocs }

/-- C7 — Orchestrator state machine: `orchestrate` never returns the internal
GENERATED status; a LOCKED return has written no marker file and created no
staging directory; a NOOP return has created no staging directory. -/
theorem C7_orchestrator_state_machine (inp : OrchInput) :
    (orchestrate inp).status ≠ OrchStatus.GENERATED ∧
    ((orchestrate inp).status = OrchStatus.LOCKED →
      (orchestrate inp).markers = [] ∧ (orchestrate inp).stagingCreated = false) ∧
    ((orchestrate inp).status = OrchStatus.NOOP →
      (orchestrate inp).stagingCreated = false) := by
  obtain ⟨force, dry_run, lock, staleIds, total, mk, gen, imp⟩ := inp
  rcases imp with _ | missing <;>
    simp only [orchestrate] <;>
    split_ifs <;>
    simp_all

/-- A concrete orchestrator run used as the witness input. -/
def exOrchInput : OrchInput :=
  { force := false, dry_run := false, lockAvailable := true,
    staleDocIds := ["doc1"], totalDocs := 2, mkdirRaises := false,
    generationRaises := false, importOutcome := some [] }

/-- Witness for C7 at a concrete input. -/
theorem C7_orchestrator_state_machine_witness :
    (orchestrate exOrchInput).status ≠ OrchStatus.GENERATED ∧
    ((orchestrate exOrchInput).status = OrchStatus.LOCKED →
      (orchestrate exOrchInput).markers = [] ∧
      (orchestrate exOrchInput).stagingCreated = false) ∧
    ((orchestrate exOrchInput).status = OrchStatus.NOOP →
      (orchestrate exOrchInput).stagingCreated = false) :=
  C7_orchestrator_state_machine exOrchInput

/-! ## Pathfinder (GraphRAGService.shortest_path, SQLite BFS fallback)

`shortest_path` takes a `namespace` argument that the SQLite path never reads
(the source comments it as reserved), reads the entire `graphrag_edges` table,
and runs a BFS with a predecessor map.  Note the `max_depth` argument is used
only by the Neo4j branch; the BFS ignores it.  The `len(prev) > 5000` check
only breaks out of the inner neighbour loop, not the outer BFS loop.  Python
dicts become first-match association lists, Python sets become
first-insertion-ordered duplicate-free lists, and the unbounded `while q`
loop gets an explicit fuel that dominates the number of possible dequeues. -/

/-- First-match association-list lookup (Python `dict` access). -/
def lookupPrev (l : List (String × Option String)) (k : String) : Option (Option String) :=
  match l with
  | [] => none
  | p :: rest => if p.1 = k then some p.2 else lookupPrev rest k

/-- Python `set.add`. -/
def insertIfNew (v : String) (l : List String) : List String :=
  if v ∈ l then l else l ++ [v]

/-- `graph.setdefault(k, set()).add(v)`. -/
def addNeighbor : List (String × List String) → String → String → List (String × List String)
  | [], k, v => [(k, [v])]
  | p :: rest, k, v =>
      if p.1 = k then (k, insertIfNew v p.2) :: rest else p :: addNeighbor rest k v

/-- `graph.get(k, set())`. -/
def adjGet : List (String × List String) → String → List String
  | [], _ => []
  | p :: rest, k => if p.1 = k then p.2 else adjGet rest k

/-- The adjacency map the BFS builds from every edge row (both directions).
There is no namespace filter in the query. -/
def buildAdj (edges : List GEdge) : List (String × List String) :=
  edges.foldl
    (fun adj e => addNeighbor (addNeighbor adj e.source_id e.target_id) e.target_id e.source_id)
    []

/-- Some persisted edge joins `u` and `v` (in either direction). -/
def EdgeBetween (edges : List GEdge) (u v : String) : Prop :=
  ∃ e ∈ edges, (e.source_id = u ∧ e.target_id = v) ∨ (e.source_id = v ∧ e.target_id = u)

instance (edges : List GEdge) (u v : String) : Decidable (EdgeBetween edges u v) := by
  unfold EdgeBetween
  infer_instance

/-- The inner neighbour loop: unvisited neighbours get a predecessor entry and
are enqueued; once `len(prev) > 5000` the remaining neighbours of the current
node are skipped (only the inner loop breaks). -/
def procNbs (cur : String) :
    List String → List (String × Option String) → List String →
    List (String × Option String) × List String
  | [], prev, q => (prev, q)
  | nb :: rest, prev, q =>
      if (lookupPrev prev nb).isSome then procNbs cur rest prev q
      else
        let prev2 := prev ++ [(nb, some cur)]
        let q2 := q ++ [nb]
        if 5000 < prev2.length then (prev2, q2) else procNbs cur rest prev2 q2

/-- The `while q` BFS loop; returns whether the target was dequeued together
with the final predecessor map. -/
def bfsLoop (adj : List (String × List String)) (target : String) :
    Nat → List (String × Option String) → List String →
    Bool × List (String × Option String)
  | 0, prev, _ => (false, prev)
  | _ + 1, prev, [] => (false, prev)
  | fuel + 1, prev, cur :: rest =>
      if cur = target then (true, prev)
      else
        let r := procNbs cur (adjGet adj cur) prev rest
        bfsLoop adj target fuel r.1 r.2

/-- Path reconstruction: `while node is not None: seq.append(node); node = prev.get(node)`. -/
def reconstructPath (prev : List (String × Option String)) :
    Nat → String → List String
  | 0, node => [node]
  | fuel + 1, node =>
      match lookupPrev prev node with
      | some (some p) => node :: reconstructPath prev fuel p
      | _ => [node]

/-- `GraphRAGService.shortest_path(source_id, target_id, max_depth, namespace)`
on the SQLite path: identical endpoints short-circuit; otherwise BFS over the
whole (namespace-unfiltered) edge table; `max_depth` and `namespace` are not
consulted. -/
def shortestPath (σ : Store) (source_id target_id : String)
    (max_depth : Nat) (ns : Option String) : List String :=
  if source_id = target_id then [source_id]
  else
    let adj := buildAdj σ.edges
    let res := bfsLoop adj target_id (2 * σ.edges.length + 2) [(source_id, none)] [source_id]
    if res.1 then (reconstructPath res.2 res.2.length target_id).reverse
    else []

/-! ### BFS correctness machinery -/

/-- The predecessor maps the BFS can build: the source maps to `None`, and
every later entry is a fresh key whose parent is an existing key adjacent
to it. -/
inductive PrevOk (adjP : String → String → Prop) (s : String) :
    List (String × Option String) → Prop where
  | base : PrevOk adjP s [(s, none)]
  | step (l : List (String × Option String)) (k p : String) :
      PrevOk adjP s l → lookupPrev l k = none →
      (lookupPrev l p).isSome → adjP p k →
      PrevOk adjP s (l ++ [(k, some p)])

theorem lookupPrev_append (l m : List (String × Option String)) (k : String) :
    lookupPrev (l ++ m) k =
      match lookupPrev l k with
      | some v => some v
      | none => lookupPrev m k := by
  induction l with
  | nil => simp [lookupPrev]
  | cons p rest ih =>
      by_cases h : p.1 = k
      · simp [lookupPrev, h]
      · simp [lookupPrev, h, ih]

theorem lookupPrev_append_of_isSome (l m : List (String × Option String))
    (k : String) (h : (lookupPrev l k).isSome) :
    lookupPrev (l ++ m) k = lookupPrev l k := by
  rw [lookupPrev_append]
  rcases hv : lookupPrev l k with _ | v
  · rw [hv] at h; simp at h
  · rfl

/-- A reconstructed path, read target-first: ends at the source and every
step is from a node to an adjacent node. -/
def ChainToSource (adjP : String → String → Prop) (s : String) : List String → Prop
  | [] => False
  | [x] => x = s
  | x :: y :: rest => adjP y x ∧ ChainToSource adjP s (y :: rest)

theorem chainToSource_getLast (adjP : String → String → Prop) (s : String) :
    ∀ seq, ChainToSource adjP s seq → seq.getLast? = some s := by
  intro seq
  induction seq with
  | nil => intro h; exact absurd h id
  | cons x rest ih =>
      intro h
      cases rest with
      | nil => simp [ChainToSource] at h; simp [h]
      | cons y rest2 =>
          rcases h with ⟨_, h2⟩
          rw [List.getLast?_cons_cons]
          exact ih h2

theorem chainToSource_chain (adjP : String → String → Prop) (s : String) :
    ∀ seq, ChainToSource adjP s seq → seq.Chain' (fun x y => adjP y x) := by
  intro seq
  induction seq with
  | nil => intro h; exact absurd h id
  | cons x rest ih =>
      intro h
      cases rest with
      | nil => simp
      | cons y rest2 =>
          rcases h with ⟨h1, h2⟩
          exact List.chain'_cons.mpr ⟨h1, ih h2⟩

/-- `PrevOk` maps `None` only at the source key. -/
theorem prevOk_none_source (adjP : String → String → Prop) (s : String) :
    ∀ l, PrevOk adjP s l → ∀ k, lookupPrev l k = some none → k = s := by
  intro l hl
  induction hl with
  | base =>
      intro k hk
      simp only [lookupPrev] at hk
      by_cases h : s = k
      · exact h.symm
      · rw [if_neg h] at hk; simp [lookupPrev] at hk
  | step l k0 p0 _ hk0 hp0 hadj ih =>
      intro k hk
      rw [lookupPrev_append] at hk
      rcases hv : lookupPrev l k with _ | v
      · rw [hv] at hk
        simp only [lookupPrev] at hk
        by_cases h : k0 = k
        · rw [if_pos h] at hk
          simp at hk
        · rw [if_neg h] at hk
          simp [lookupPrev] at hk
      · rw [hv] at hk
        simp only at hk
        exact ih k (hv.trans (by rw [hk]))

/-- Main reconstruction lemma: from any key of a `PrevOk` map (arbitrarily
extended on the right), `reconstructPath` produces a chain from that key down
to the source, provided the fuel covers the map. -/
theorem reconstruct_ok (adjP : String → String → Prop) (s : String) :
    ∀ l, PrevOk adjP s l →
      ∀ ext k fuel, (lookupPrev l k).isSome → l.length ≤ fuel →
        (reconstructPath (l ++ ext) fuel k).head? = some k ∧
        ChainToSource adjP s (reconstructPath (l ++ ext) fuel k) := by
  intro l hl
  induction hl with
  | base =>
      intro ext k fuel hk hfuel
      have hk2 : k = s := by
        simp only [lookupPrev] at hk
        by_cases h : s = k
        · exact h.symm
        · rw [if_neg h] at hk; simp [lookupPrev] at hk
      subst hk2
      rcases fuel with _ | f
      · simp at hfuel
      · have hlook : lookupPrev ([(k, none)] ++ ext) k = some none := by
          rw [lookupPrev_append_of_isSome]
          · simp [lookupPrev]
          · simp [lookupPrev]
        simp only [reconstructPath, hlook]
        exact ⟨rfl, rfl⟩
  | step l k0 p0 hprev hk0 hp0 hadj ih =>
      intro ext k fuel hk hfuel
      rw [List.length_append, List.length_singleton] at hfuel
      by_cases hcase : (lookupPrev l k).isSome
      · have hre : l ++ [(k0, some p0)] ++ ext = l ++ ([(k0, some p0)] ++ ext) := by
          rw [List.append_assoc]
        rw [hre]
        exact ih ([(k0, some p0)] ++ ext) k fuel hcase (by omega)
      · -- the queried key is the appended one
        have hknone : lookupPrev l k = none := by
          rcases hv : lookupPrev l k with _ | v
          · rfl
          · rw [hv] at hcase; simp at hcase
        have hkk0 : k = k0 := by
          rw [lookupPrev_append] at hk
          rw [hknone] at hk
          simp only [lookupPrev] at hk
          by_cases h : k0 = k
          · exact h.symm
          · rw [if_neg h] at hk; simp [lookupPrev] at hk
        subst hkk0
        rcases fuel with _ | f
        · omega
        · have hlook : lookupPrev (l ++ [(k, some p0)] ++ ext) k = some (some p0) := by
            rw [List.append_assoc, lookupPrev_append, hknone]
            simp [lookupPrev]
          simp only [reconstructPath, hlook]
          have hre : l ++ [(k, some p0)] ++ ext = l ++ ([(k, some p0)] ++ ext) := by
            rw [List.append_assoc]
          rw [hre]
          have hrec := ih ([(k, some p0)] ++ ext) p0 f hp0 (by omega)
          rcases hrec with ⟨hhead, hchain⟩
          constructor
          · rfl
          · rcases hr : reconstructPath (l ++ ([(k, some p0)] ++ ext)) f p0 with _ | ⟨x, rest⟩
            · rw [hr] at hhead; simp at hhead
            · rw [hr] at hhead hchain
              simp only [List.head?_cons, Option.some.injEq] at hhead
              subst hhead
              exact ⟨hadj, hchain⟩

/-- `procNbs` preserves the predecessor-map invariant, keeps all queue members
mapped, and only extends the map. -/
theorem procNbs_inv (adjP : String → String → Prop) (s cur : String) :
    ∀ nbs prev q, PrevOk adjP s prev →
      (∀ v ∈ nbs, adjP cur v) →
      (lookupPrev prev cur).isSome →
      (∀ x ∈ q, (lookupPrev prev x).isSome) →
      PrevOk adjP s (procNbs cur nbs prev q).1 ∧
      (∀ x ∈ (procNbs cur nbs prev q).2, (lookupPrev (procNbs cur nbs prev q).1 x).isSome) := by
  intro nbs
  induction nbs with
  | nil =>
      intro prev q hprev _ _ hq
      exact ⟨hprev, hq⟩
  | cons nb rest ih =>
      intro prev q hprev hadj hcur hq
      by_cases hmem : (lookupPrev prev nb).isSome
      · simp only [procNbs, hmem, if_true]
        exact ih prev q hprev (fun v hv => hadj v (List.mem_cons_of_mem _ hv)) hcur hq
      · have hnone : lookupPrev prev nb = none := by
          rcases hv : lookupPrev prev nb with _ | v
          · rfl
          · rw [hv] at hmem; simp at hmem
        have hprev2 : PrevOk adjP s (prev ++ [(nb, some cur)]) :=
          PrevOk.step prev nb cur hprev hnone hcur (hadj nb (List.mem_cons_self _ _))
        have hmono : ∀ x, (lookupPrev prev x).isSome →
            (lookupPrev (prev ++ [(nb, some cur)]) x).isSome := by
          intro x hx
          rw [lookupPrev_append_of_isSome _ _ _ hx]
          exact hx
        have hq2 : ∀ x ∈ q ++ [nb],
            (lookupPrev (prev ++ [(nb, some cur)]) x).isSome := by
          intro x hx
          rcases List.mem_append.mp hx with hx2 | hx2
          · exact hmono x (hq x hx2)
          · have : x = nb := by simpa using hx2
            subst this
            rw [lookupPrev_append, hnone]
            simp [lookupPrev]
        simp only [procNbs, hmem, if_false, Bool.false_eq_true]
        by_cases hbig : 5000 < (prev ++ [(nb, some cur)]).length
        · simp only [hbig, if_true]
          exact ⟨hprev2, hq2⟩
        · simp only [hbig, if_false]
          exact ih (prev ++ [(nb, some cur)]) (q ++ [nb]) hprev2
            (fun v hv => hadj v (List.mem_cons_of_mem _ hv))
            (hmono cur hcur) hq2

/-- The BFS loop preserves the invariant, and on success the target is a key
of the final predecessor map. -/
theorem bfsLoop_inv (adj : List (String × List String))
    (adjP : String → String → Prop) (s target : String)
    (hadj : ∀ u v, v ∈ adjGet adj u → adjP u v) :
    ∀ fuel prev q, PrevOk adjP s prev →
      (∀ x ∈ q, (lookupPrev prev x).isSome) →
      PrevOk adjP s (bfsLoop adj target fuel prev q).2 ∧
      ((bfsLoop adj target fuel prev q).1 = true →
        (lookupPrev (bfsLoop adj target fuel prev q).2 target).isSome) := by
  intro fuel
  induction fuel with
  | zero =>
      intro prev q hprev _
      exact ⟨hprev, by simp [bfsLoop]⟩
  | succ f ih =>
      intro prev q hprev hq
      cases q with
      | nil => exact ⟨hprev, by simp [bfsLoop]⟩
      | cons cur rest =>
          by_cases hcur : cur = target
          · simp only [bfsLoop, hcur, if_true]
            refine ⟨hprev, fun _ => ?_⟩
            subst hcur
            exact hq cur (List.mem_cons_self _ _)
          · simp only [bfsLoop, hcur, if_false]
            have hcurs : (lookupPrev prev cur).isSome := hq cur (List.mem_cons_self _ _)
            have hrest : ∀ x ∈ rest, (lookupPrev prev x).isSome :=
              fun x hx => hq x (List.mem_cons_of_mem _ hx)
            have hpn := procNbs_inv adjP s cur (adjGet adj cur) prev rest hprev
              (fun v hv => hadj cur v hv) hcurs hrest
            exact ih _ _ hpn.1 hpn.2

theorem adjGet_addNeighbor (adj : List (String × List String)) (k0 v0 k : String) :
    ∀ x, x ∈ adjGet (addNeighbor adj k0 v0) k → (k = k0 ∧ x = v0) ∨ x ∈ adjGet adj k := by
  induction adj with
  | nil =>
      intro x hx
      simp only [addNeighbor, adjGet] at hx
      by_cases h : k0 = k
      · rw [if_pos h] at hx
        simp at hx
        exact Or.inl ⟨h.symm, hx⟩
      · rw [if_neg h] at hx
        simp [adjGet] at hx
  | cons p rest ih =>
      intro x hx
      by_cases h : p.1 = k0
      · simp only [addNeighbor, h, if_true] at hx
        by_cases h2 : k0 = k
        · simp only [adjGet, h2, if_true] at hx
          unfold insertIfNew at hx
          by_cases h3 : v0 ∈ p.2
          · rw [if_pos h3] at hx
            right
            simp only [adjGet, h ▸ h2 ▸ h, h.trans h2, if_true]
            exact hx
          · rw [if_neg h3] at hx
            rcases List.mem_append.mp hx with hx2 | hx2
            · right
              simp only [adjGet, h.trans h2, if_true]
              exact hx2
            · left
              exact ⟨h2.symm, by simpa using hx2⟩
        · simp only [adjGet, h2, if_false] at hx
          right
          have hpk : ¬ p.1 = k := fun hc => h2 (h ▸ hc ▸ rfl)
          simp only [adjGet, hpk, if_false]
          exact hx
      · simp only [addNeighbor, h, if_false] at hx
        by_cases h2 : p.1 = k
        · simp only [adjGet, h2, if_true] at hx ⊢
          exact Or.inr hx
        · simp only [adjGet, h2, if_false] at hx ⊢
          exact ih x hx

theorem buildAdj_sound (edges : List GEdge) :
    ∀ u v, v ∈ adjGet (buildAdj edges) u → EdgeBetween edges u v := by
  suffices h : ∀ (l : List GEdge) (adj0 : List (String × List String)),
      (∀ u v, v ∈ adjGet adj0 u → EdgeBetween edges u v) →
      (∀ e ∈ l, e ∈ edges) →
      ∀ u v, v ∈ adjGet (l.foldl (fun adj e =>
        addNeighbor (addNeighbor adj e.source_id e.target_id) e.target_id e.source_id) adj0) u →
        EdgeBetween edges u v by
    intro u v hv
    exact h edges [] (by intro u2 v2 hv2; simp [adjGet] at hv2) (fun e he => he) u v hv
  intro l
  induction l with
  | nil =>
      intro adj0 h0 _ u v hv
      exact h0 u v hv
  | cons e rest ih =>
      intro adj0 h0 hmem u v hv
      simp only [List.foldl_cons] at hv
      refine ih _ ?_ (fun e2 he2 => hmem e2 (List.mem_cons_of_mem _ he2)) u v hv
      intro u2 v2 hv2
      rcases adjGet_addNeighbor _ _ _ _ _ hv2 with ⟨rfl, rfl⟩ | hv3
      · exact ⟨e, hmem e (List.mem_cons_self _ _), Or.inr ⟨rfl, rfl⟩⟩
      rcases adjGet_addNeighbor _ _ _ _ _ hv3 with ⟨rfl, rfl⟩ | hv4
      · exact ⟨e, hmem e (List.mem_cons_self _ _), Or.inl ⟨rfl, rfl⟩⟩
      · exact h0 u2 v2 hv4

/-- C2 (amended) — Path law as the BFS fallback actually implements it: the
result is either empty or a sequence that starts at `source_id`, ends at
`target_id`, and whose every adjacent pair is joined by some persisted edge;
identical endpoints yield the singleton.  The `max_depth` bound is not applied
by the BFS (so no `d + 1` length bound holds), and the 5000-entry check only
stops enqueueing further neighbours of the current node rather than halting
the search. -/
theorem C2_path_law_amended (σ : Store) (a b : String) (d : Nat) (ns : Option String) :
    (a = b → shortestPath σ a b d ns = [a]) ∧
    (shortestPath σ a b d ns = [] ∨
      ((shortestPath σ a b d ns).head? = some a ∧
       (shortestPath σ a b d ns).getLast? = some b ∧
       (shortestPath σ a b d ns).Chain' (EdgeBetween σ.edges))) := by
  constructor
  · intro hab
    simp [shortestPath, hab]
  · by_cases hab : a = b
    · subst hab
      right
      simp [shortestPath]
    · unfold shortestPath
      rw [if_neg hab]
      set adj := buildAdj σ.edges with hadjdef
      set res := bfsLoop adj b (2 * σ.edges.length + 2) [(a, none)] [a] with hresdef
      by_cases hfound : res.1
      · right
        rw [if_pos hfound]
        have hinv := bfsLoop_inv adj (EdgeBetween σ.edges) a b
          (fun u v hv => buildAdj_sound σ.edges u v (hadjdef ▸ hv))
          (2 * σ.edges.length + 2) [(a, none)] [a]
          PrevOk.base
          (by intro x hx; simp at hx; subst hx; simp [lookupPrev])
        rw [← hresdef] at hinv
        have hb := hinv.2 hfound
        have hrec := reconstruct_ok (EdgeBetween σ.edges) a res.2 hinv.1 [] b
          res.2.length hb (le_refl _)
        rw [List.append_nil] at hrec
        rcases hrec with ⟨hhead, hchain⟩
        refine ⟨?_, ?_, ?_⟩
        · rw [List.head?_reverse]
          exact chainToSource_getLast _ _ _ hchain
        · rw [List.getLast?_reverse]
          exact hhead
        · rw [List.chain'_reverse]
          have hc := chainToSource_chain _ _ _ hchain
          refine List.Chain'.imp ?_ hc
          intro x y hxy
          exact hxy
      · left
        rw [if_neg hfound]

/-- A four-node chain `a - x1 - x2 - b`, as in spec scenario S2. -/
def exPathStore : Store :=
  { nodes := []
    edges :=
      [ { id := "e1", source_id := "a", target_id := "x1", relation := "LINKS",
          confidence := 1, props := [("namespace", PVal.str "A")] },
        { id := "e2", source_id := "x1", target_id := "x2", relation := "LINKS",
          confidence := 1, props := [("namespace", PVal.str "A")] },
        { id := "e3", source_id := "x2", target_id := "b", relation := "LINKS",
          confidence := 1, props := [("namespace", PVal.str "A")] } ]
    log := [] }

/-- C2 counterexample — with `max_depth = 1` the BFS still returns the full
4-node path: the result is neither empty nor within the claimed
`max_depth + 1` length bound, refuting the claim as stated. -/
theorem C2_path_law_counterexample :
    shortestPath exPathStore "a" "b" 1 none = ["a", "x1", "x2", "b"] ∧
    ¬((shortestPath exPathStore "a" "b" 1 none).length ≤ 1 + 1) ∧
    shortestPath exPathStore "a" "b" 1 none ≠ [] := by
  refine ⟨?_, ?_, ?_⟩ <;> decide

/-- Witness for the amended C2 at the chain store. -/
theorem C2_path_law_amended_witness :
    ("a" = "b" → shortestPath exPathStore "a" "b" 5 none = ["a"]) ∧
    (shortestPath exPathStore "a" "b" 5 none = [] ∨
      ((shortestPath exPathStore "a" "b" 5 none).head? = some "a" ∧
       (shortestPath exPathStore "a" "b" 5 none).getLast? = some "b" ∧
       (shortestPath exPathStore "a" "b" 5 none).Chain' (EdgeBetween exPathStore.edges))) :=
  C2_path_law_amended exPathStore "a" "b" 5 none

/-! ## Text utilities shared by retrieval, the query adapter and the ingestor -/

/-- Characters matched by the regex class `\w` (ASCII view). -/
def isWordChar (c : Char) : Bool := c.isAlphanum || c = '_'

/-- Maximal runs of characters satisfying `p` (regex `findall` of `p+`). -/
def runsByAux (p : Char → Bool) : List Char → List Char → List (List Char)
  | [], acc => if acc.isEmpty then [] else [acc.reverse]
  | c :: rest, acc =>
      if p c then runsByAux p rest (c :: acc)
      else if acc.isEmpty then runsByAux p rest []
      else acc.reverse :: runsByAux p rest []

/-- Maximal nonempty runs of characters satisfying `p`. -/
def runsBy (p : Char → Bool) (cs : List Char) : List (List Char) := runsByAux p cs []

/-- `re.findall(r"\w+", s)`. -/
def findallWords (s : String) : List String :=
  (runsBy isWordChar s.data).map (fun cs => ⟨cs⟩)

/-- Python `s.split()`: maximal runs of non-whitespace. -/
def splitWs (s : String) : List String :=
  (runsBy (fun c => ¬ c.isWhitespace) s.data).map (fun cs => ⟨cs⟩)

/-- Python `str.lower()` (ASCII case fold, structural so it evaluates). -/
def strLower (s : String) : String := ⟨s.data.map Char.toLower⟩

/-- Python `needle in hay` on strings (contiguous substring). -/
def strContains (hay needle : String) : Bool :=
  decide (needle.data.IsInfix hay.data)

/-! ## Hybrid retrieval (GraphRAGService.hybrid_retrieve)

Embedded for the default configuration: no Qdrant client (QDRANT_URL unset),
so the strategy chain is in-process embedding similarity → name substring →
BM25 over chunks.  The query embedding (`qEmb`, empty when the embedding
client is unconfigured or failed), the float cosine (`cosineF`) and `math.log`
(`lnQ`) are external collaborators passed as parameters.  Results are returned
as the chosen node rows (the Python code projects them to dicts). -/

/-- `select(GraphNode).limit(1500)` followed by the Python-side namespace and
label filters. -/
def hrNsNodes (σ : Store) (ns : String) (label_filter : Option (List String)) : List GNode :=
  let base : List GNode := (σ.nodes.take 1500).filter (fun n => nodeResolvedNs n = ns)
  match label_filter with
  | some lf => base.filter (fun n => decide (n.label ∈ lf))
  | none => base

/-- In-process embedding-similarity strategy: cosine rank over the
namespace-scoped nodes that have embeddings. -/
def hrEmbChoice (σ : Store) (ns : String) (label_filter : Option (List String))
    (top_k : Nat) (qEmb : List ℚ) (cosineF : List ℚ → List ℚ → ℚ) : List GNode :=
  let all_nodes := hrNsNodes σ ns label_filter
  let has_embeds := all_nodes.any (fun n => ¬ n.embedding.isEmpty)
  if has_embeds ∧ ¬ qEmb.isEmpty then
    let scored := (all_nodes.filter (fun n => ¬ n.embedding.isEmpty)).map
      (fun n => (n, cosineF n.embedding qEmb))
    ((sortDesc (fun p => p.2) scored).take top_k).map (·.1)
  else []

/-- Name-substring strategy: `name ILIKE %query%` with `limit(top_k*5)`, then
the Python-side namespace and label filters, truncated to `top_k`. -/
def hrNameChoice (σ : Store) (ns : String) (label_filter : Option (List String))
    (top_k : Nat) (query : String) : List GNode :=
  let base : List GNode := ((σ.nodes.filter
      (fun n => strContains (strLower n.name) (strLower query))).take (top_k * 5)).filter
    (fun n => nodeResolvedNs n = ns)
  let name_nodes : List GNode := match label_filter with
    | some lf => base.filter (fun n => decide (n.label ∈ lf))
    | none => base
  name_nodes.take top_k

/-- The chunk nodes considered by the BM25 strategy:
`select(GraphNode).where(label == "Chunk").limit(4000)` plus the Python-side
namespace filter. -/
def bm25Chunks (σ : Store) (ns : String) : List GNode :=
  ((σ.nodes.filter (fun n => n.label = "Chunk")).take 4000).filter
    (fun n => nodeResolvedNs n = ns)

/-- The `(chunk, tokens)` pairs: tokenize each chunk text with `\w+` and
lowercase, dropping token-free chunks. -/
def bm25DocTexts (σ : Store) (ns : String) : List (GNode × List String) :=
  (bm25Chunks σ ns).filterMap (fun c =>
    let toks := (findallWords ((getStrP c.props "text").getD "")).map strLower
    if toks.isEmpty then none else some (c, toks))

/-- The body of the per-chunk BM25 scoring loop (`k1 = 1.5`, `b = 0.75`,
`1e-9` smoothing); yields the chunk with its score when positive. -/
def bm25DocScore (doc_texts : List (GNode × List String)) (terms : List String)
    (N avg_dl : ℚ) (lnQ : ℚ → ℚ) (p : GNode × List String) : Option (GNode × ℚ) :=
  let dl : ℚ := ((p.2.length : Nat) : ℚ)
  let present := terms.dedup.filter (fun t => decide (t ∈ p.2))
  if present.isEmpty then none
  else
    let k1 : ℚ := 3/2
    let b : ℚ := 3/4
    let score : ℚ := (present.map (fun term =>
      let tf : ℚ := (((p.2.filter (fun w => w = term)).length : Nat) : ℚ)
      let df_t : ℚ := (((doc_texts.filter
        (fun p2 => decide (term ∈ p2.2))).length : Nat) : ℚ)
      let idf := lnQ ((N - df_t + 1/2) / (df_t + 1/2) + 1)
      let denom := tf + k1 * (1 - b + b * (dl / (if avg_dl = 0 then 1 else avg_dl)))
      idf * (tf * (k1 + 1)) / (denom + 1/(10:ℚ)^9))).sum
    if 0 < score then some (p.1, score) else none

/-- BM25 strategy over namespace-scoped chunks (positive scores only, sorted
descending, truncated to `top_k`). -/
def hrBm25Choice (σ : Store) (ns : String) (top_k : Nat) (query : String)
    (lnQ : ℚ → ℚ) : List GNode :=
  let terms := (findallWords query).map strLower
  if terms.isEmpty then []
  else
    let doc_texts := bm25DocTexts σ ns
    let N : ℚ := ((max doc_texts.length 1 : Nat) : ℚ)
    let avg_dl : ℚ := ((doc_texts.map (fun p => ((p.2.length : Nat) : ℚ))).sum) / N
    let scores := doc_texts.filterMap (bm25DocScore doc_texts terms N avg_dl lnQ)
    ((sortDesc (fun p => p.2) scores).take top_k).map (·.1)

/-- `GraphRAGService.hybrid_retrieve(query, top_k, namespace, label_filter,
relation_filter)`: the strategy chain (without Qdrant), the incident-edge
fetch capped at 300 with the relation filter, and the strategy-chain report. -/
def hybridRetrieve (σ : Store) (query : String) (top_k : Nat) (nsOpt : Option String)
    (label_filter relation_filter : Option (List String))
    (qEmb : List ℚ) (cosineF : List ℚ → List ℚ → ℚ) (lnQ : ℚ → ℚ) :
    List GNode × List GEdge × List String :=
  let ns := nsOpt.getD DEFAULT_NAMESPACE
  let c1 := hrEmbChoice σ ns label_filter top_k qEmb cosineF
  let c2 := if c1.isEmpty then hrNameChoice σ ns label_filter top_k query else c1
  let chosen := if c2.isEmpty then hrBm25Choice σ ns top_k query lnQ else c2
  let chain :=
    (if ¬ c1.isEmpty then ["embedding"] else []) ++
    (if c1.isEmpty ∧ ¬ c2.isEmpty then ["name_contains"] else []) ++
    (if c2.isEmpty ∧ ¬ chosen.isEmpty then ["bm25"] else [])
  let ids : List String := chosen.map (·.id)
  let edges0 := (σ.edges.filter
    (fun e => decide (e.source_id ∈ ids) || decide (e.target_id ∈ ids))).take 300
  let edgesF := match relation_filter with
    | some rf => edges0.filter (fun e => decide (e.relation ∈ rf))
    | none => edges0
  (chosen, edgesF, chain)

/-! ## Cluster service (ClusterService.compute_if_stale / get_clusters)

Embedded is the membership-relevant portion of one (cache-miss or forced)
computation: the namespace-scoped graph construction and the rewritten
`(namespace, "louvain")` membership rows.  Community detection
(`louvain_communities` / `greedy_modularity_communities`) is an external
networkx collaborator, passed as the `detect` parameter (it receives the graph
node ids and weighted edges).  The returned cluster payload (sizes, centroids,
sample names) and the in-memory cache are not needed by any claim and are not
modelled. -/

/-- `(n.namespace or settings.DEFAULT_NAMESPACE)` on the denormalized column. -/
def colResolvedNs (o : Option String) : String :=
  match o with
  | none => DEFAULT_NAMESPACE
  | some s => if s = "" then DEFAULT_NAMESPACE else s

/-- The SQL filter `(namespace == ns) | (namespace is None)` followed by the
Python-side `(n.namespace or DEFAULT) == ns` filter. -/
def clusterNsNodes (σ : Store) (ns : String) : List GNode :=
  (σ.nodes.filter (fun n => decide (n.nsCol = some ns ∨ n.nsCol = none))).filter
    (fun n => colResolvedNs n.nsCol = ns)

/-- The membership rows `compute_if_stale` inserts for `(ns, "louvain")`:
one row per member of each detected community, with synthetic ids `c1, c2, …`
assigned in descending community-size order. -/
def computeClustersMemberships (σ : Store) (ns : String)
    (detect : List String → List (String × String × ℚ) → List (List String)) :
    List MembershipRow :=
  let nodes := clusterNsNodes σ ns
  let edges := σ.edges.filter (fun e => decide (edgeResolvedNs e = ns))
  let gnodeIds : List String := (nodes.map (·.id)).dedup
  let gedges : List (String × String × ℚ) := (edges.filter
    (fun e => decide (e.source_id ∈ gnodeIds) && decide (e.target_id ∈ gnodeIds))).map
    (fun e => (e.source_id, e.target_id, if e.confidence = 0 then 1 else e.confidence))
  let communities := detect gnodeIds gedges
  let sortedComms := sortDesc (fun c => ((c.length : Nat) : ℚ)) communities
  sortedComms.enum.bind (fun p =>
    p.2.map (fun nid =>
      ({ node_id := nid, cluster_id := "c" ++ toString (p.1 + 1),
         nsCol := ns, algorithm := "louvain" } : MembershipRow)))

theorem mem_hrNsNodes (σ : Store) (ns : String) (lf : Option (List String))
    (n : GNode) (hn : n ∈ hrNsNodes σ ns lf) : nodeResolvedNs n = ns := by
  unfold hrNsNodes at hn
  rcases lf with _ | l
  · simp only at hn
    simpa using (List.mem_filter.mp hn).2
  · simp only at hn
    simpa using (List.mem_filter.mp (List.mem_filter.mp hn).1).2

theorem mem_hrEmbChoice (σ : Store) (ns : String) (lf : Option (List String))
    (top_k : Nat) (qEmb : List ℚ) (cosineF : List ℚ → List ℚ → ℚ)
    (n : GNode) (hn : n ∈ hrEmbChoice σ ns lf top_k qEmb cosineF) :
    nodeResolvedNs n = ns := by
  unfold hrEmbChoice at hn
  by_cases hc : ((hrNsNodes σ ns lf).any (fun n => ¬ n.embedding.isEmpty)) ∧ ¬ qEmb.isEmpty
  · rw [if_pos hc] at hn
    rcases List.mem_map.mp hn with ⟨p, hp, rfl⟩
    have hp2 := List.mem_of_mem_take hp
    rw [mem_sortDesc] at hp2
    rcases List.mem_map.mp hp2 with ⟨m, hm, rfl⟩
    exact mem_hrNsNodes σ ns lf m (List.mem_filter.mp hm).1
  · rw [if_neg hc] at hn
    simp at hn

theorem mem_hrNameChoice (σ : Store) (ns : String) (lf : Option (List String))
    (top_k : Nat) (query : String)
    (n : GNode) (hn : n ∈ hrNameChoice σ ns lf top_k query) :
    nodeResolvedNs n = ns := by
  unfold hrNameChoice at hn
  have hn2 := List.mem_of_mem_take hn
  rcases lf with _ | l
  · simp only at hn2
    simpa using (List.mem_filter.mp hn2).2
  · simp only at hn2
    simpa using (List.mem_filter.mp (List.mem_filter.mp hn2).1).2

theorem if_some_fst (x : GNode) (score : ℚ) (r : GNode × ℚ)
    (h : (if 0 < score then some (x, score) else none) = some r) : r.1 = x := by
  split at h
  · simp only [Option.some.injEq] at h
    exact congrArg Prod.fst h.symm
  · exact absurd h (by simp)

theorem bm25DocScore_fst (doc_texts : List (GNode × List String)) (terms : List String)
    (N avg_dl : ℚ) (lnQ : ℚ → ℚ) (p : GNode × List String) (r : GNode × ℚ)
    (h : bm25DocScore doc_texts terms N avg_dl lnQ p = some r) : r.1 = p.1 := by
  unfold bm25DocScore at h
  dsimp only at h
  by_cases hpres : (terms.dedup.filter (fun t => decide (t ∈ p.2))).isEmpty
  · rw [if_pos hpres] at h
    exact absurd h (by simp)
  · rw [if_neg hpres] at h
    exact if_some_fst _ _ _ h

theorem mem_bm25DocTexts (σ : Store) (ns : String) (d : GNode × List String)
    (hd : d ∈ bm25DocTexts σ ns) : nodeResolvedNs d.1 = ns := by
  unfold bm25DocTexts at hd
  rcases List.mem_filterMap.mp hd with ⟨c, hc, hcsome⟩
  have hcns : nodeResolvedNs c = ns := by
    simpa using (List.mem_filter.mp hc).2
  dsimp only at hcsome
  by_cases htoks :
      ((findallWords ((getStrP c.props "text").getD "")).map strLower).isEmpty
  · rw [if_pos htoks] at hcsome
    exact absurd hcsome (by simp)
  · rw [if_neg htoks] at hcsome
    simp only [Option.some.injEq] at hcsome
    rw [← hcsome]
    exact hcns

theorem mem_hrBm25Choice (σ : Store) (ns : String) (top_k : Nat) (query : String)
    (lnQ : ℚ → ℚ)
    (n : GNode) (hn : n ∈ hrBm25Choice σ ns top_k query lnQ) :
    nodeResolvedNs n = ns := by
  unfold hrBm25Choice at hn
  by_cases ht : ((findallWords query).map strLower).isEmpty
  · rw [if_pos ht] at hn
    simp at hn
  · rw [if_neg ht] at hn
    rcases List.mem_map.mp hn with ⟨p, hp, rfl⟩
    have hp2 := List.mem_of_mem_take hp
    rw [mem_sortDesc] at hp2
    rcases List.mem_filterMap.mp hp2 with ⟨d, hd, hdsome⟩
    have h1 : p.1 = d.1 := bm25DocScore_fst _ _ _ _ _ _ _ hdsome
    rw [h1]
    exact mem_bm25DocTexts σ ns d hd

/-- C1 (amended) — Namespace isolation holds for retrieval and clustering but
not for pathfinding or snapshot edge counts: every node returned by
`hybrid_retrieve` scoped to B resolves to namespace B (hence is never a node
tagged with a different namespace A); every membership row written by
`get_clusters` for B names a node whose namespace column resolves to B; but
`shortest_path` ignores its namespace argument entirely, and
`create_snapshot`'s edge count is the size of the whole edge table, regardless
of namespace. -/
theorem C1_namespace_isolation_amended
    (σ : Store) (query : String) (top_k : Nat) (B A : String) (hAB : A ≠ B)
    (label_filter relation_filter : Option (List String))
    (qEmb : List ℚ) (cosineF : List ℚ → List ℚ → ℚ) (lnQ : ℚ → ℚ)
    (detect : List String → List (String × String × ℚ) → List (List String))
    (hdetect : ∀ ids es c, c ∈ detect ids es → ∀ v ∈ c, v ∈ ids)
    (memberships : List MembershipRow) (cachedMod : Option ℚ) (snapId : String) :
    (∀ n ∈ (hybridRetrieve σ query top_k (some B) label_filter relation_filter
        qEmb cosineF lnQ).1,
      nodeResolvedNs n = B ∧ propNs n.props ≠ some A) ∧
    (∀ m ∈ computeClustersMemberships σ B detect,
      ∃ node ∈ σ.nodes, node.id = m.node_id ∧ colResolvedNs node.nsCol = B) ∧
    (∀ src tgt d ns1 ns2, shortestPath σ src tgt d ns1 = shortestPath σ src tgt d ns2) ∧
    (createSnapshot σ memberships cachedMod B snapId).edge_count = σ.edges.length := by
  refine ⟨?_, ?_, ?_, rfl⟩
  · intro n hn
    have hB : nodeResolvedNs n = B := by
      have hch : n ∈
          (let ns := (some B).getD DEFAULT_NAMESPACE
           let c1 := hrEmbChoice σ ns label_filter top_k qEmb cosineF
           let c2 := if c1.isEmpty then hrNameChoice σ ns label_filter top_k query else c1
           if c2.isEmpty then hrBm25Choice σ ns top_k query lnQ else c2) := hn
      simp only [Option.getD_some] at hch
      by_cases h2 : (if (hrEmbChoice σ B label_filter top_k qEmb cosineF).isEmpty
          then hrNameChoice σ B label_filter top_k query
          else hrEmbChoice σ B label_filter top_k qEmb cosineF).isEmpty
      · rw [if_pos h2] at hch
        exact mem_hrBm25Choice σ B top_k query lnQ n hch
      · rw [if_neg h2] at hch
        by_cases h1 : (hrEmbChoice σ B label_filter top_k qEmb cosineF).isEmpty
        · rw [if_pos h1] at hch
          exact mem_hrNameChoice σ B label_filter top_k query n hch
        · rw [if_neg h1] at hch
          exact mem_hrEmbChoice σ B label_filter top_k qEmb cosineF n hch
    refine ⟨hB, ?_⟩
    intro hA
    apply hAB
    have : nodeResolvedNs n = A := by
      unfold nodeResolvedNs
      rw [hA]
      rfl
    rw [← this, hB]
  · intro m hm
    unfold computeClustersMemberships at hm
    rcases List.mem_bind.mp hm with ⟨pr, hpr, hmem⟩
    rcases List.mem_map.mp hmem with ⟨nid, hnid, rfl⟩
    have hpr2 : pr ∈ (sortDesc (fun c => ((c.length : Nat) : ℚ))
        (detect ((clusterNsNodes σ B).map (·.id)).dedup _)).enum := hpr
    have hcomm : pr.2 ∈ detect ((clusterNsNodes σ B).map (·.id)).dedup
        (((σ.edges.filter (fun e => decide (edgeResolvedNs e = B))).filter
          (fun e => decide (e.source_id ∈ ((clusterNsNodes σ B).map (·.id)).dedup) &&
            decide (e.target_id ∈ ((clusterNsNodes σ B).map (·.id)).dedup))).map
          (fun e => (e.source_id, e.target_id, if e.confidence = 0 then 1 else e.confidence))) := by
      have hx := List.mem_enum_iff_getElem?.mp hpr2
      have hmem2 := List.getElem?_mem hx
      rw [mem_sortDesc] at hmem2
      exact hmem2
    have hninG : nid ∈ ((clusterNsNodes σ B).map (·.id)).dedup :=
      hdetect _ _ _ hcomm nid hnid
    rw [List.mem_dedup] at hninG
    rcases List.mem_map.mp hninG with ⟨node, hnode, rfl⟩
    refine ⟨node, ?_, rfl, ?_⟩
    · exact (List.mem_filter.mp (List.mem_filter.mp hnode).1).1
    · simpa using (List.mem_filter.mp hnode).2
  · intro src tgt d ns1 ns2
    rfl

/-- A node ingested into namespace `A`. -/
def exNodeA1 : GNode :=
  { id := "a1", label := "Entity", name := "Alpha One",
    props := [("namespace", PVal.str "A")], source_ids := ["docA"],
    embedding := [], nsCol := some "A" }

/-- A second node ingested into namespace `A`. -/
def exNodeA2 : GNode :=
  { id := "a2", label := "Entity", name := "Alpha Two",
    props := [("namespace", PVal.str "A")], source_ids := ["docA"],
    embedding := [], nsCol := some "A" }

/-- A store whose data all belongs to namespace `A`. -/
def exNsStore : Store :=
  { nodes := [exNodeA1, exNodeA2]
    edges := [ { id := "eA", source_id := "a1", target_id := "a2",
                 relation := "RELATED_TO", confidence := 1,
                 props := [("namespace", PVal.str "A")] } ]
    log := [] }

/-- C1 counterexample — a pathfinding query scoped to namespace `B` returns
the namespace-`A` nodes `a1, a2` (the BFS reads every edge row), and a
snapshot of namespace `B` counts namespace-`A` edges: isolation fails for
`shortest_path` and `create_snapshot` as claimed. -/
theorem C1_namespace_isolation_counterexample :
    shortestPath exNsStore "a1" "a2" 4 (some "B") = ["a1", "a2"] ∧
    exNodeA1 ∈ exNsStore.nodes ∧
    nodeResolvedNs exNodeA1 = "A" ∧
    ("A" : String) ≠ "B" ∧
    (createSnapshot exNsStore [] none "B" "snapB").edge_count = 1 := by
  refine ⟨by decide, by decide, by decide, by decide, rfl⟩

/-- Witness for the amended C1 at a concrete store and parameters. -/
theorem C1_namespace_isolation_amended_witness :
    (∀ n ∈ (hybridRetrieve exNsStore "alpha" 5 (some "B") none none
        [] (fun _ _ => 0) (fun _ => 0)).1,
      nodeResolvedNs n = "B" ∧ propNs n.props ≠ some "A") ∧
    (∀ m ∈ computeClustersMemberships exNsStore "B" (fun ids _ => [ids]),
      ∃ node ∈ exNsStore.nodes, node.id = m.node_id ∧ colResolvedNs node.nsCol = "B") ∧
    (∀ src tgt d ns1 ns2,
      shortestPath exNsStore src tgt d ns1 = shortestPath exNsStore src tgt d ns2) ∧
    (createSnapshot exNsStore [] none "B" "snapB").edge_count = exNsStore.edges.length :=
  C1_namespace_isolation_amended exNsStore "alpha" 5 "B" "A" (by decide)
    none none [] (fun _ _ => 0) (fun _ => 0) (fun ids _ => [ids])
    (by
      intro ids es c hc v hv
      simp only [List.mem_singleton] at hc
      subst hc
      exact hv)
    [] none "snapB"

/-! ## Centrality (GraphRAGService.compute_centrality)

PageRank and betweenness are computed by networkx and arrive here as maps
node-id → value (`pr`, `btw`); the embedded part is the service's own
normalization, write-back and importance aggregation.  The size guards merely
decide whether networkx is called at all (`pr`/`btw` are empty dicts when it
is skipped or fails), which the parameters already cover. -/

/-- Python `min(vals)` over a nonempty list. -/
def listMin (l : List ℚ) : ℚ :=
  match l with
  | [] => 0
  | x :: xs => xs.foldl min x

/-- Python `max(vals)` over a nonempty list. -/
def listMax (l : List ℚ) : ℚ :=
  match l with
  | [] => 0
  | x :: xs => xs.foldl max x

/-- Dict lookup in a node-id → value map. -/
def lookupQ (l : List (String × ℚ)) (k : String) : Option ℚ :=
  (l.find? (fun p => p.1 = k)).map (·.2)

/-- Apply a function to every value of a node-id → value map. -/
def mapSnd (h : ℚ → ℚ) (d : List (String × ℚ)) : List (String × ℚ) :=
  d.map (fun p => (p.1, h p.2))

/-- The `norm` helper of `compute_centrality`: min-max normalization, with
collapse to all zeros when `max - min < 1e-12`. -/
def normMinMax (d : List (String × ℚ)) : List (String × ℚ) :=
  if d.isEmpty then []
  else
    let vals := d.map (·.2)
    let mn := listMin vals
    let mx := listMax vals
    if mx - mn < 1/(10:ℚ)^12 then mapSnd (fun _ => 0) d
    else mapSnd (fun x => (x - mn)/(mx - mn)) d

/-- The raw + normalized write-back for one node: `pagerank`/`pagerank_norm`
when the node is a `pr` key, `betweenness`/`betweenness_norm` when it is a
`btw` key (values rounded to 8 resp. 6 decimals as in the source). -/
def centralityNormProps (pr btw pr_norm btw_norm : List (String × ℚ)) (n : GNode) : Props :=
  let p1 := match lookupQ pr n.id with
    | some v => setP (setP n.props "pagerank" (.num (roundTo 8 v)))
        "pagerank_norm" (.num (roundTo 6 ((lookupQ pr_norm n.id).getD 0)))
    | none => n.props
  match lookupQ btw n.id with
  | some v => setP (setP p1 "betweenness" (.num (roundTo 8 v)))
      "betweenness_norm" (.num (roundTo 6 ((lookupQ btw_norm n.id).getD 0)))
  | none => p1

/-- The numeric values among `pagerank_norm`, `betweenness_norm`,
`degree_norm` present on a property map, in that order. -/
def importanceParts (ps : Props) : List ℚ :=
  ["pagerank_norm", "betweenness_norm", "degree_norm"].filterMap (fun k => getNumP ps k)

/-- Per-node update of `compute_centrality`: norm write-back plus
`importance = round(mean(parts), 6)` whenever any part is present. -/
def centralityUpdateNode (pr btw pr_norm btw_norm : List (String × ℚ)) (n : GNode) : GNode :=
  let p2 := centralityNormProps pr btw pr_norm btw_norm n
  let parts := importanceParts p2
  if ¬ parts.isEmpty then
    { n with props := setP p2 "importance" (.num (roundTo 6 (parts.sum / (parts.length : ℚ)))) }
  else
    { n with props := p2 }

/-- `GraphRAGService.compute_centrality(namespace)`: no-op (error return) when
the namespace has no nodes; otherwise every namespace-scoped node row is
updated in place, other rows untouched. -/
def computeCentrality (σ : Store) (ns : String) (pr btw : List (String × ℚ)) : Store :=
  let nsNodes := σ.nodes.filter (fun n => decide (nodeResolvedNs n = ns))
  if nsNodes.isEmpty then σ
  else
    let pr_norm := normMinMax pr
    let btw_norm := normMinMax btw
    { σ with nodes := σ.nodes.map (fun n =>
        if nodeResolvedNs n = ns then centralityUpdateNode pr btw pr_norm btw_norm n else n) }

theorem getP_setP_same (ps : Props) (k : String) (v : PVal) :
    getP (setP ps k v) k = some v := by
  unfold setP
  by_cases h : ps.any (fun p => p.1 = k)
  · rw [if_pos h]
    induction ps with
    | nil => simp at h
    | cons p rest ih =>
        by_cases hp : p.1 = k
        · unfold getP
          rw [List.map_cons, if_pos hp,
            List.find?_cons_of_pos _ (by simp)]
          rfl
        · have h2 : rest.any (fun p => p.1 = k) := by
            simp only [List.any_cons] at h
            rcases Bool.or_eq_true_iff.mp h with h3 | h3
            · exact absurd (of_decide_eq_true h3) hp
            · exact h3
          unfold getP at ih ⊢
          rw [List.map_cons, if_neg hp,
            List.find?_cons_of_neg _ (by simpa using hp)]
          exact ih h2
  · rw [if_neg h]
    induction ps with
    | nil =>
        unfold getP
        rw [List.nil_append, List.find?_cons_of_pos _ (by simp)]
        rfl
    | cons p rest ih =>
        have hp : ¬ p.1 = k := by
          intro hc
          exact h (by simp [List.any_cons, hc])
        have h2 : ¬ rest.any (fun p => p.1 = k) := by
          intro hc
          exact h (by simp [List.any_cons, hc])
        unfold getP at ih ⊢
        rw [List.cons_append, List.find?_cons_of_neg _ (by simpa using hp)]
        exact ih h2

theorem getP_setP_ne (ps : Props) (k k2 : String) (v : PVal) (hne : k2 ≠ k) :
    getP (setP ps k v) k2 = getP ps k2 := by
  unfold setP
  by_cases h : ps.any (fun p => p.1 = k)
  · rw [if_pos h]
    clear h
    induction ps with
    | nil => simp
    | cons p rest ih =>
        unfold getP at ih ⊢
        by_cases hp : p.1 = k
        · rw [List.map_cons, if_pos hp,
            List.find?_cons_of_neg _ (by simpa using hne.symm),
            List.find?_cons_of_neg _ (by
              simp only [decide_eq_true_eq]
              intro hc
              exact hne (hc ▸ hp ▸ rfl))]
          exact ih
        · by_cases hpk2 : p.1 = k2
          · rw [List.map_cons, if_neg hp,
              List.find?_cons_of_pos _ (by simpa using hpk2),
              List.find?_cons_of_pos _ (by simpa using hpk2)]
          · rw [List.map_cons, if_neg hp,
              List.find?_cons_of_neg _ (by simpa using hpk2),
              List.find?_cons_of_neg _ (by simpa using hpk2)]
            exact ih
  · rw [if_neg h]
    unfold getP
    rw [List.find?_append]
    rcases hfind : ps.find? (fun p => p.1 = k2) with _ | a
    · simp only [hfind, Option.none_orElse]
      rw [List.find?_cons_of_neg _ (by simpa using hne.symm)]
      rfl
    · simp [hfind]

theorem getNumP_setP_num (ps : Props) (k : String) (q : ℚ) :
    getNumP (setP ps k (.num q)) k = some q := by
  unfold getNumP
  rw [getP_setP_same]

theorem getNumP_setP_ne (ps : Props) (k k2 : String) (v : PVal) (hne : k2 ≠ k) :
    getNumP (setP ps k v) k2 = getNumP ps k2 := by
  unfold getNumP
  rw [getP_setP_ne ps k k2 v hne]

theorem foldl_min_le_init (l : List ℚ) (a : ℚ) : l.foldl min a ≤ a := by
  induction l generalizing a with
  | nil => simp
  | cons x xs ih =>
      simp only [List.foldl_cons]
      exact le_trans (ih (min a x)) (min_le_left a x)

theorem foldl_min_le_mem (l : List ℚ) : ∀ (a v : ℚ), v ∈ l → l.foldl min a ≤ v := by
  induction l with
  | nil => intro a v hv; simp at hv
  | cons x xs ih =>
      intro a v hv
      simp only [List.foldl_cons]
      rcases List.mem_cons.mp hv with rfl | hv2
      · exact le_trans (foldl_min_le_init xs (min a v)) (min_le_right a v)
      · exact ih (min a x) v hv2

theorem init_le_foldl_max (l : List ℚ) (a : ℚ) : a ≤ l.foldl max a := by
  induction l generalizing a with
  | nil => simp
  | cons x xs ih =>
      simp only [List.foldl_cons]
      exact le_trans (le_max_left a x) (ih (max a x))

theorem mem_le_foldl_max (l : List ℚ) : ∀ (a v : ℚ), v ∈ l → v ≤ l.foldl max a := by
  induction l with
  | nil => intro a v hv; simp at hv
  | cons x xs ih =>
      intro a v hv
      simp only [List.foldl_cons]
      rcases List.mem_cons.mp hv with rfl | hv2
      · exact le_trans (le_max_right a v) (init_le_foldl_max xs (max a v))
      · exact ih (max a x) v hv2

theorem listMin_le (l : List ℚ) (v : ℚ) (hv : v ∈ l) : listMin l ≤ v := by
  rcases l with _ | ⟨x, xs⟩
  · simp at hv
  · unfold listMin
    rcases List.mem_cons.mp hv with rfl | hv2
    · exact foldl_min_le_init xs v
    · exact foldl_min_le_mem xs x v hv2

theorem le_listMax (l : List ℚ) (v : ℚ) (hv : v ∈ l) : v ≤ listMax l := by
  rcases l with _ | ⟨x, xs⟩
  · simp at hv
  · unfold listMax
    rcases List.mem_cons.mp hv with rfl | hv2
    · exact init_le_foldl_max xs v
    · exact mem_le_foldl_max xs x v hv2

theorem lookupQ_mapSnd (h : ℚ → ℚ) (d : List (String × ℚ)) (k : String) :
    lookupQ (mapSnd h d) k = (lookupQ d k).map h := by
  unfold mapSnd
  induction d with
  | nil => simp [lookupQ]
  | cons p rest ih =>
      unfold lookupQ at ih ⊢
      by_cases hp : p.1 = k
      · rw [List.map_cons, List.find?_cons_of_pos _ (by simpa using hp),
          List.find?_cons_of_pos _ (by simpa using hp)]
        rfl
      · rw [List.map_cons, List.find?_cons_of_neg _ (by simpa using hp),
          List.find?_cons_of_neg _ (by simpa using hp)]
        exact ih

theorem lookupQ_mem_snd (d : List (String × ℚ)) (k : String) (v : ℚ)
    (hv : lookupQ d k = some v) : v ∈ d.map (·.2) := by
  unfold lookupQ at hv
  rcases hfind : d.find? (fun p => p.1 = k) with _ | a
  · rw [hfind] at hv
    exact absurd hv (by simp)
  · rw [hfind] at hv
    simp at hv
    have := List.mem_of_find?_eq_some hfind
    subst hv
    exact List.mem_map.mpr ⟨a, this, rfl⟩

theorem normMinMax_lookup (d : List (String × ℚ)) (k : String) (v : ℚ)
    (hv : lookupQ d k = some v) :
    lookupQ (normMinMax d) k =
      some (if listMax (d.map (·.2)) - listMin (d.map (·.2)) < 1/(10:ℚ)^12 then 0
        else (v - listMin (d.map (·.2))) / (listMax (d.map (·.2)) - listMin (d.map (·.2)))) := by
  have hne : ¬ d.isEmpty := by
    rcases d with _ | _
    · simp [lookupQ] at hv
    · simp
  unfold normMinMax
  rw [if_neg hne]
  by_cases hdeg : listMax (d.map (·.2)) - listMin (d.map (·.2)) < 1/(10:ℚ)^12
  · rw [if_pos hdeg, if_pos hdeg, lookupQ_mapSnd, hv]
    rfl
  · rw [if_neg hdeg, if_neg hdeg, lookupQ_mapSnd, hv]
    rfl

theorem normMinMax_bounds (d : List (String × ℚ)) (k : String) (v q : ℚ)
    (hv : lookupQ d k = some v) (hq : lookupQ (normMinMax d) k = some q) :
    0 ≤ q ∧ q ≤ 1 := by
  rw [normMinMax_lookup d k v hv] at hq
  simp only [Option.some.injEq] at hq
  subst hq
  by_cases hdeg : listMax (d.map (·.2)) - listMin (d.map (·.2)) < 1/(10:ℚ)^12
  · rw [if_pos hdeg]
    norm_num
  · rw [if_neg hdeg]
    have hpos : (0:ℚ) < listMax (d.map (·.2)) - listMin (d.map (·.2)) := by
      have := not_lt.mp hdeg
      have hp : (0:ℚ) < 1/(10:ℚ)^12 := by norm_num
      linarith
    have hmem := lookupQ_mem_snd d k v hv
    have h1 := listMin_le (d.map (·.2)) v hmem
    have h2 := le_listMax (d.map (·.2)) v hmem
    constructor
    · apply div_nonneg <;> linarith
    · rw [div_le_one hpos]
      linarith

theorem normMinMax_mono (d : List (String × ℚ)) (k1 k2 : String) (v1 v2 q1 q2 : ℚ)
    (hv1 : lookupQ d k1 = some v1) (hv2 : lookupQ d k2 = some v2) (hle : v2 ≤ v1)
    (hq1 : lookupQ (normMinMax d) k1 = some q1)
    (hq2 : lookupQ (normMinMax d) k2 = some q2) : q2 ≤ q1 := by
  rw [normMinMax_lookup d k1 v1 hv1] at hq1
  rw [normMinMax_lookup d k2 v2 hv2] at hq2
  simp only [Option.some.injEq] at hq1 hq2
  subst hq1
  subst hq2
  by_cases hdeg : listMax (d.map (·.2)) - listMin (d.map (·.2)) < 1/(10:ℚ)^12
  · rw [if_pos hdeg, if_pos hdeg]
  · rw [if_neg hdeg, if_neg hdeg]
    have hpos : (0:ℚ) < listMax (d.map (·.2)) - listMin (d.map (·.2)) := by
      have := not_lt.mp hdeg
      have hp : (0:ℚ) < 1/(10:ℚ)^12 := by norm_num
      linarith
    have hsub : v2 - listMin (d.map (·.2)) ≤ v1 - listMin (d.map (·.2)) := by linarith
    exact div_le_div_of_nonneg_right hsub (le_of_lt hpos)

theorem centralityNormProps_pr (pr btw prn btn : List (String × ℚ)) (n : GNode) (v : ℚ)
    (hv : lookupQ pr n.id = some v) :
    getNumP (centralityNormProps pr btw prn btn n) "pagerank_norm" =
      some (roundTo 6 ((lookupQ prn n.id).getD 0)) := by
  unfold centralityNormProps
  rw [hv]
  rcases hb : lookupQ btw n.id with _ | w
  · dsimp only
    exact getNumP_setP_num _ _ _
  · dsimp only
    rw [getNumP_setP_ne _ _ _ _ (by decide), getNumP_setP_ne _ _ _ _ (by decide)]
    exact getNumP_setP_num _ _ _

theorem centralityNormProps_btw (pr btw prn btn : List (String × ℚ)) (n : GNode) (w : ℚ)
    (hw : lookupQ btw n.id = some w) :
    getNumP (centralityNormProps pr btw prn btn n) "betweenness_norm" =
      some (roundTo 6 ((lookupQ btn n.id).getD 0)) := by
  unfold centralityNormProps
  rw [hw]
  dsimp only
  exact getNumP_setP_num _ _ _

theorem centralityUpdateNode_keeps (pr btw prn btn : List (String × ℚ)) (n : GNode)
    (k : String) (hk : k ≠ "importance") :
    getNumP (centralityUpdateNode pr btw prn btn n).props k =
      getNumP (centralityNormProps pr btw prn btn n) k := by
  unfold centralityUpdateNode
  by_cases hp : (importanceParts (centralityNormProps pr btw prn btn n)).isEmpty
  · rw [if_neg (by simpa using hp)]
  · rw [if_pos (by simpa using hp)]
    exact getNumP_setP_ne _ _ _ _ hk

theorem centralityUpdateNode_importance (pr btw prn btn : List (String × ℚ)) (n : GNode)
    (hp : (importanceParts (centralityNormProps pr btw prn btn n)).isEmpty = false) :
    getNumP (centralityUpdateNode pr btw prn btn n).props "importance" =
      some (roundTo 6 ((importanceParts (centralityNormProps pr btw prn btn n)).sum /
        ((importanceParts (centralityNormProps pr btw prn btn n)).length : ℚ))) := by
  unfold centralityUpdateNode
  rw [if_pos (by simp [hp])]
  exact getNumP_setP_num _ _ _

/-- C5 (amended) — Centrality normalization as implemented:
`compute_centrality` rewrites exactly the namespace-scoped rows; every
`pagerank_norm` / `betweenness_norm` it writes is the 6-decimal rounding of
the min-max normalized metric and lies in `[0, 1]`; within one metric a node
with a greater raw value receives a normalized value ≥ the other node's; and
`importance` equals the arithmetic mean of whichever of `pagerank_norm`,
`betweenness_norm`, `degree_norm` are present, rounded to 6 decimals
(Python `round(·, 6)`) — not the exact mean the claim states. -/
theorem C5_centrality_normalization_amended (σ : Store) (ns : String)
    (pr btw : List (String × ℚ)) :
    (((σ.nodes.filter (fun n => decide (nodeResolvedNs n = ns))).isEmpty = false) →
      (computeCentrality σ ns pr btw).nodes = σ.nodes.map (fun n =>
        if nodeResolvedNs n = ns then
          centralityUpdateNode pr btw (normMinMax pr) (normMinMax btw) n else n)) ∧
    (∀ n : GNode, ∀ v, lookupQ pr n.id = some v →
      ∃ q, getNumP (centralityUpdateNode pr btw (normMinMax pr) (normMinMax btw) n).props
          "pagerank_norm" = some q ∧ 0 ≤ q ∧ q ≤ 1) ∧
    (∀ n : GNode, ∀ w, lookupQ btw n.id = some w →
      ∃ q, getNumP (centralityUpdateNode pr btw (normMinMax pr) (normMinMax btw) n).props
          "betweenness_norm" = some q ∧ 0 ≤ q ∧ q ≤ 1) ∧
    (∀ n1 n2 : GNode, ∀ v1 v2 q1 q2, lookupQ pr n1.id = some v1 →
      lookupQ pr n2.id = some v2 → v2 ≤ v1 →
      getNumP (centralityUpdateNode pr btw (normMinMax pr) (normMinMax btw) n1).props
        "pagerank_norm" = some q1 →
      getNumP (centralityUpdateNode pr btw (normMinMax pr) (normMinMax btw) n2).props
        "pagerank_norm" = some q2 → q2 ≤ q1) ∧
    (∀ n1 n2 : GNode, ∀ w1 w2 q1 q2, lookupQ btw n1.id = some w1 →
      lookupQ btw n2.id = some w2 → w2 ≤ w1 →
      getNumP (centralityUpdateNode pr btw (normMinMax pr) (normMinMax btw) n1).props
        "betweenness_norm" = some q1 →
      getNumP (centralityUpdateNode pr btw (normMinMax pr) (normMinMax btw) n2).props
        "betweenness_norm" = some q2 → q2 ≤ q1) ∧
    (∀ n : GNode,
      (importanceParts (centralityNormProps pr btw (normMinMax pr) (normMinMax btw) n)).isEmpty
        = false →
      getNumP (centralityUpdateNode pr btw (normMinMax pr) (normMinMax btw) n).props
          "importance" =
        some (roundTo 6
          ((importanceParts (centralityNormProps pr btw (normMinMax pr) (normMinMax btw) n)).sum /
          ((importanceParts (centralityNormProps pr btw (normMinMax pr) (normMinMax btw) n)).length
            : ℚ)))) := by
  refine ⟨?_, ?_, ?_, ?_, ?_, ?_⟩
  · intro hne
    unfold computeCentrality
    rw [if_neg (by simp [hne])]
  · intro n v hv
    have hnorm : ∃ nv, lookupQ (normMinMax pr) n.id = some nv := by
      rw [normMinMax_lookup pr n.id v hv]
      exact ⟨_, rfl⟩
    rcases hnorm with ⟨nv, hnv⟩
    refine ⟨roundTo 6 nv, ?_, ?_, ?_⟩
    · rw [centralityUpdateNode_keeps _ _ _ _ _ _ (by decide),
        centralityNormProps_pr _ _ _ _ _ _ hv, hnv]
      rfl
    · have := normMinMax_bounds pr n.id v nv hv hnv
      exact roundTo_nonneg 6 this.1
    · have := normMinMax_bounds pr n.id v nv hv hnv
      exact roundTo_le_one 6 this.2
  · intro n w hw
    have hnorm : ∃ nv, lookupQ (normMinMax btw) n.id = some nv := by
      rw [normMinMax_lookup btw n.id w hw]
      exact ⟨_, rfl⟩
    rcases hnorm with ⟨nv, hnv⟩
    refine ⟨roundTo 6 nv, ?_, ?_, ?_⟩
    · rw [centralityUpdateNode_keeps _ _ _ _ _ _ (by decide),
        centralityNormProps_btw _ _ _ _ _ _ hw, hnv]
      rfl
    · have := normMinMax_bounds btw n.id w nv hw hnv
      exact roundTo_nonneg 6 this.1
    · have := normMinMax_bounds btw n.id w nv hw hnv
      exact roundTo_le_one 6 this.2
  · intro n1 n2 v1 v2 q1 q2 hv1 hv2 hle hq1 hq2
    rcases hnv1 : lookupQ (normMinMax pr) n1.id with _ | nv1
    · rw [centralityUpdateNode_keeps _ _ _ _ _ _ (by decide),
        centralityNormProps_pr _ _ _ _ _ _ hv1, hnv1] at hq1
      rw [normMinMax_lookup pr n1.id v1 hv1] at hnv1
      exact absurd hnv1 (by simp)
    rcases hnv2 : lookupQ (normMinMax pr) n2.id with _ | nv2
    · rw [normMinMax_lookup pr n2.id v2 hv2] at hnv2
      exact absurd hnv2 (by simp)
    rw [centralityUpdateNode_keeps _ _ _ _ _ _ (by decide),
      centralityNormProps_pr _ _ _ _ _ _ hv1, hnv1] at hq1
    rw [centralityUpdateNode_keeps _ _ _ _ _ _ (by decide),
      centralityNormProps_pr _ _ _ _ _ _ hv2, hnv2] at hq2
    simp only [Option.getD_some, Option.some.injEq] at hq1 hq2
    subst hq1
    subst hq2
    exact roundTo_mono 6 (normMinMax_mono pr n1.id n2.id v1 v2 nv1 nv2 hv1 hv2 hle hnv1 hnv2)
  · intro n1 n2 w1 w2 q1 q2 hw1 hw2 hle hq1 hq2
    rcases hnv1 : lookupQ (normMinMax btw) n1.id with _ | nv1
    · rw [normMinMax_lookup btw n1.id w1 hw1] at hnv1
      exact absurd hnv1 (by simp)
    rcases hnv2 : lookupQ (normMinMax btw) n2.id with _ | nv2
    · rw [normMinMax_lookup btw n2.id w2 hw2] at hnv2
      exact absurd hnv2 (by simp)
    rw [centralityUpdateNode_keeps _ _ _ _ _ _ (by decide),
      centralityNormProps_btw _ _ _ _ _ _ hw1, hnv1] at hq1
    rw [centralityUpdateNode_keeps _ _ _ _ _ _ (by decide),
      centralityNormProps_btw _ _ _ _ _ _ hw2, hnv2] at hq2
    simp only [Option.getD_some, Option.some.injEq] at hq1 hq2
    subst hq1
    subst hq2
    exact roundTo_mono 6 (normMinMax_mono btw n1.id n2.id w1 w2 nv1 nv2 hw1 hw2 hle hnv1 hnv2)
  · intro n hp
    exact centralityUpdateNode_importance _ _ _ _ n hp

/-- A namespace-`public` node with `degree_norm = 0` stored. -/
def exCentN1 : GNode :=
  { id := "n1", label := "Entity", name := "N One",
    props := [("namespace", PVal.str "public"), ("degree_norm", PVal.num 0)],
    source_ids := [], embedding := [], nsCol := some "public" }

/-- A second namespace-`public` node with `degree_norm = 0` stored. -/
def exCentN2 : GNode :=
  { id := "n2", label := "Entity", name := "N Two",
    props := [("namespace", PVal.str "public"), ("degree_norm", PVal.num 0)],
    source_ids := [], embedding := [], nsCol := some "public" }

/-- Store for the centrality counterexample. -/
def exCentStore : Store := { nodes := [exCentN1, exCentN2], edges := [], log := [] }

/-- A realizable pagerank result (values sum to 1). -/
def exPr : List (String × ℚ) := [("n1", 3/4), ("n2", 1/4)]

/-- A realizable betweenness result (both endpoints 0). -/
def exBtw : List (String × ℚ) := [("n1", 0), ("n2", 0)]

theorem roundTo6_third : roundTo 6 ((1:ℚ)/3) = 333333/1000000 := by
  unfold roundTo roundHalfEven
  have hfloor : ⌊(1:ℚ)/3 * (10:ℚ)^6⌋ = 333333 := by
    apply Int.floor_eq_iff.mpr
    constructor <;> norm_num
  rw [hfloor]
  norm_num

theorem importanceParts_setP_importance (P : Props) (v : PVal) :
    importanceParts (setP P "importance" v) = importanceParts P := by
  unfold importanceParts
  have e1 := getNumP_setP_ne P "importance" "pagerank_norm" v (by decide)
  have e2 := getNumP_setP_ne P "importance" "betweenness_norm" v (by decide)
  have e3 := getNumP_setP_ne P "importance" "degree_norm" v (by decide)
  simp [List.filterMap_cons, e1, e2, e3]

/-- C5 counterexample — with pagerank `{n1: 3/4, n2: 1/4}` and betweenness all
zero, node `n1` ends with present normalized metrics `[1, 0, 0]`, whose
arithmetic mean is `1/3`; but the stored `importance` is
`round(1/3, 6) = 333333/1000000 ≠ 1/3`, refuting the exact-mean claim. -/
theorem C5_centrality_normalization_counterexample :
    ((computeCentrality exCentStore "public" exPr exBtw).nodes.head?.map
      (fun n => getNumP n.props "importance")) = some (some (333333/1000000 : ℚ)) ∧
    ((computeCentrality exCentStore "public" exPr exBtw).nodes.head?.map
      (fun n => importanceParts n.props)) = some [1, 0, 0] ∧
    (((1 : ℚ) + 0 + 0) / 3 = 1/3) ∧
    ((333333/1000000 : ℚ) ≠ (1 : ℚ)/3) := by
  have hmain : (computeCentrality exCentStore "public" exPr exBtw).nodes.head? =
      some (centralityUpdateNode exPr exBtw (normMinMax exPr) (normMinMax exBtw) exCentN1) := by
    unfold computeCentrality
    rw [if_neg (by decide)]
    simp only [exCentStore, List.map_cons, List.head?_cons, Option.some.injEq]
    rw [if_pos (by decide)]
  have hnorm1 : normMinMax exPr = [("n1", 1), ("n2", 0)] := by
    unfold normMinMax exPr mapSnd listMin listMax
    norm_num
  have hnorm2 : normMinMax exBtw = [("n1", 0), ("n2", 0)] := by
    unfold normMinMax exBtw mapSnd listMin listMax
    norm_num
  have hlpr : lookupQ exPr exCentN1.id = some (3/4) := rfl
  have hlbt : lookupQ exBtw exCentN1.id = some 0 := rfl
  have hP2pr : getNumP (centralityNormProps exPr exBtw (normMinMax exPr)
      (normMinMax exBtw) exCentN1) "pagerank_norm" = some 1 := by
    rw [centralityNormProps_pr _ _ _ _ _ _ hlpr, hnorm1]
    rw [show lookupQ [("n1", (1:ℚ)), ("n2", 0)] exCentN1.id = some 1 from rfl]
    rw [show (some (1:ℚ)).getD 0 = 1 from rfl, roundTo_one]
  have hP2btw : getNumP (centralityNormProps exPr exBtw (normMinMax exPr)
      (normMinMax exBtw) exCentN1) "betweenness_norm" = some 0 := by
    rw [centralityNormProps_btw _ _ _ _ _ _ hlbt, hnorm2]
    rw [show lookupQ [("n1", (0:ℚ)), ("n2", 0)] exCentN1.id = some 0 from rfl]
    rw [show (some (0:ℚ)).getD 0 = 0 from rfl, roundTo_zero]
  have hP2deg : getNumP (centralityNormProps exPr exBtw (normMinMax exPr)
      (normMinMax exBtw) exCentN1) "degree_norm" = some 0 := by
    unfold centralityNormProps
    rw [hlpr, hlbt]
    dsimp only
    rw [getNumP_setP_ne _ _ _ _ (by decide), getNumP_setP_ne _ _ _ _ (by decide),
      getNumP_setP_ne _ _ _ _ (by decide), getNumP_setP_ne _ _ _ _ (by decide)]
    rfl
  have hparts : importanceParts (centralityNormProps exPr exBtw (normMinMax exPr)
      (normMinMax exBtw) exCentN1) = [1, 0, 0] := by
    unfold importanceParts
    simp only [List.filterMap_cons, List.filterMap_nil, hP2pr, hP2btw, hP2deg]
  have hmean : (([1, 0, 0] : List ℚ).sum / (([1, 0, 0] : List ℚ).length : ℚ)) = 1/3 := by
    norm_num
  have hupd : centralityUpdateNode exPr exBtw (normMinMax exPr) (normMinMax exBtw) exCentN1 =
      { exCentN1 with
        props := setP
          (centralityNormProps exPr exBtw (normMinMax exPr) (normMinMax exBtw) exCentN1)
          "importance" (PVal.num (roundTo 6 ((1:ℚ)/3))) } := by
    unfold centralityUpdateNode
    rw [if_pos (by rw [hparts]; decide), hparts, hmean]
  refine ⟨?_, ?_, by norm_num, by norm_num⟩
  · rw [hmain]
    simp only [Option.map_some', Option.some.injEq]
    rw [hupd]
    simp only
    rw [getNumP_setP_num, roundTo6_third]
  · rw [hmain]
    simp only [Option.map_some', Option.some.injEq]
    rw [hupd]
    simp only
    rw [importanceParts_setP_importance, hparts]

/-- Witness for the amended C5 at a concrete store and metric maps. -/
theorem C5_centrality_normalization_amended_witness :
    ((exCentStore.nodes.filter (fun n => decide (nodeResolvedNs n = "public"))).isEmpty
        = false) ∧
    ((computeCentrality exCentStore "public" exPr exBtw).nodes =
      exCentStore.nodes.map (fun n =>
        if nodeResolvedNs n = "public" then
          centralityUpdateNode exPr exBtw (normMinMax exPr) (normMinMax exBtw) n else n)) ∧
    (lookupQ exPr exCentN1.id = some (3/4)) ∧
    (∃ q, getNumP (centralityUpdateNode exPr exBtw (normMinMax exPr)
        (normMinMax exBtw) exCentN1).props "pagerank_norm" = some q ∧ 0 ≤ q ∧ q ≤ 1) :=
  ⟨rfl,
   (C5_centrality_normalization_amended exCentStore "public" exPr exBtw).1 rfl,
   rfl,
   (C5_centrality_normalization_amended exCentStore "public" exPr exBtw).2.1
     exCentN1 (3/4) rfl⟩

/-! ## Query adapter (QueryAdapter.query)

Embedded for the fallback scoring path the spec describes: the candidate list
(`baseNodes`, whatever source produced it — artifacts, Gemini structured
search, or `hybrid_retrieve`) and the edge table are inputs; `math.log1p` is
the external float collaborator `log1p`.  Candidates are Python dicts with
`id`, `name`, `properties`. -/

/-- A candidate dict entering the rescoring loop. -/
structure QACand where
  id : String
  name : String
  props : Props
  deriving DecidableEq, Repr

/-- A scored candidate: the original dict plus the `score_breakdown` fields
and `aug_score`. -/
structure QAScored where
  cand : QACand
  deg_norm : ℚ
  rel : ℚ
  overlap : ℚ
  aug_score : ℚ
  deriving DecidableEq, Repr

/-- The result of `QueryAdapter.query`. -/
structure QAResult where
  mode_used : String
  results : List QAScored
  total_considered : Nat
  deriving Repr

/-- The `rel_weight` table (default 0.6). -/
def relWeight (rel : String) : ℚ :=
  if rel = "RELATED_TO" then 3/5
  else if rel = "CO_OCCURS" then 3/4
  else if rel = "MENTIONED_IN" then 2/5
  else if rel = "ROLE_AT" then 9/10
  else if rel = "USES_TECH" then 17/20
  else if rel = "HAS_ENTITY" then 1/2
  else if rel = "CONTAINS" then 9/20
  else 3/5

/-- `edge_counts[k] = edge_counts.get(k, 0.0) + w`. -/
def bumpQ (m : List (String × ℚ)) (k : String) (w : ℚ) : List (String × ℚ) :=
  if m.any (fun p => p.1 = k) then
    m.map (fun p => if p.1 = k then (p.1, p.2 + w) else p)
  else m ++ [(k, w)]

/-- One iteration of the edge-count loop: bump the source key when the source
is a candidate, then the target key when the target is a candidate. -/
def qaStep (cand_ids : List String) (m : List (String × ℚ)) (e : GEdge) :
    List (String × ℚ) :=
  let m1 := if e.source_id ∈ cand_ids then bumpQ m e.source_id (relWeight e.relation) else m
  if e.target_id ∈ cand_ids then bumpQ m1 e.target_id (relWeight e.relation) else m1

/-- The edge-count accumulation loop over the fetched incident edges. -/
def qaEdgeCounts (edges : List GEdge) (cand_ids : List String) : List (String × ℚ) :=
  edges.foldl (qaStep cand_ids) []

/-- The per-mode weight triples `(w_centrality, w_relation, w_overlap)`. -/
def qaWeights (decided : String) : ℚ × ℚ × ℚ :=
  if decided = "global" then (9/20, 7/20, 1/5)
  else if decided = "local" then (7/20, 9/20, 1/5)
  else if decided = "drift" then (1/4, 1/4, 1/2)
  else (2/5, 2/5, 1/5)

/-- `mode` resolution: `auto` becomes `global` for queries of at most 4
whitespace tokens and `local` otherwise. -/
def qaDecidedMode (query mode : String) : String :=
  if mode = "auto" then (if (splitWs query).length ≤ 4 then "global" else "local")
  else mode

/-- The rescoring of one candidate dict. -/
def qaScoreCand (counts : List (String × ℚ)) (q_terms : List String)
    (decided : String) (log1p : ℚ → ℚ) (r : QACand) : QAScored :=
  let deg_norm : ℚ := (getNumP r.props "degree_norm").getD 0
  let rel_sum : ℚ := (lookupQ counts r.id).getD 0
  let name := (strLower r.name)
  let overlap : ℚ :=
    if name ≠ "" then
      (let name_terms := (splitWs name).dedup
       if ¬ name_terms.isEmpty then
         ((q_terms.filter (fun t => decide (t ∈ name_terms))).length : ℚ) /
           (if q_terms.isEmpty then 1 else (q_terms.length : ℚ))
       else 0)
    else 0
  let length_penalty : ℚ := if 80 < name.length then 1/20 else 0
  let w := qaWeights decided
  let raw := w.1 * deg_norm + w.2.1 * (log1p rel_sum / 4) + w.2.2 * overlap - length_penalty
  { cand := r, deg_norm := deg_norm, rel := rel_sum, overlap := overlap,
    aug_score := roundTo 6 raw }

/-- `QueryAdapter.query(query, mode, top_k, namespace)` rescoring path: mode
resolution, edge-weight accumulation over edges incident to the candidates,
per-candidate scoring, stable descending sort and `top_k` truncation. -/
def qaCandIds (baseNodes : List QACand) : List String :=
  (baseNodes.map (·.id)).filter (fun i => ¬ i = "")

/-- The `edge_counts` dict: empty when there is no candidate id, otherwise the
accumulation loop over the edges fetched as incident to the candidate ids. -/
def qaCounts (edges : List GEdge) (baseNodes : List QACand) : List (String × ℚ) :=
  if (qaCandIds baseNodes).isEmpty then []
  else qaEdgeCounts (edges.filter (fun e =>
    decide (e.source_id ∈ qaCandIds baseNodes) ||
    decide (e.target_id ∈ qaCandIds baseNodes))) (qaCandIds baseNodes)

def queryAdapterQuery (edges : List GEdge) (baseNodes : List QACand)
    (query mode : String) (top_k : Nat) (log1p : ℚ → ℚ) : QAResult :=
  let decided := qaDecidedMode query mode
  let counts := qaCounts edges baseNodes
  let q_terms : List String := ((splitWs query).map strLower).dedup
  let scored := baseNodes.map (qaScoreCand counts q_terms decided log1p)
  let out := (sortDesc (fun sc => sc.aug_score) scored).take top_k
  { mode_used := decided, results := out, total_considered := baseNodes.length }

/-- Modelled from the claim's words: the relation-weight sum of a candidate,
summing the relation weight of every incident edge once per incidence. -/
def claimedRelSum (edges : List GEdge) (c : String) : ℚ :=
  ((edges.filter (fun e => e.source_id = c)).map (fun e => relWeight e.relation)).sum +
  ((edges.filter (fun e => e.target_id = c)).map (fun e => relWeight e.relation)).sum

/-- `edge_counts.get(id, 0.0)`. -/
def countVal (m : List (String × ℚ)) (k : String) : ℚ := (lookupQ m k).getD 0

theorem lookupQ_bumpMap (m : List (String × ℚ)) (k : String) (w : ℚ) (c : String) :
    lookupQ (m.map (fun p => if p.1 = k then (p.1, p.2 + w) else p)) c
      = (lookupQ m c).map (fun v => if c = k then v + w else v) := by
  induction m with
  | nil => simp [lookupQ]
  | cons p ps ih =>
      unfold lookupQ at ih ⊢
      by_cases hp : p.1 = c
      · have hhead : ((if p.1 = k then (p.1, p.2 + w) else p) : String × ℚ).1 = c := by
          by_cases hk : p.1 = k
          · rw [if_pos hk]; exact hp
          · rw [if_neg hk]; exact hp
        rw [List.map_cons, List.find?_cons_of_pos _ (by simpa using hhead),
          List.find?_cons_of_pos _ (by simpa using hp)]
        by_cases hk : p.1 = k
        · have hck : c = k := by rw [← hp]; exact hk
          rw [if_pos hk]
          simp [hck]
        · have hck : ¬ c = k := by rw [← hp]; exact hk
          rw [if_neg hk]
          simp [hck]
      · have hhead : ¬ ((if p.1 = k then (p.1, p.2 + w) else p) : String × ℚ).1 = c := by
          by_cases hk : p.1 = k
          · rw [if_pos hk]; exact hp
          · rw [if_neg hk]; exact hp
        rw [List.map_cons, List.find?_cons_of_neg _ (by simpa using hhead),
          List.find?_cons_of_neg _ (by simpa using hp)]
        exact ih

theorem lookupQ_append (l r : List (String × ℚ)) (c : String) :
    lookupQ (l ++ r) c = (lookupQ l c).or (lookupQ r c) := by
  induction l with
  | nil => simp [lookupQ]
  | cons p ps ih =>
      unfold lookupQ at ih ⊢
      by_cases hp : p.1 = c
      · rw [List.cons_append, List.find?_cons_of_pos _ (by simpa using hp),
          List.find?_cons_of_pos _ (by simpa using hp)]
        rfl
      · rw [List.cons_append, List.find?_cons_of_neg _ (by simpa using hp),
          List.find?_cons_of_neg _ (by simpa using hp)]
        exact ih

theorem countVal_bumpQ (m : List (String × ℚ)) (k : String) (w : ℚ) (c : String) :
    countVal (bumpQ m k w) c = countVal m c + (if c = k then w else 0) := by
  unfold bumpQ countVal
  by_cases hmem : m.any (fun p => p.1 = k)
  · rw [if_pos hmem, lookupQ_bumpMap]
    by_cases hck : c = k
    · have hsome : (m.find? (fun p => decide (p.1 = c))).isSome := by
        rw [List.find?_isSome]
        rcases List.any_eq_true.mp hmem with ⟨p, hpmem, hpk⟩
        exact ⟨p, hpmem, by rw [hck]; exact hpk⟩
      rcases Option.isSome_iff_exists.mp hsome with ⟨q, hq⟩
      have hl : lookupQ m c = some q.2 := by
        unfold lookupQ
        rw [hq]
        rfl
      rw [hl]
      simp [hck]
    · rcases hlp : lookupQ m c with _ | v <;> simp [hlp, hck]
  · rw [if_neg hmem, lookupQ_append]
    by_cases hck : c = k
    · have hnone : lookupQ m c = none := by
        rcases hlp : lookupQ m c with _ | v
        · rfl
        · exfalso
          unfold lookupQ at hlp
          rcases hfind : m.find? (fun p => p.1 = c) with _ | p
          · rw [hfind] at hlp; exact absurd hlp (by simp)
          · have hpk := List.find?_some hfind
            have hpmem := List.mem_of_find?_eq_some hfind
            exact absurd (List.any_eq_true.mpr ⟨p, hpmem, by simpa [hck] using hpk⟩) hmem
      rw [hnone]
      simp [lookupQ, hck, Option.or]
    · rcases hlp : lookupQ m c with _ | v <;>
        simp [hlp, lookupQ, Option.or, hck, Ne.symm, fun h => hck h]

/-- The contribution of one fetched edge to a candidate's edge count. -/
def qaContrib (cand_ids : List String) (c : String) (e : GEdge) : ℚ :=
  (if e.source_id = c ∧ c ∈ cand_ids then relWeight e.relation else 0) +
  (if e.target_id = c ∧ c ∈ cand_ids then relWeight e.relation else 0)

theorem countVal_qaStep (cand_ids : List String) (c : String)
    (m : List (String × ℚ)) (e : GEdge) :
    countVal (qaStep cand_ids m e) c = countVal m c + qaContrib cand_ids c e := by
  have hsrc : ∀ m' : List (String × ℚ),
      countVal (if e.source_id ∈ cand_ids then bumpQ m' e.source_id (relWeight e.relation) else m') c
        = countVal m' c + (if e.source_id = c ∧ c ∈ cand_ids then relWeight e.relation else 0) := by
    intro m'
    by_cases hs : e.source_id ∈ cand_ids
    · rw [if_pos hs, countVal_bumpQ]
      congr 1
      by_cases hcs : c = e.source_id
      · rw [if_pos hcs, if_pos ⟨hcs.symm, by rw [hcs]; exact hs⟩]
      · rw [if_neg hcs, if_neg (fun h => hcs h.1.symm)]
    · rw [if_neg hs, if_neg (fun h => hs (by rw [h.1] at hs ⊢; exact h.2))]
      ring
  have htgt : ∀ m' : List (String × ℚ),
      countVal (if e.target_id ∈ cand_ids then bumpQ m' e.target_id (relWeight e.relation) else m') c
        = countVal m' c + (if e.target_id = c ∧ c ∈ cand_ids then relWeight e.relation else 0) := by
    intro m'
    by_cases ht : e.target_id ∈ cand_ids
    · rw [if_pos ht, countVal_bumpQ]
      congr 1
      by_cases hct : c = e.target_id
      · rw [if_pos hct, if_pos ⟨hct.symm, by rw [hct]; exact ht⟩]
      · rw [if_neg hct, if_neg (fun h => hct h.1.symm)]
    · rw [if_neg ht, if_neg (fun h => ht (by rw [h.1] at ht ⊢; exact h.2))]
      ring
  show countVal (if e.target_id ∈ cand_ids
      then bumpQ (if e.source_id ∈ cand_ids then bumpQ m e.source_id (relWeight e.relation) else m)
        e.target_id (relWeight e.relation)
      else (if e.source_id ∈ cand_ids then bumpQ m e.source_id (relWeight e.relation) else m)) c
    = countVal m c + qaContrib cand_ids c e
  rw [htgt, hsrc]
  unfold qaContrib
  ring

theorem qaEdgeCounts_foldl (cand_ids : List String) (c : String) :
    ∀ (L : List GEdge) (m : List (String × ℚ)),
      countVal (L.foldl (qaStep cand_ids) m) c
        = countVal m c + (L.map (qaContrib cand_ids c)).sum
  | [], m => by simp
  | e :: L, m => by
      rw [List.foldl_cons, qaEdgeCounts_foldl cand_ids c L (qaStep cand_ids m e),
        countVal_qaStep]
      simp
      ring

theorem sum_map_filter_zero {α : Type} (p : α → Bool) (f : α → ℚ) :
    ∀ (L : List α), (∀ e ∈ L, p e = false → f e = 0) →
      ((L.filter p).map f).sum = (L.map f).sum
  | [], _ => rfl
  | a :: L, h => by
      have ih := sum_map_filter_zero p f L (fun e he => h e (List.mem_cons_of_mem a he))
      rcases hp : p a with _ | _
      · rw [List.filter_cons_of_neg (by simp [hp])]
        simp [ih, h a (List.mem_cons_self a L) hp]
      · rw [List.filter_cons_of_pos (by simp [hp])]
        simp [ih]

theorem qaContrib_sum_eq (edges : List GEdge) (cand_ids : List String) (c : String)
    (hc : c ∈ cand_ids) :
    (edges.map (qaContrib cand_ids c)).sum = claimedRelSum edges c := by
  induction edges with
  | nil => simp [claimedRelSum]
  | cons e L ih =>
      rw [List.map_cons, List.sum_cons, ih]
      unfold claimedRelSum
      have he : qaContrib cand_ids c e
          = (if e.source_id = c then relWeight e.relation else 0)
            + (if e.target_id = c then relWeight e.relation else 0) := by
        unfold qaContrib
        congr 1
        · by_cases hsc : e.source_id = c
          · rw [if_pos ⟨hsc, hc⟩, if_pos hsc]
          · rw [if_neg (fun h => hsc h.1), if_neg hsc]
        · by_cases htc : e.target_id = c
          · rw [if_pos ⟨htc, hc⟩, if_pos htc]
          · rw [if_neg (fun h => htc h.1), if_neg htc]
      rw [he]
      by_cases hsc : e.source_id = c <;> by_cases htc : e.target_id = c
      · rw [List.filter_cons_of_pos (by simpa using hsc),
          List.filter_cons_of_pos (by simpa using htc), if_pos hsc, if_pos htc]
        simp only [List.map_cons, List.sum_cons]
        ring
      · rw [List.filter_cons_of_pos (by simpa using hsc),
          List.filter_cons_of_neg (by simpa using htc), if_pos hsc, if_neg htc]
        simp only [List.map_cons, List.sum_cons]
        ring
      · rw [List.filter_cons_of_neg (by simpa using hsc),
          List.filter_cons_of_pos (by simpa using htc), if_neg hsc, if_pos htc]
        simp only [List.map_cons, List.sum_cons]
        ring
      · rw [List.filter_cons_of_neg (by simpa using hsc),
          List.filter_cons_of_neg (by simpa using htc), if_neg hsc, if_neg htc]
        ring

theorem qaCounts_rel (edges : List GEdge) (cand_ids : List String) (c : String)
    (hc : c ∈ cand_ids) :
    countVal (qaEdgeCounts (edges.filter (fun e =>
        decide (e.source_id ∈ cand_ids) || decide (e.target_id ∈ cand_ids))) cand_ids) c
      = claimedRelSum edges c := by
  unfold qaEdgeCounts
  rw [qaEdgeCounts_foldl]
  have h0 : countVal [] c = 0 := rfl
  rw [h0, zero_add]
  rw [sum_map_filter_zero _ _ _ ?_, qaContrib_sum_eq edges cand_ids c hc]
  intro e _ hp
  simp only [Bool.or_eq_false_iff, decide_eq_false_iff_not] at hp
  unfold qaContrib
  rw [if_neg, if_neg]
  · ring
  · rintro ⟨h1, h2⟩
    rw [h1] at hp
    exact hp.2 h2
  · rintro ⟨h1, h2⟩
    rw [h1] at hp
    exact hp.1 h2

theorem qaScoreCand_fields (counts : List (String × ℚ)) (q_terms : List String)
    (decided : String) (log1p : ℚ → ℚ) (r : QACand) :
    (qaScoreCand counts q_terms decided log1p r).cand = r ∧
    (qaScoreCand counts q_terms decided log1p r).deg_norm
      = (getNumP r.props "degree_norm").getD 0 ∧
    (qaScoreCand counts q_terms decided log1p r).rel = (lookupQ counts r.id).getD 0 ∧
    (qaScoreCand counts q_terms decided log1p r).aug_score = roundTo 6
      ((qaWeights decided).1 * (qaScoreCand counts q_terms decided log1p r).deg_norm
        + (qaWeights decided).2.1 * (log1p (qaScoreCand counts q_terms decided log1p r).rel / 4)
        + (qaWeights decided).2.2 * (qaScoreCand counts q_terms decided log1p r).overlap
        - (if 80 < (strLower r.name).length then 1/20 else 0)) :=
  ⟨rfl, rfl, rfl, rfl⟩

theorem qaCounts_claimed (edges : List GEdge) (baseNodes : List QACand)
    (r : QACand) (hr : r ∈ baseNodes) (hid : ¬ r.id = "") :
    (lookupQ (qaCounts edges baseNodes) r.id).getD 0 = claimedRelSum edges r.id := by
  have hmemid : r.id ∈ qaCandIds baseNodes :=
    List.mem_filter.mpr ⟨List.mem_map.mpr ⟨r, hr, rfl⟩, by simpa using hid⟩
  have hne : ¬ (qaCandIds baseNodes).isEmpty = true := by
    rcases hq : qaCandIds baseNodes with _ | ⟨x, xs⟩
    · rw [hq] at hmemid
      exact absurd hmemid (by simp)
    · simp
  have hcounts : qaCounts edges baseNodes
      = qaEdgeCounts (edges.filter (fun e =>
          decide (e.source_id ∈ qaCandIds baseNodes) ||
          decide (e.target_id ∈ qaCandIds baseNodes))) (qaCandIds baseNodes) := by
    unfold qaCounts
    rw [if_neg hne]
  rw [hcounts]
  exact qaCounts_rel edges (qaCandIds baseNodes) r.id hmemid

/-- **C8** (amended): in `QueryAdapter.query`, mode `auto` resolves to
`global` when the query has at most 4 whitespace-split tokens and to `local`
otherwise, and any other mode is used as given; the weight triples for
`global`, `local` and `drift` are (0.45, 0.35, 0.20), (0.35, 0.45, 0.20) and
(0.25, 0.25, 0.50); every returned candidate's `aug_score` equals
`w_c·degree_norm + w_r·log1p(relation_weight_sum)/4 + w_o·term_overlap`,
minus 0.05 when the candidate name exceeds 80 characters, **rounded to 6
decimal places** (Python `round(raw_score, 6)`, the correction to the claim),
where `degree_norm` comes from the stored node properties and
`relation_weight_sum` sums the relation weight of every incident edge once
per incidence; the results are sorted in descending `aug_score` order and
truncated to `top_k`. -/
theorem C8_query_adapter_scoring_amended (edges : List GEdge) (baseNodes : List QACand)
    (query mode : String) (top_k : Nat) (log1p : ℚ → ℚ) :
    (mode = "auto" →
      (queryAdapterQuery edges baseNodes query mode top_k log1p).mode_used
        = (if (splitWs query).length ≤ 4 then "global" else "local")) ∧
    (¬ mode = "auto" →
      (queryAdapterQuery edges baseNodes query mode top_k log1p).mode_used = mode) ∧
    qaWeights "global" = (9/20, 7/20, 1/5) ∧
    qaWeights "local" = (7/20, 9/20, 1/5) ∧
    qaWeights "drift" = (1/4, 1/4, 1/2) ∧
    (∀ sc ∈ (queryAdapterQuery edges baseNodes query mode top_k log1p).results,
      sc.deg_norm = (getNumP sc.cand.props "degree_norm").getD 0 ∧
      (¬ sc.cand.id = "" → sc.rel = claimedRelSum edges sc.cand.id) ∧
      sc.aug_score = roundTo 6
        ((qaWeights (qaDecidedMode query mode)).1 * sc.deg_norm
          + (qaWeights (qaDecidedMode query mode)).2.1 * (log1p sc.rel / 4)
          + (qaWeights (qaDecidedMode query mode)).2.2 * sc.overlap
          - (if 80 < (strLower sc.cand.name).length then 1/20 else 0))) ∧
    ((queryAdapterQuery edges baseNodes query mode top_k log1p).results).Pairwise
      (fun x y => y.aug_score ≤ x.aug_score) ∧
    ((queryAdapterQuery edges baseNodes query mode top_k log1p).results).length ≤ top_k := by
  have hmode : (queryAdapterQuery edges baseNodes query mode top_k log1p).mode_used
      = qaDecidedMode query mode := rfl
  have hres : (queryAdapterQuery edges baseNodes query mode top_k log1p).results
      = (sortDesc (fun sc => sc.aug_score)
          (baseNodes.map (qaScoreCand (qaCounts edges baseNodes)
            (((splitWs query).map strLower).dedup)
            (qaDecidedMode query mode) log1p))).take top_k := rfl
  have w1 : qaWeights "global" = (9/20, 7/20, 1/5) := by
    unfold qaWeights
    rw [if_pos rfl]
  have w2 : qaWeights "local" = (7/20, 9/20, 1/5) := by
    unfold qaWeights
    rw [if_neg (by decide), if_pos rfl]
  have w3 : qaWeights "drift" = (1/4, 1/4, 1/2) := by
    unfold qaWeights
    rw [if_neg (by decide), if_neg (by decide), if_pos rfl]
  refine ⟨?_, ?_, w1, w2, w3, ?_, ?_, ?_⟩
  · intro h
    rw [hmode]
    unfold qaDecidedMode
    rw [if_pos h]
  · intro h
    rw [hmode]
    unfold qaDecidedMode
    rw [if_neg h]
  · intro sc hsc
    rw [hres] at hsc
    have hsc2 := List.mem_of_mem_take hsc
    have hsc3 := (mem_sortDesc (fun sc : QAScored => sc.aug_score) _ sc).mp hsc2
    rcases List.mem_map.mp hsc3 with ⟨r, hr, rfl⟩
    obtain ⟨hcand, hdeg, hrel, hscore⟩ := qaScoreCand_fields (qaCounts edges baseNodes)
      (((splitWs query).map strLower).dedup) (qaDecidedMode query mode) log1p r
    refine ⟨by rw [hcand, hdeg], ?_, by rw [hcand, hscore]⟩
    intro hid
    rw [hcand] at hid ⊢
    rw [hrel]
    exact qaCounts_claimed edges baseNodes r hr hid
  · rw [hres]
    exact List.Pairwise.sublist (List.take_sublist top_k _)
      (sorted_sortDesc (fun sc : QAScored => sc.aug_score) _)
  · rw [hres]
    exact List.length_take_le top_k _

theorem roundTo6_sixth : roundTo 6 ((1:ℚ)/6) = 166667/1000000 := by
  unfold roundTo roundHalfEven
  have hfloor : ⌊(1:ℚ)/6 * (10:ℚ)^6⌋ = 166666 := by
    apply Int.floor_eq_iff.mpr
    constructor <;> norm_num
  rw [hfloor]
  norm_num

/-- The candidate of the C8 counterexample run. -/
def exQACand : QACand := { id := "c1", name := "alpha", props := [] }

theorem exQAScore :
    qaScoreCand (qaCounts [] [exQACand]) (((splitWs "alpha beta gamma").map strLower).dedup)
      "drift" (fun _ => 0) exQACand
    = { cand := exQACand, deg_norm := 0, rel := 0, overlap := 1/3,
        aug_score := 166667/1000000 } := by
  have hqt : ((splitWs "alpha beta gamma").map strLower).dedup
      = ["alpha", "beta", "gamma"] := by decide
  have hcounts : qaCounts [] [exQACand] = [] := by decide
  rw [hqt, hcounts]
  unfold qaScoreCand
  have hname : strLower exQACand.name = "alpha" := by decide
  simp only [hname]
  congr 1
  refine Eq.trans (congrArg (roundTo 6) ?_) roundTo6_sixth
  rw [if_pos (show ("alpha" : String) ≠ "" from by decide),
    if_pos (show ¬((splitWs "alpha").dedup).isEmpty = true from by decide),
    if_neg (show ¬((["alpha", "beta", "gamma"] : List String).isEmpty = true) from by decide),
    if_neg (show ¬ (80 < ("alpha" : String).length) from by decide),
    show (List.filter (fun t => decide (t ∈ (splitWs "alpha").dedup))
      ["alpha", "beta", "gamma"]).length = 1 from by decide,
    show ((getNumP exQACand.props "degree_norm").getD 0 : ℚ) = 0 from rfl]
  unfold qaWeights
  rw [if_neg (show ¬ ("drift" : String) = "global" from by decide),
    if_neg (show ¬ ("drift" : String) = "local" from by decide)]
  norm_num

/-- **C8 counterexample**: running the adapter in `drift` mode on the 3-token
query `"alpha beta gamma"` with the single candidate `"alpha"` (no properties,
no edges; `log1p 0 = 0`, so the constant-zero collaborator agrees with
`math.log1p` here), the claimed exact score is
`0.25·0 + 0.25·(0/4) + 0.5·(1/3) − 0 = 1/6`, but the stored `aug_score` is
`round(1/6, 6) = 0.166667 ≠ 1/6`: the spec omits the 6-decimal rounding. -/
theorem C8_query_adapter_scoring_counterexample :
    ((queryAdapterQuery [] [exQACand] "alpha beta gamma" "drift" 8 (fun _ => 0)).results.map
      (fun sc => sc.aug_score)) = [166667/1000000] ∧
    ((1:ℚ)/4 * 0 + 1/4 * (0/4) + 1/2 * (1/3) - 0 = 1/6) ∧
    ¬ ((166667 : ℚ)/1000000 = 1/6) := by
  refine ⟨?_, by norm_num, by norm_num⟩
  have hdm : qaDecidedMode "alpha beta gamma" "drift" = "drift" := by
    unfold qaDecidedMode
    rw [if_neg (by decide)]
  have hres : (queryAdapterQuery [] [exQACand] "alpha beta gamma" "drift" 8 (fun _ => 0)).results
      = (sortDesc (fun sc : QAScored => sc.aug_score)
          ([exQACand].map (qaScoreCand (qaCounts [] [exQACand])
            (((splitWs "alpha beta gamma").map strLower).dedup)
            (qaDecidedMode "alpha beta gamma" "drift") (fun _ => 0)))).take 8 := rfl
  rw [hres, hdm, List.map_cons, List.map_nil, exQAScore]
  simp [sortDesc, insertDesc]

/-- Witness for the amended C8 theorem at the counterexample's input. -/
theorem C8_query_adapter_scoring_amended_witness :
    (queryAdapterQuery [] [exQACand] "alpha beta gamma" "drift" 8 (fun _ => 0)).mode_used
      = "drift" ∧
    (queryAdapterQuery [] [exQACand] "alpha beta gamma" "drift" 8 (fun _ => 0)).results.length
      ≤ 8 :=
  ⟨(C8_query_adapter_scoring_amended [] [exQACand] "alpha beta gamma" "drift" 8
      (fun _ => 0)).2.1 (by decide),
   (C8_query_adapter_scoring_amended [] [exQACand] "alpha beta gamma" "drift" 8
      (fun _ => 0)).2.2.2.2.2.2.2⟩

/-! ## Ingestion pipeline (GraphRAGService.ingest_document / _upsert_graph_full)

Embedded for the default configuration: GRAPH_STORE=sqlite (the Neo4j branch
is not taken), no Qdrant client (QDRANT_URL unset), ENABLE_GRAPHRAG=true.
The post-commit layout pass (`_compute_and_store_layout`) is a separate
transaction outside the upsert step and is not part of this model.  External
collaborators are parameters: `embed` for Gemini embeddings, `hashOf` for
`hashlib.sha256(...).hexdigest()`, `gemini` for the configured LLM extractor
(`none` = unconfigured, falling back to the heuristic extractor).  `uuid4`
ids are modelled by deterministic fresh strings; only their distinctness per
call matters.  SQLAlchemy failure of the upsert transaction is the `commitOk`
flag: `False` means `session.commit()` raised `SQLAlchemyError` and the
`except` block rolled the transaction back. -/

/-- Python `str.strip()`. -/
def strStrip (s : String) : String :=
  ⟨((s.data.dropWhile Char.isWhitespace).reverse.dropWhile Char.isWhitespace).reverse⟩

/-- `s[:n]` on strings. -/
def strTake (s : String) (n : Nat) : String := ⟨s.data.take n⟩

/-- Python `str.split(c)` on the character level. -/
def splitOnChar (c : Char) : List Char → List (List Char)
  | [] => [[]]
  | a :: rest =>
      match splitOnChar c rest with
      | [] => [[]]
      | g :: gs => if a = c then [] :: g :: gs else (a :: g) :: gs

/-- Python `str.splitlines()` for `\n`-separated text: `split("\n")` minus
the trailing empty piece produced by a final terminator. -/
def splitLines (s : String) : List String :=
  let parts := (splitOnChar (Char.ofNat 10) s.data).map (fun cs => (⟨cs⟩ : String))
  if parts.getLast? = some "" then parts.dropLast else parts

/-- First-occurrence filtering keyed by `f`: the shared shape of every
`seen`-set guard in the service (`dict.fromkeys`, `added_pairs`, `rel_added`,
the heuristic `seen` dict, the fallback-phrase `uniq` dict). -/
def firstOccurBy {α κ : Type} [DecidableEq κ] (f : α → κ) : List α → List κ → List α
  | [], _ => []
  | a :: l, seen => if f a ∈ seen then firstOccurBy f l seen else a :: firstOccurBy f l (f a :: seen)

/-- Python dict read. -/
def dictGet (m : List (String × String)) (k : String) : Option String :=
  (m.find? (fun p => p.1 = k)).map (·.2)

/-- Python dict write `m[k] = v` (insertion order preserved, in-place update). -/
def dictUpsert (m : List (String × String)) (k v : String) : List (String × String) :=
  if m.any (fun p => p.1 = k) then m.map (fun p => if p.1 = k then (k, v) else p)
  else m ++ [(k, v)]

/-- An extraction node dict (`id`/`label`/`name`/`properties`, defaults
already applied). -/
structure ExtNode where
  id : String
  label : String
  name : String
  props : Props
  deriving DecidableEq, Repr

/-- An extraction edge dict; `source_id`, `target_id` are the collapsed
`e.get("source_id") or e.get("source") or e.get("source_name")` chain, `""`
when all are missing/falsy. -/
structure ExtEdge where
  id : String
  source_id : String
  target_id : String
  relation : String
  confidence : ℚ
  deriving DecidableEq, Repr

structure ExtractionResult where
  nodes : List ExtNode
  edges : List ExtEdge
  reasoning : String
  deriving DecidableEq, Repr

/-- `re.findall(r"\b[A-Z][a-zA-Z]{2,}\b", text)`: exactly the maximal
word-character runs that are all-alphabetic, start with an uppercase letter
and have length at least 3 (a shorter match cannot end on a word boundary
inside a run). -/
def capitalsOf (text : String) : List String :=
  ((runsBy isWordChar text.data).filter (fun cs =>
    cs.all Char.isAlpha && (cs.head?.map Char.isUpper).getD false && decide (3 ≤ cs.length))).map
    (fun cs => (⟨cs⟩ : String))

/-- `re.findall(r"\b[A-Z]{2,}\b", text)`: the maximal word runs that are
all-uppercase of length at least 2. -/
def acronymsOf (text : String) : List String :=
  ((runsBy isWordChar text.data).filter (fun cs =>
    cs.all Char.isUpper && decide (2 ≤ cs.length))).map (fun cs => (⟨cs⟩ : String))

/-- The keyword literals of the heuristic extractor, in alternation order. -/
def kwLits : List String :=
  ["gradient", "descent", "optimization", "algorithm", "parameters",
   "mini-batch", "batch", "stochastic", "momentum"]

/-- Case-insensitive literal match consuming the literal, returning the rest. -/
def matchLit : List Char → List Char → Option (List Char)
  | [], cs => some cs
  | _ :: _, [] => none
  | l :: ls, c :: cs => if Char.toLower c = Char.toLower l then matchLit ls cs else none

/-- Try the keyword alternatives in order at the current position, requiring
the trailing word boundary (`\b`). -/
def kwTryLits (cs : List Char) : List String → Option (String × List Char)
  | [] => none
  | lit :: rest =>
      match matchLit lit.data cs with
      | some remaining =>
          if (remaining.head?.map isWordChar).getD false then kwTryLits cs rest
          else some (lit, remaining)
      | none => kwTryLits cs rest

/-- The scan of `re.findall(r"\b(...)\b", text, flags=IGNORECASE)` over the
keyword alternation: at each word-boundary position try the alternatives in
order, emit the (lowercase) literal and resume after the match. -/
def kwScanAux : Nat → Bool → List Char → List String
  | 0, _, _ => []
  | _ + 1, _, [] => []
  | fuel + 1, prevWord, c :: cs =>
      if prevWord then kwScanAux fuel (isWordChar c) cs
      else
        match kwTryLits (c :: cs) kwLits with
        | some (lit, remaining) => lit :: kwScanAux fuel true remaining
        | none => kwScanAux fuel (isWordChar c) cs

/-- The keyword matches of `_heuristic_extract`, already lowercased (the
source lowercases them when building `raw`). -/
def keywordsOf (text : String) : List String :=
  kwScanAux (text.data.length + 1) false text.data

/-- `GraphRAGService._heuristic_extract`. -/
def heuristicExtract (text : String) : ExtractionResult :=
  let raw := capitalsOf text ++ acronymsOf text ++ keywordsOf text
  let ordered := (firstOccurBy (fun w => w) (raw.filter (fun w => ¬ w = "")) []).take 80
  let nodes := ordered.enum.map (fun p =>
    ({ id := "heur::" ++ toString p.1, label := "Entity", name := p.2,
       props := [("source", PVal.str "heuristic")] } : ExtNode))
  let edges := (nodes.zip nodes.tail).enum.map (fun p =>
    ({ id := "heurEdge::" ++ toString p.1, source_id := p.2.1.id, target_id := p.2.2.id,
       relation := "RELATED_TO", confidence := 7/20 } : ExtEdge))
  { nodes := nodes, edges := edges, reasoning := "Heuristic extraction" }

def tech_keywords : List String :=
  ["python", "typescript", "javascript", "react", "vue", "angular", "docker",
   "kubernetes", "aws", "gcp", "azure", "postgres", "mysql", "sqlite", "redis",
   "kafka", "spark", "airflow", "pytorch", "tensorflow", "llm", "transformer",
   "langchain", "openai", "neo4j", "graph", "k8s", "helm", "terraform",
   "ansible", "sql", "graphql", "fastapi", "django", "flask", "pandas",
   "numpy", "scikit", "sklearn", "hadoop", "elastic", "elasticsearch"]

def org_suffixes : List String :=
  ["inc", "corp", "corporation", "llc", "l.l.c", "ltd", "company",
   "university", "labs", "institute", "systems"]

def org_keywords : List String :=
  ["google", "microsoft", "amazon", "openai", "meta", "ibm", "oracle",
   "netflix", "apple", "nvidia", "intel", "salesforce"]

def role_keywords : List String :=
  ["engineer", "developer", "scientist", "manager", "lead", "architect",
   "director", "specialist", "analyst", "researcher", "consultant", "founder",
   "cto", "ceo", "head", "principal"]

def achievement_keywords : List String :=
  ["award", "patent", "publication", "certified", "certification", "speaker",
   "presented", "keynote"]

/-- The per-node label reassignment of `_classify_enrich_entities`. -/
def classifyLabel (name label0 : String) : String :=
  let base := strStrip (strLower name)
  let label := if label0 = "" then "Entity" else label0
  let l1 := if tech_keywords.any (fun k => strContains base k) then "Technology" else label
  let words := (runsBy (fun c => c.isAlphanum || c = '&') name.data).map (fun cs => (⟨cs⟩ : String))
  let l2 := if l1 = "Entity" ∧
      ((2 ≤ words.length ∧ (words.take 2).all (fun w => (w.data.head?.map Char.isUpper).getD false))
        ∨ org_suffixes.any (fun s => s.data.isSuffixOf base.data)
        ∨ base ∈ org_keywords) then "Organization" else l1
  let l3 := if l2 = "Entity" ∧ role_keywords.any (fun r => strContains base r) then "Role" else l2
  if l3 = "Entity" ∧ achievement_keywords.any (fun a => strContains base a) then "Achievement" else l3

/-- `_classify_enrich_entities` (in-place label mutation of the extraction). -/
def classifyEnrich (ex : ExtractionResult) : ExtractionResult :=
  { ex with nodes := ex.nodes.map (fun n => { n with label := classifyLabel n.name n.label }) }

/-- Maximal same-class segments of a character list, labelled by whether the
class is word characters. -/
def segsAux : List Char → List (Bool × List Char)
  | [] => []
  | c :: cs =>
      match segsAux cs with
      | [] => [(isWordChar c, [c])]
      | (b, run) :: rest =>
          if isWordChar c = b then (b, c :: run) :: rest
          else (isWordChar c, [c]) :: (b, run) :: rest

/-- `[A-Z][a-z]+` as a full word run. -/
def titleRun (cs : List Char) : Bool :=
  match cs with
  | c :: rest => c.isUpper && rest.all Char.isLower && decide (1 ≤ rest.length)
  | [] => false

/-- `[A-Z][a-zA-Z]+` as a full word run. -/
def phraseRun (cs : List Char) : Bool :=
  match cs with
  | c :: rest => c.isUpper && rest.all Char.isAlpha && decide (1 ≤ rest.length)
  | [] => false

/-- Greedy extension `(?:\s+[A-Z][a-zA-Z]+){0,k}` over the segment stream. -/
def phraseExtend (acc : List Char) : Nat → List (Bool × List Char) → List Char × List (Bool × List Char)
  | 0, rest => (acc, rest)
  | k + 1, (false, gap) :: (true, run) :: rest =>
      if gap.all Char.isWhitespace ∧ phraseRun run then
        phraseExtend (acc ++ gap ++ run) k rest
      else (acc, (false, gap) :: (true, run) :: rest)
  | _ + 1, rest => (acc, rest)

/-- The scan of `re.findall(r"\b([A-Z][a-z]+(?:\s+[A-Z][a-zA-Z]+){0,3})\b")`:
matches start at word runs of shape `[A-Z][a-z]+` and greedily take up to 3
whitespace-separated `[A-Z][a-zA-Z]+` runs. -/
def phraseScanAux : Nat → List (Bool × List Char) → List String
  | 0, _ => []
  | _ + 1, [] => []
  | fuel + 1, (false, _) :: rest => phraseScanAux fuel rest
  | fuel + 1, (true, run) :: rest =>
      if titleRun run then
        let pr := phraseExtend run 3 rest
        (⟨pr.1⟩ : String) :: phraseScanAux fuel pr.2
      else phraseScanAux fuel rest

/-- The fallback proper-noun-phrase nodes of `ingest_document` (built only
when the extraction produced no nodes): length-≥3 phrases, first occurrence
per lowercased phrase, capped at 50. -/
def fallbackPhrases (text : String) : List ExtNode :=
  let phrases := phraseScanAux (text.data.length + 1) (segsAux text.data)
  let kept := (firstOccurBy strLower (phrases.filter (fun ph => ¬ ph.length < 3)) []).take 50
  kept.enum.map (fun p =>
    ({ id := "fb::" ++ toString p.1, label := "Entity", name := strStrip p.2,
       props := [("source", PVal.str "fallback-phrase")] } : ExtNode))

/-- Python `str.title()` (used for section titles). -/
def titleCaseAux : Bool → List Char → List Char
  | _, [] => []
  | prevAlpha, c :: cs =>
      if c.isAlpha then
        (if prevAlpha then c.toLower else c.toUpper) :: titleCaseAux true cs
      else c :: titleCaseAux false cs

def strTitle (s : String) : String := ⟨titleCaseAux false s.data⟩

def joinDash : List String → String
  | [] => ""
  | [x] => x
  | x :: xs => x ++ "-" ++ joinDash xs

/-- `re.sub(r"[^a-z0-9]+", "-", title.lower()).strip('-') or "section"`. -/
def slugOf (title : String) : String :=
  let low := strLower title
  let runs := runsBy (fun c => ('a' ≤ c && c ≤ 'z') || c.isDigit) low.data
  let j := joinDash (runs.map (fun cs => (⟨cs⟩ : String)))
  if j = "" then "section" else j

/-- The anchored section-title pattern
`^([A-Z][A-Z\s/&+-]{2,}|[A-Z][a-zA-Z]+(?:\s+[A-Z][a-zA-Z]+){0,5})\s*$`
on an already-stripped line. -/
def sectionTitlePattern (raw : String) : Bool :=
  (match raw.data with
   | c :: rest =>
       c.isUpper && decide (2 ≤ rest.length) &&
         rest.all (fun ch => ch.isUpper || ch.isWhitespace || ch = '/' || ch = '&' || ch = '+' || ch = '-')
   | [] => false)
  ||
  (let ws := splitWs raw
   decide (1 ≤ ws.length) && decide (ws.length ≤ 6) && ws.all (fun w => phraseRun w.data))

/-- The line loop of `_split_sections_and_chunks`: accumulate
`(title, raw_lines)` sections, starting a new one at title lines. -/
def collectSections : List String → String → List String → List (String × List String)
  | [], title, buf => if buf.isEmpty then [] else [(strStrip title, buf)]
  | ln :: rest, title, buf =>
      let raw := strStrip ln
      if raw = "" then collectSections rest title (buf ++ [ln])
      else if sectionTitlePattern raw ∧ (splitWs raw).length ≤ 8 then
        (if buf.isEmpty then [] else [(strStrip title, buf)])
          ++ collectSections rest (strTitle raw) []
      else collectSections rest title (buf ++ [ln])

def joinSpNl : List String → String
  | [] => ""
  | [x] => x
  | x :: xs => x ++ " \n" ++ joinSpNl xs

def joinNl : List String → String
  | [] => ""
  | [x] => x
  | x :: xs => x ++ "\n" ++ joinNl xs

/-- The shared paragraph-packing loop of `_chunk_text` and
`_split_sections_and_chunks` (state: pending paragraphs and token estimate). -/
def packAux (maxT : Nat) : List String → List String → Nat → List String
  | [], cur, _ => if cur.isEmpty then [] else [joinSpNl cur]
  | para :: rest, cur, tok =>
      let p := strStrip para
      if p = "" then packAux maxT rest cur tok
      else
        let tks := p.length / 4 + 1
        if maxT < tok + tks ∧ ¬ cur.isEmpty then
          joinSpNl cur :: packAux maxT rest [p] tks
        else packAux maxT rest (cur ++ [p]) (tok + tks)

/-- `GraphRAGService._chunk_text` (legacy fallback chunking). -/
def chunkText (text : String) (maxT : Nat) : List String :=
  (packAux maxT ((splitOnChar (Char.ofNat 10) text.data).map (fun cs => (⟨cs⟩ : String))) [] 0).take 100

/-- `section_map[i]` entries. -/
structure SectionMeta where
  section_id : String
  section_title : String
  local_index : Nat
  global_index : Nat
  deriving DecidableEq, Repr

/-- The per-section chunking loop of `_split_sections_and_chunks`. -/
def sectionChunks : List (String × List String) → Nat → List String × List SectionMeta
  | [], _ => ([], [])
  | (title, raw_lines) :: rest, g =>
      let body := joinNl (raw_lines.filter (fun l => ¬ strStrip l = ""))
      if strStrip body = "" then sectionChunks rest g
      else
        let parts := packAux 450 ((splitOnChar (Char.ofNat 10) body.data).map (fun cs => (⟨cs⟩ : String))) [] 0
        let slug := slugOf title
        let metas := parts.enum.map (fun p =>
          ({ section_id := slug, section_title := title, local_index := p.1,
             global_index := g + p.1 } : SectionMeta))
        let r := sectionChunks rest (g + parts.length)
        (parts ++ r.1, metas ++ r.2)

/-- `GraphRAGService._split_sections_and_chunks`. -/
def splitSectionsAndChunks (text : String) : List String × List SectionMeta :=
  let sections := collectSections (splitLines text) "Root" []
  let r := sectionChunks sections 0
  if r.1.isEmpty then (chunkText text 600, []) else r

/-- `LIKE '{doc_id}::chunk::%'` / `'{doc_id}::section::%'`: the doc-scoped
rows purged on re-ingest. -/
def docScoped (doc_id id : String) : Bool :=
  (doc_id ++ "::chunk::").data.isPrefixOf id.data ||
  (doc_id ++ "::section::").data.isPrefixOf id.data

def upsertPurgedNodes (σ : Store) (doc_id : String) : List GNode :=
  σ.nodes.filter (fun n => ¬ docScoped doc_id n.id)

def upsertPurgedEdges (σ : Store) (doc_id : String) : List GEdge :=
  σ.edges.filter (fun e => ¬ (docScoped doc_id e.source_id ∨ docScoped doc_id e.target_id))

/-- One chunk `GraphNode`, including the section properties when a
`section_map` entry exists for the index. -/
def mkChunkNode (doc_id ns : String) (section_map : List SectionMeta)
    (disable_embeddings : Bool) (embed : String → List ℚ) (idx : Nat) (chunk : String) : GNode :=
  let props0 : Props := [("doc_id", .str doc_id), ("chunk_index", .num idx),
    ("namespace", .str ns), ("text", .str chunk)]
  let props := if ¬ section_map.isEmpty ∧ idx < section_map.length then
      match section_map.get? idx with
      | some m => props0 ++ [("section_id", .str m.section_id),
          ("section_title", .str m.section_title), ("section_local_index", .num m.local_index)]
      | none => props0
    else props0
  { id := doc_id ++ "::chunk::" ++ toString idx, label := "Chunk",
    name := "Chunk " ++ toString idx, props := props, source_ids := [doc_id],
    embedding := if disable_embeddings then [] else embed chunk, nsCol := some ns }

def upsertChunkNodes (doc_id ns : String) (section_map : List SectionMeta)
    (disable_embeddings : Bool) (embed : String → List ℚ) (chunks : List String) : List GNode :=
  chunks.enum.map (fun p => mkChunkNode doc_id ns section_map disable_embeddings embed p.1 p.2)

/-- The dedup lookup `existing_lookup[(nm.lower(), namespace)]`: built over
the in-transaction SELECT (pre-state minus the purge, since `autoflush=False`
keeps the pending adds invisible); dict construction keeps the last node per
key. -/
def entityKeyMatch (purged : List GNode) (nm ns : String) : Option GNode :=
  (purged.filter (fun n => strLower n.name = strLower nm ∧ propNs n.props = some ns)).getLast?

/-- A freshly created entity `GraphNode`. -/
def mkEntityNode (doc_id ns : String) (disable_embeddings : Bool)
    (embed : String → List ℚ) (n : ExtNode) : GNode :=
  { id := n.id, label := n.label, name := n.name,
    props := setP n.props "namespace" (.str ns), source_ids := [doc_id],
    embedding := if disable_embeddings ∨ n.name = "" then [] else embed n.name,
    nsCol := some ns }

/-- The entity loop of `_upsert_graph_full`: on a dedup hit record the
existing id and `continue`; on a miss create the node and record its id. -/
def entityFoldAux (purged : List GNode) (doc_id ns : String) (disable_embeddings : Bool)
    (embed : String → List ℚ) :
    List ExtNode → List (String × String) → List GNode → List (String × String) × List GNode
  | [], m, acc => (m, acc)
  | n :: rest, m, acc =>
      match entityKeyMatch purged n.name ns with
      | some ex => entityFoldAux purged doc_id ns disable_embeddings embed rest
          (dictUpsert m n.name ex.id) acc
      | none => entityFoldAux purged doc_id ns disable_embeddings embed rest
          (dictUpsert m n.name n.id)
          (acc ++ [mkEntityNode doc_id ns disable_embeddings embed n])

def upsertEntities (σ : Store) (doc_id ns : String) (disable_embeddings : Bool)
    (embed : String → List ℚ) (extraction : ExtractionResult) :
    List (String × String) × List GNode :=
  entityFoldAux (upsertPurgedNodes σ doc_id) doc_id ns disable_embeddings embed
    extraction.nodes [] []

/-- The extraction-edge loop: resolve endpoint names through
`entity_name_to_id`, skip falsy endpoints. -/
def extEdges (m : List (String × String)) (ns : String) (es : List ExtEdge) : List GEdge :=
  es.filterMap (fun e =>
    let sid := (dictGet m e.source_id).getD e.source_id
    let tid := (dictGet m e.target_id).getD e.target_id
    if sid = "" ∨ tid = "" then none
    else some ({ id := e.id, source_id := sid, target_id := tid, relation := e.relation,
                 confidence := e.confidence, props := [("namespace", PVal.str ns)] } : GEdge))

/-- The section-node loop: one `Section` node per distinct raw section id. -/
def sectionFoldAux (doc_id ns : String) :
    List SectionMeta → List (String × String) → List GNode → List (String × String) × List GNode
  | [], sm, acc => (sm, acc)
  | meta :: rest, sm, acc =>
      if sm.any (fun p => p.1 = meta.section_id) then sectionFoldAux doc_id ns rest sm acc
      else
        let sec_id := doc_id ++ "::section::" ++ meta.section_id
        sectionFoldAux doc_id ns rest (sm ++ [(meta.section_id, sec_id)])
          (acc ++ [({ id := sec_id, label := "Section", name := strTake meta.section_title 100,
                      props := [("doc_id", .str doc_id), ("namespace", .str ns),
                        ("section_id", .str meta.section_id), ("title", .str meta.section_title)],
                      source_ids := [doc_id], embedding := [], nsCol := some ns } : GNode)])

def upsertSections (doc_id ns : String) (section_map : List SectionMeta) :
    List (String × String) × List GNode :=
  sectionFoldAux doc_id ns section_map [] []

/-- The chunk→section `CONTAINS` edges. -/
def containsEdges (doc_id ns : String) (section_id_map : List (String × String))
    (section_map : List SectionMeta) : List GEdge :=
  section_map.enum.filterMap (fun p =>
    match dictGet section_id_map p.2.section_id with
    | none => none
    | some sec => some ({ id := "contains::" ++ doc_id ++ "::" ++ toString p.1,
                          source_id := sec, target_id := doc_id ++ "::chunk::" ++ toString p.1,
                          relation := "CONTAINS", confidence := 9/10,
                          props := [("namespace", PVal.str ns)] } : GEdge))

/-- `chunk_entity_map.setdefault(idx, []).append(en_id)`. -/
def sdAppend (m : List (Nat × List String)) (k : Nat) (v : String) : List (Nat × List String) :=
  if m.any (fun p => p.1 = k) then m.map (fun p => if p.1 = k then (p.1, p.2 ++ [v]) else p)
  else m ++ [(k, [v])]

/-- The `chunk_entity_map` re-detection pass (entities in
`entity_name_to_id` order, chunks in index order, substring containment on
lowercased text). -/
def chunkEntityMap (chunks : List String) (m : List (String × String)) :
    List (Nat × List String) :=
  m.foldl (fun cem p =>
    let lname := strLower p.1
    if lname = "" then cem
    else chunks.enum.foldl (fun cem2 q =>
      if strContains (strLower q.2) lname then sdAppend cem2 q.1 p.2 else cem2) cem) []

/-- The ordered intra-chunk pairs `(uniq[i], uniq[j])`, `i < j`, each sorted. -/
def pairsOf : List String → List (String × String)
  | [] => []
  | a :: rest => rest.map (fun b => if a < b then (a, b) else (b, a)) ++ pairsOf rest

/-- The candidate `(a, b)` keys of the CO_OCCURS loop, in emission order. -/
def coCandidates (cem : List (Nat × List String)) : List (String × String) :=
  cem.foldr (fun p acc => pairsOf (firstOccurBy (fun x => x) p.2 []) ++ acc) []

/-- The CO_OCCURS edges: first occurrence per `added_pairs` key. -/
def coOccursEdges (ns : String) (cem : List (Nat × List String)) : List GEdge :=
  (firstOccurBy (fun p => p) (coCandidates cem) []).map (fun p =>
    { id := "cooc::" ++ p.1 ++ "::" ++ p.2, source_id := p.1, target_id := p.2,
      relation := "CO_OCCURS", confidence := 11/20, props := [("namespace", PVal.str ns)] })

/-- `sec_entities.setdefault(sid, set()).update(ents)` (sets modelled as
insertion-ordered duplicate-free lists). -/
def setAdd (l : List String) (v : String) : List String := if v ∈ l then l else l ++ [v]

def sdUnion (m : List (String × List String)) (k : String) (vs : List String) :
    List (String × List String) :=
  if m.any (fun p => p.1 = k) then
    m.map (fun p => if p.1 = k then (p.1, vs.foldl setAdd p.2) else p)
  else m ++ [(k, vs.foldl setAdd [])]

def sectionEntities (section_map : List SectionMeta) (cem : List (Nat × List String)) :
    List (String × List String) :=
  cem.foldl (fun se p =>
    match section_map.get? p.1 with
    | some meta => sdUnion se meta.section_id p.2
    | none => se) []

/-- The section→entity `HAS_ENTITY` edges. -/
def hasEntityEdges (ns : String) (section_id_map : List (String × String))
    (se : List (String × List String)) : List GEdge :=
  se.foldr (fun p acc =>
    match dictGet section_id_map p.1 with
    | none => acc
    | some sec => (p.2.map (fun eid =>
        ({ id := "hasent::" ++ p.1 ++ "::" ++ eid, source_id := sec, target_id := eid,
           relation := "HAS_ENTITY", confidence := 1/2,
           props := [("namespace", PVal.str ns)] } : GEdge))) ++ acc) []

/-- `entity_label_lookup`: entity id → label, last writer wins. -/
def entityLabelLookup (nodes : List ExtNode) (m : List (String × String)) :
    List (String × String) :=
  nodes.foldl (fun lk n =>
    if ¬ n.name = "" then
      match dictGet m n.name with
      | some eid => dictUpsert lk eid n.label
      | none => lk
    else lk) []

/-- The `(source, target, relation)` candidate keys of the ROLE_AT /
USES_TECH inference, per chunk in `chunk_entity_map` order: `roles[:20] ×
orgs[:20]` then `(roles + orgs) × techs[:30]`. -/
def relCandidates (lk : List (String × String)) (cem : List (Nat × List String)) :
    List (String × String × String) :=
  cem.foldr (fun p acc =>
    let roles := p.2.filter (fun e => dictGet lk e = some "Role")
    let orgs := p.2.filter (fun e => dictGet lk e = some "Organization")
    let techs := p.2.filter (fun e => dictGet lk e = some "Technology")
    ((roles.take 20).foldr (fun r a2 => ((orgs.take 20).map (fun o => (r, o, "ROLE_AT"))) ++ a2) [])
      ++ ((roles ++ orgs).foldr (fun h a2 => ((techs.take 30).map (fun t => (h, t, "USES_TECH"))) ++ a2) [])
      ++ acc) []

/-- The ROLE_AT / USES_TECH edges: first occurrence per `rel_added` key. -/
def relEdges (ns : String) (cands : List (String × String × String)) : List GEdge :=
  (firstOccurBy (fun k => k) cands []).map (fun k =>
    { id := "rel::" ++ k.1 ++ "::" ++ k.2.1 ++ "::" ++ k.2.2,
      source_id := k.1, target_id := k.2.1, relation := k.2.2,
      confidence := if k.2.2 = "ROLE_AT" then 13/20 else 11/20,
      props := [("namespace", PVal.str ns)] })

/-- The MENTIONED_IN pass: per entity, edges to the first 5 chunks whose
lowercased text contains its lowercased name. -/
def mentionEdges (doc_id ns : String) (chunks : List String)
    (m : List (String × String)) : List GEdge :=
  m.foldr (fun p acc =>
    let lname := strLower p.1
    if lname = "" then acc
    else
      (((chunks.enum.filter (fun q => strContains (strLower q.2) lname)).take 5).map
        (fun q => ({ id := "mention::" ++ p.2 ++ "::" ++ toString q.1,
                     source_id := p.2, target_id := doc_id ++ "::chunk::" ++ toString q.1,
                     relation := "MENTIONED_IN", confidence := 3/5,
                     props := [("namespace", PVal.str ns)] } : GEdge))) ++ acc) []

/-- All nodes added by one `_upsert_graph_full` transaction, in add order. -/
def upsertNewNodes (σ : Store) (doc_id : String) (chunks : List String)
    (extraction : ExtractionResult) (disable_embeddings : Bool) (ns : String)
    (section_map : List SectionMeta) (embed : String → List ℚ) : List GNode :=
  upsertChunkNodes doc_id ns section_map disable_embeddings embed chunks
    ++ (upsertEntities σ doc_id ns disable_embeddings embed extraction).2
    ++ (upsertSections doc_id ns section_map).2

/-- All edges added by one `_upsert_graph_full` transaction, in add order. -/
def upsertNewEdges (σ : Store) (doc_id : String) (chunks : List String)
    (extraction : ExtractionResult) (disable_embeddings : Bool) (ns : String)
    (section_map : List SectionMeta) (embed : String → List ℚ) : List GEdge :=
  let m := (upsertEntities σ doc_id ns disable_embeddings embed extraction).1
  let section_id_map := (upsertSections doc_id ns section_map).1
  let cem := if section_map.isEmpty then [] else chunkEntityMap chunks m
  extEdges m ns extraction.edges
    ++ (if section_map.isEmpty then [] else containsEdges doc_id ns section_id_map section_map)
    ++ coOccursEdges ns cem
    ++ (if section_map.isEmpty ∨ section_id_map.isEmpty then []
        else hasEntityEdges ns section_id_map (sectionEntities section_map cem))
    ++ relEdges ns (relCandidates (entityLabelLookup extraction.nodes m) cem)
    ++ mentionEdges doc_id ns chunks m

structure UpsertStats where
  nodes : Nat
  edges : Nat
  store : String
  deriving DecidableEq, Repr

inductive StreamEvent where
  | nodeAdded (id label name : String)
  | edgesAdded (count : Nat) (doc_id : String)
  deriving DecidableEq, Repr

/-- `GraphRAGService._upsert_graph_full` (SQLite path): purge, stage the new
rows, commit (or roll back on `SQLAlchemyError` — `commitOk = false`), then
unconditionally broadcast the stream events and return the counters. -/
def upsertGraphFull (σ : Store) (doc_id : String) (chunks : List String)
    (extraction : ExtractionResult) (disable_embeddings : Bool) (ns : String)
    (section_map : List SectionMeta) (embed : String → List ℚ) (commitOk : Bool) :
    Store × UpsertStats × List StreamEvent :=
  let chunk_nodes := upsertChunkNodes doc_id ns section_map disable_embeddings embed chunks
  let new_nodes := upsertNewNodes σ doc_id chunks extraction disable_embeddings ns section_map embed
  let new_edges := upsertNewEdges σ doc_id chunks extraction disable_embeddings ns section_map embed
  let σ2 := if commitOk then
      { σ with nodes := upsertPurgedNodes σ doc_id ++ new_nodes,
               edges := upsertPurgedEdges σ doc_id ++ new_edges }
    else σ
  let events := (chunk_nodes.map (fun cn => StreamEvent.nodeAdded cn.id cn.label cn.name))
    ++ (if new_edges.length = 0 then [] else [StreamEvent.edgesAdded new_edges.length doc_id])
  (σ2, { nodes := new_nodes.length, edges := new_edges.length, store := "sqlite" }, events)

/-- `IngestLog` update transaction of `ingest_document` (first matching row
updated; note the appended `prev_hash` value is the already-overwritten new
hash, as in the source). -/
def updateFirstLog (p : LogRow → Bool) (f : LogRow → LogRow) : List LogRow → List LogRow
  | [] => []
  | r :: rest => if p r then f r :: rest else r :: updateFirstLog p f rest

def logUpdate (log : List LogRow) (doc_id ns h : String) : List LogRow :=
  match log.find? (fun r => r.id = doc_id ∧ r.nsCol = ns) with
  | some r =>
      if ¬ r.content_hash = h then
        updateFirstLog (fun r2 => r2.id = doc_id ∧ r2.nsCol = ns)
          (fun r2 =>
            { r2 with content_hash := h, status := "stale",
                      prev_hashes := r2.prev_hashes ++ [h] }) log
      else log
  | none =>
      log ++ [({ id := doc_id, nsCol := ns, content_hash := h, status := "ingested",
                 prev_hashes := [] } : LogRow)]

structure IngestResult where
  success : Bool
  error : Option String
  stats : Option UpsertStats
  ns : Option String
  deriving DecidableEq, Repr

/-- `GraphRAGService.ingest_document` (ENABLE_GRAPHRAG=true): chunking,
heuristic-or-Gemini extraction, classification enrichment, fallback phrase
nodes, the upsert transaction, then the (separate, committed) ingest-log
transaction.  The model makes no exception escape, so the `except` branch
returning `success=False` is unreachable and the result always reports
success — also when `commitOk = false`, because `_upsert_graph_full`
swallows the `SQLAlchemyError` after rolling back. -/
def ingestDocument (σ : Store) (doc_id text : String) (nsOpt : Option String)
    (force_heuristic disable_embeddings : Bool)
    (gemini : Option (String → ExtractionResult))
    (embed : String → List ℚ) (hashOf : String → String) (commitOk : Bool) :
    Store × IngestResult × List StreamEvent :=
  let ns := nsOpt.getD DEFAULT_NAMESPACE
  let cs := splitSectionsAndChunks text
  let extraction0 := if force_heuristic then heuristicExtract text
    else match gemini with
      | some g => g text
      | none => heuristicExtract text
  let extraction1 := classifyEnrich extraction0
  let extraction := if extraction1.nodes.isEmpty then
      (let fb := fallbackPhrases text
       if fb.isEmpty then extraction1
       else { nodes := fb, edges := [],
              reasoning := extraction1.reasoning ++ " + fallback phrases" })
    else extraction1
  let up := upsertGraphFull σ doc_id cs.1 extraction disable_embeddings ns cs.2 embed commitOk
  let σ2 := { up.1 with log := logUpdate up.1.log doc_id ns (hashOf text) }
  (σ2, { success := true, error := none, stats := some up.2.1, ns := some ns }, up.2.2)

inductive EndpointResp where
  | httpError (code : Nat) (detail : String)
  | ok (r : IngestResult)
  deriving DecidableEq, Repr

/-- The `/graphrag/ingest` endpoint (`graphrag_ingest`): rejects
effectively-empty text with HTTP 400 before touching the service. -/
def graphragIngest (σ : Store) (text doc_id : String) (nsOpt : Option String)
    (force_heuristic disable_embeddings : Bool)
    (gemini : Option (String → ExtractionResult))
    (embed : String → List ℚ) (hashOf : String → String) (commitOk : Bool) :
    Store × EndpointResp × List StreamEvent :=
  if strStrip text = "" then (σ, EndpointResp.httpError 400 "text is required", [])
  else
    let r := ingestDocument σ doc_id text nsOpt force_heuristic disable_embeddings
      gemini embed hashOf commitOk
    (r.1, EndpointResp.ok r.2.1, r.2.2)

/-- **C3** (amended): when the store transaction inside `ingest_document`
fails, the rollback does leave the persisted node/edge state unchanged (no
partial state leaks), but the failure is swallowed: `_upsert_graph_full`
returns the same counters and broadcasts the same stream events as on a
successful commit, and `ingest_document` still reports `success = true`.
The vector-store upsert and event broadcast are not gated on a successful
commit. -/
theorem C3_store_failure_atomicity_amended (σ : Store) (doc_id : String)
    (chunks : List String) (extraction : ExtractionResult) (dis : Bool) (ns : String)
    (sm : List SectionMeta) (embed : String → List ℚ) (t : String) (nsOpt : Option String)
    (fh de : Bool) (gem : Option (String → ExtractionResult)) (hsh : String → String) :
    (upsertGraphFull σ doc_id chunks extraction dis ns sm embed false).1 = σ ∧
    (upsertGraphFull σ doc_id chunks extraction dis ns sm embed false).2
      = (upsertGraphFull σ doc_id chunks extraction dis ns sm embed true).2 ∧
    (ingestDocument σ doc_id t nsOpt fh de gem embed hsh false).2.1.success = true ∧
    (ingestDocument σ doc_id t nsOpt fh de gem embed hsh false).2.2
      = (ingestDocument σ doc_id t nsOpt fh de gem embed hsh true).2.2 :=
  ⟨rfl, rfl, rfl, rfl⟩

/-- **C3 counterexample**: ingesting `"Alice Smith"` into an empty store with
a failing store transaction persists nothing, yet the caller receives
`success = true` with the usual counters, the stream events are still
broadcast, and the ingest-log row is still written by its separate
transaction — the claim's "caller receives a failure result" and "side
effects only after successful commit" are false. -/
theorem C3_store_failure_atomicity_counterexample :
    ((ingestDocument { nodes := [], edges := [], log := [] } "d1" "Alice Smith" none
        true true none (fun _ => []) (fun _ => "h1") false).2.1.success = true) ∧
    ((ingestDocument { nodes := [], edges := [], log := [] } "d1" "Alice Smith" none
        true true none (fun _ => []) (fun _ => "h1") false).1.nodes = []) ∧
    ((ingestDocument { nodes := [], edges := [], log := [] } "d1" "Alice Smith" none
        true true none (fun _ => []) (fun _ => "h1") false).1.edges = []) ∧
    ((ingestDocument { nodes := [], edges := [], log := [] } "d1" "Alice Smith" none
        true true none (fun _ => []) (fun _ => "h1") false).2.1.stats
      = some { nodes := 3, edges := 3, store := "sqlite" }) ∧
    ((ingestDocument { nodes := [], edges := [], log := [] } "d1" "Alice Smith" none
        true true none (fun _ => []) (fun _ => "h1") false).2.2 ≠ []) ∧
    ((ingestDocument { nodes := [], edges := [], log := [] } "d1" "Alice Smith" none
        true true none (fun _ => []) (fun _ => "h1") false).1.log
      = [{ id := "d1", nsCol := "public", content_hash := "h1", status := "ingested",
           prev_hashes := [] }]) := by
  refine ⟨rfl, rfl, rfl, ?_, ?_, ?_⟩ <;> decide

theorem isWordChar_ws_false (c : Char) (h : c.isWhitespace = true) : isWordChar c = false := by
  by_cases h1 : c = ' '
  · subst h1; decide
  by_cases h2 : c = '\t'
  · subst h2; decide
  by_cases h3 : c = '\r'
  · subst h3; decide
  by_cases h4 : c = '\n'
  · subst h4; decide
  exfalso
  simp [Char.isWhitespace, h1, h2, h3, h4] at h

theorem runsBy_eq_nil (p : Char → Bool) (cs : List Char)
    (h : ∀ c ∈ cs, p c = false) : runsBy p cs = [] := by
  unfold runsBy
  induction cs with
  | nil => rfl
  | cons c rest ih =>
      unfold runsByAux
      rw [h c (List.mem_cons_self c rest)]
      simp only [Bool.false_eq_true, if_false, List.isEmpty_nil, if_true]
      exact ih (fun c2 h2 => h c2 (List.mem_cons_of_mem c h2))

theorem toLower_ws (c : Char) (h : c.isWhitespace = true) : Char.toLower c = c := by
  by_cases h1 : c = ' '
  · subst h1; decide
  by_cases h2 : c = '\t'
  · subst h2; decide
  by_cases h3 : c = '\r'
  · subst h3; decide
  by_cases h4 : c = '\n'
  · subst h4; decide
  exfalso
  simp [Char.isWhitespace, h1, h2, h3, h4] at h

theorem kwTryLits_ws (c : Char) (cs : List Char) (h : c.isWhitespace = true) :
    kwTryLits (c :: cs) kwLits = none := by
  by_cases h1 : c = ' '
  · subst h1; simp [kwLits, kwTryLits, matchLit]
  by_cases h2 : c = '\t'
  · subst h2; simp [kwLits, kwTryLits, matchLit]
  by_cases h3 : c = '\r'
  · subst h3; simp [kwLits, kwTryLits, matchLit]
  by_cases h4 : c = '\n'
  · subst h4; simp [kwLits, kwTryLits, matchLit]
  exfalso
  simp [Char.isWhitespace, h1, h2, h3, h4] at h

theorem kwScanAux_ws : ∀ (cs : List Char), (∀ c ∈ cs, c.isWhitespace = true) →
    ∀ (fuel : Nat) (prev : Bool), kwScanAux fuel prev cs = []
  | [], _, fuel, prev => by cases fuel <;> rfl
  | c :: cs, h, fuel, prev => by
      cases fuel with
      | zero => rfl
      | succ fuel =>
          have hc := h c (List.mem_cons_self c cs)
          have ih := kwScanAux_ws cs (fun x hx => h x (List.mem_cons_of_mem c hx))
          unfold kwScanAux
          by_cases hp : prev
      
          · rw [if_pos hp]
            exact ih fuel (isWordChar c)
          · rw [if_neg hp, kwTryLits_ws c cs hc]
            exact ih fuel (isWordChar c)

theorem keywordsOf_ws (text : String) (h : ∀ c ∈ text.data, c.isWhitespace = true) :
    keywordsOf text = [] := by
  unfold keywordsOf
  exact kwScanAux_ws text.data h _ _

theorem segsAux_ws : ∀ (cs : List Char), (∀ c ∈ cs, c.isWhitespace = true) →
    ∀ seg ∈ segsAux cs, seg.1 = false
  | [], _, seg, hseg => absurd hseg (by simp [segsAux])
  | c :: cs, h, seg, hseg => by
      have hc : isWordChar c = false := isWordChar_ws_false c (h c (List.mem_cons_self c cs))
      have ih := segsAux_ws cs (fun x hx => h x (List.mem_cons_of_mem c hx))
      unfold segsAux at hseg
      rcases hrec : segsAux cs with _ | ⟨⟨b, run⟩, rest⟩
      · rw [hrec] at hseg
        simp at hseg
        rw [hseg, hc]
      · rw [hrec] at hseg
        have hseg2 : seg ∈ (if isWordChar c = b then (b, c :: run) :: rest
            else (isWordChar c, [c]) :: (b, run) :: rest) := hseg
        by_cases hb : isWordChar c = b
        · rw [if_pos hb] at hseg2
          rcases List.mem_cons.mp hseg2 with rfl | hmem
          · show b = false
            rw [← hb]
            exact hc
          · exact ih seg (by rw [hrec]; exact List.mem_cons_of_mem _ hmem)
        · rw [if_neg hb] at hseg2
          rcases List.mem_cons.mp hseg2 with rfl | hmem
          · exact hc
          · exact ih seg (by rw [hrec]; exact hmem)

theorem phraseScanAux_false : ∀ (segs : List (Bool × List Char)),
    (∀ seg ∈ segs, seg.1 = false) → ∀ fuel, phraseScanAux fuel segs = []
  | [], _, fuel => by cases fuel <;> rfl
  | (b, run) :: rest, h, fuel => by
      have hb : b = false := h (b, run) (List.mem_cons_self _ _)
      subst hb
      cases fuel with
      | zero => rfl
      | succ fuel =>
          exact phraseScanAux_false rest (fun s hs => h s (List.mem_cons_of_mem _ hs)) fuel

theorem fallbackPhrases_ws (text : String) (h : ∀ c ∈ text.data, c.isWhitespace = true) :
    fallbackPhrases text = [] := by
  unfold fallbackPhrases
  rw [phraseScanAux_false (segsAux text.data) (segsAux_ws text.data h) _]
  rfl

theorem heuristicExtract_ws (text : String) (h : ∀ c ∈ text.data, c.isWhitespace = true) :
    heuristicExtract text = { nodes := [], edges := [], reasoning := "Heuristic extraction" } := by
  unfold heuristicExtract capitalsOf acronymsOf
  rw [runsBy_eq_nil isWordChar text.data (fun c hc => isWordChar_ws_false c (h c hc)),
    keywordsOf_ws text h]
  rfl

theorem dropWhile_ws_nil : ∀ (cs : List Char), (∀ c ∈ cs, c.isWhitespace = true) →
    cs.dropWhile Char.isWhitespace = []
  | [], _ => rfl
  | c :: cs, h => by
      rw [List.dropWhile_cons_of_pos (by simpa using h c (List.mem_cons_self c cs))]
      exact dropWhile_ws_nil cs (fun x hx => h x (List.mem_cons_of_mem c hx))

theorem strStrip_ws (s : String) (h : ∀ c ∈ s.data, c.isWhitespace = true) :
    strStrip s = "" := by
  unfold strStrip
  rw [dropWhile_ws_nil s.data h]
  rfl

theorem mem_splitOnChar (c : Char) : ∀ (cs : List Char) (g : List Char),
    g ∈ splitOnChar c cs → ∀ ch ∈ g, ch ∈ cs
  | [], g, hg, ch, hch => by
      unfold splitOnChar at hg
      simp at hg
      rw [hg] at hch
      exact absurd hch (by simp)
  | a :: rest, g, hg, ch, hch => by
      unfold splitOnChar at hg
      rcases hrec : splitOnChar c rest with _ | ⟨g0, gs⟩
      · rw [hrec] at hg
        simp at hg
        rw [hg] at hch
        exact absurd hch (by simp)
      · rw [hrec] at hg
        have hg2 : g ∈ (if a = c then [] :: g0 :: gs else (a :: g0) :: gs) := hg
        by_cases hac : a = c
        · rw [if_pos hac] at hg2
          rcases List.mem_cons.mp hg2 with rfl | hmem
          · exact absurd hch (by simp)
          · exact List.mem_cons_of_mem a
              (mem_splitOnChar c rest g (by rw [hrec]; exact hmem) ch hch)
        · rw [if_neg hac] at hg2
          rcases List.mem_cons.mp hg2 with rfl | hmem
          · rcases List.mem_cons.mp hch with rfl | hch2
            · exact List.mem_cons_self _ _
            · exact List.mem_cons_of_mem a
                (mem_splitOnChar c rest g0 (by rw [hrec]; exact List.mem_cons_self _ _) ch hch2)
          · exact List.mem_cons_of_mem a
              (mem_splitOnChar c rest g (by rw [hrec]; exact List.mem_cons_of_mem _ hmem) ch hch)

theorem mem_splitLines (s : String) (l : String) (hl : l ∈ splitLines s) :
    ∀ ch ∈ l.data, ch ∈ s.data := by
  unfold splitLines at hl
  intro ch hch
  by_cases hlast : ((splitOnChar (Char.ofNat 10) s.data).map
      (fun cs => (⟨cs⟩ : String))).getLast? = some ""
  · rw [if_pos hlast] at hl
    have hl2 := List.dropLast_sublist _ |>.mem hl
    rcases List.mem_map.mp hl2 with ⟨g, hg, rfl⟩
    exact mem_splitOnChar _ s.data g hg ch hch
  · rw [if_neg hlast] at hl
    rcases List.mem_map.mp hl with ⟨g, hg, rfl⟩
    exact mem_splitOnChar _ s.data g hg ch hch

theorem collectSections_ws : ∀ (lines : List String) (title : String) (buf : List String),
    (∀ l ∈ lines, ∀ c ∈ l.data, c.isWhitespace = true) →
    (∀ l ∈ buf, ∀ c ∈ l.data, c.isWhitespace = true) →
    ∀ sec ∈ collectSections lines title buf, ∀ l ∈ sec.2, ∀ c ∈ l.data, c.isWhitespace = true
  | [], title, buf, _, hbuf, sec, hsec => by
      unfold collectSections at hsec
      by_cases hb : buf.isEmpty
      · rw [if_pos hb] at hsec
        exact absurd hsec (by simp)
      · rw [if_neg hb] at hsec
        rcases List.mem_cons.mp hsec with rfl | hmem
        · exact hbuf
        · exact absurd hmem (by simp)
  | ln :: rest, title, buf, hlines, hbuf, sec, hsec => by
      have hln : ∀ c ∈ ln.data, c.isWhitespace = true := hlines ln (List.mem_cons_self _ _)
      have hrest := fun l hl => hlines l (List.mem_cons_of_mem ln hl)
      have hraw : strStrip ln = "" := strStrip_ws ln hln
      unfold collectSections at hsec
      rw [hraw] at hsec
      have hsec2 : sec ∈ collectSections rest title (buf ++ [ln]) := by
        simpa using hsec
      exact collectSections_ws rest title (buf ++ [ln]) hrest
        (fun l hl => by
          rcases List.mem_append.mp hl with h1 | h1
          · exact hbuf l h1
          · rw [List.mem_singleton.mp h1]
            exact hln) sec hsec2

theorem sectionChunks_ws : ∀ (sections : List (String × List String)) (g : Nat),
    (∀ sec ∈ sections, ∀ l ∈ sec.2, ∀ c ∈ l.data, c.isWhitespace = true) →
    sectionChunks sections g = ([], [])
  | [], _, _ => rfl
  | (title, raw_lines) :: rest, g, h => by
      have hlines : ∀ l ∈ raw_lines, strStrip l = "" := fun l hl =>
        strStrip_ws l (h (title, raw_lines) (List.mem_cons_self _ _) l hl)
      have hfilter : raw_lines.filter (fun l => ¬ strStrip l = "") = [] := by
        rw [List.filter_eq_nil]
        intro l hl
        simp [hlines l hl]
      unfold sectionChunks
      rw [hfilter]
      have hbody : strStrip (joinNl []) = "" := rfl
      rw [if_pos hbody]
      exact sectionChunks_ws rest g (fun s hs => h s (List.mem_cons_of_mem _ hs))

theorem packAux_ws (maxT : Nat) : ∀ (paras : List String) (cur : List String) (tok : Nat),
    (∀ p ∈ paras, strStrip p = "") →
    packAux maxT paras cur tok = if cur.isEmpty then [] else [joinSpNl cur]
  | [], cur, tok, _ => rfl
  | para :: rest, cur, tok, h => by
      unfold packAux
      rw [h para (List.mem_cons_self _ _)]
      simp only [if_pos rfl]
      exact packAux_ws maxT rest cur tok (fun p hp => h p (List.mem_cons_of_mem _ hp))

theorem chunkText_ws (text : String) (maxT : Nat)
    (h : ∀ c ∈ text.data, c.isWhitespace = true) : chunkText text maxT = [] := by
  unfold chunkText
  rw [packAux_ws maxT _ [] 0 ?_]
  · rfl
  · intro p hp
    rcases List.mem_map.mp hp with ⟨g, hg, rfl⟩
    exact strStrip_ws _ (fun c hc => h c (mem_splitOnChar _ text.data g hg c hc))

theorem splitSectionsAndChunks_ws (text : String)
    (h : ∀ c ∈ text.data, c.isWhitespace = true) :
    splitSectionsAndChunks text = ([], []) := by
  have hsections := collectSections_ws (splitLines text) "Root" []
    (fun l hl c hc => h c (mem_splitLines text l hl c hc)) (by simp)
  show (let sections := collectSections (splitLines text) "Root" []
        let r := sectionChunks sections 0
        if r.1.isEmpty = true then (chunkText text 600, []) else r) = ([], [])
  simp only []
  rw [sectionChunks_ws (collectSections (splitLines text) "Root" []) 0 hsections]
  simp only [List.isEmpty_nil, if_true]
  rw [chunkText_ws text 600 h]

theorem upsertGraphFull_empty (σ : Store) (doc_id : String) (dis : Bool) (ns : String)
    (embed : String → List ℚ) (ck : Bool) (r : String) :
    upsertGraphFull σ doc_id [] { nodes := [], edges := [], reasoning := r } dis ns [] embed ck
      = ((if ck then { σ with nodes := upsertPurgedNodes σ doc_id,
                              edges := upsertPurgedEdges σ doc_id } else σ),
         { nodes := 0, edges := 0, store := "sqlite" }, []) := by
  unfold upsertGraphFull upsertNewNodes upsertNewEdges
  simp [upsertChunkNodes, upsertEntities, entityFoldAux, upsertSections, sectionFoldAux,
    extEdges, containsEdges, chunkEntityMap, coOccursEdges, coCandidates, firstOccurBy,
    hasEntityEdges, sectionEntities, relCandidates, relEdges, entityLabelLookup, mentionEdges]

/-- **C4** (amended): `ingest_document` itself does NOT reject
effectively-empty text: on all-whitespace input (with the heuristic
extraction path, i.e. Gemini unconfigured or `force_heuristic`) it creates no
chunk, section, entity node or edge — the graph tables are untouched when the
document had no prior doc-scoped rows — but it still writes/updates the
ingest-log row and returns `success = true`.  The `invalid-input` rejection
exists only in the HTTP endpoint `graphrag_ingest`, which raises 400
`"text is required"` before calling the service. -/
theorem C4_empty_input_amended (σ : Store) (doc_id text : String) (nsOpt : Option String)
    (fh de : Bool) (embed : String → List ℚ) (hsh : String → String) (commitOk : Bool)
    (hws : ∀ c ∈ text.data, c.isWhitespace = true)
    (hn : ∀ n ∈ σ.nodes, docScoped doc_id n.id = false)
    (he : ∀ e ∈ σ.edges, docScoped doc_id e.source_id = false ∧
      docScoped doc_id e.target_id = false) :
    ((ingestDocument σ doc_id text nsOpt fh de none embed hsh commitOk).2.1.success = true) ∧
    ((ingestDocument σ doc_id text nsOpt fh de none embed hsh commitOk).2.1.stats
      = some { nodes := 0, edges := 0, store := "sqlite" }) ∧
    ((ingestDocument σ doc_id text nsOpt fh de none embed hsh commitOk).1.nodes = σ.nodes) ∧
    ((ingestDocument σ doc_id text nsOpt fh de none embed hsh commitOk).1.edges = σ.edges) ∧
    ((ingestDocument σ doc_id text nsOpt fh de none embed hsh commitOk).1.log
      = logUpdate σ.log doc_id (nsOpt.getD DEFAULT_NAMESPACE) (hsh text)) ∧
    ((ingestDocument σ doc_id text nsOpt fh de none embed hsh commitOk).2.2 = []) ∧
    ((graphragIngest σ text doc_id nsOpt fh de none embed hsh commitOk).2.1
      = EndpointResp.httpError 400 "text is required") ∧
    ((graphragIngest σ text doc_id nsOpt fh de none embed hsh commitOk).1 = σ) := by
  have hchunks := splitSectionsAndChunks_ws text hws
  have hex := heuristicExtract_ws text hws
  have hfb := fallbackPhrases_ws text hws
  have hstrip := strStrip_ws text hws
  have hing : ingestDocument σ doc_id text nsOpt fh de none embed hsh commitOk
      = (let up := upsertGraphFull σ doc_id []
            { nodes := [], edges := [], reasoning := "Heuristic extraction" } de
            (nsOpt.getD DEFAULT_NAMESPACE) [] embed commitOk
         ({ up.1 with log := logUpdate up.1.log doc_id (nsOpt.getD DEFAULT_NAMESPACE) (hsh text) },
          { success := true, error := none, stats := some up.2.1,
            ns := some (nsOpt.getD DEFAULT_NAMESPACE) }, up.2.2)) := by
    unfold ingestDocument
    simp only [hchunks, hex, ite_self, classifyEnrich, List.map_nil, List.isEmpty_nil,
      if_true, hfb]
  have hpn : upsertPurgedNodes σ doc_id = σ.nodes := by
    unfold upsertPurgedNodes
    rw [List.filter_eq_self]
    intro n hn2
    simp [hn n hn2]
  have hpe : upsertPurgedEdges σ doc_id = σ.edges := by
    unfold upsertPurgedEdges
    rw [List.filter_eq_self]
    intro e he2
    simp [(he e he2).1, (he e he2).2]
  have hend : graphragIngest σ text doc_id nsOpt fh de none embed hsh commitOk
      = (σ, EndpointResp.httpError 400 "text is required", []) := by
    unfold graphragIngest
    rw [hstrip]
    simp
  refine ⟨?_, ?_, ?_, ?_, ?_, ?_, ?_, ?_⟩
  · rw [hing] <;> simp [upsertGraphFull_empty]
  · rw [hing] <;> simp [upsertGraphFull_empty]
  · rw [hing]
    simp only [upsertGraphFull_empty, hpn, hpe]
    cases commitOk <;> simp
  · rw [hing]
    simp only [upsertGraphFull_empty, hpn, hpe]
    cases commitOk <;> simp
  · rw [hing]
    simp only [upsertGraphFull_empty, hpn, hpe]
    cases commitOk <;> simp
  · rw [hing] <;> simp [upsertGraphFull_empty]
  · rw [hend]
  · rw [hend]


/-- Witness for the amended C4 theorem at `text = "   "` on an empty store. -/
theorem C4_empty_input_amended_witness :
    ((ingestDocument { nodes := [], edges := [], log := [] } "d1" "   " none true true none
        (fun _ => []) (fun _ => "h1") true).2.1.success = true) ∧
    ((graphragIngest { nodes := [], edges := [], log := [] } "   " "d1" none true true none
        (fun _ => []) (fun _ => "h1") true).2.1
      = EndpointResp.httpError 400 "text is required") :=
  ⟨(C4_empty_input_amended { nodes := [], edges := [], log := [] } "d1" "   " none true true
      (fun _ => []) (fun _ => "h1") true (by decide) (by decide) (by decide)).1,
   (C4_empty_input_amended { nodes := [], edges := [], log := [] } "d1" "   " none true true
      (fun _ => []) (fun _ => "h1") true (by decide) (by decide) (by decide)).2.2.2.2.2.2.1⟩

/-- **C4 counterexample**: on `"   "` (empty after trimming) with an empty
store, `ingest_document` returns `success = true` — not an `invalid-input`
failure — and an ingest-log row IS written, contradicting the claim. -/
theorem C4_empty_input_counterexample :
    (strStrip "   " = "") ∧
    ((ingestDocument { nodes := [], edges := [], log := [] } "d1" "   " none true true none
        (fun _ => []) (fun _ => "h1") true).2.1.success = true) ∧
    ((ingestDocument { nodes := [], edges := [], log := [] } "d1" "   " none true true none
        (fun _ => []) (fun _ => "h1") true).1.log
      = [{ id := "d1", nsCol := "public", content_hash := "h1", status := "ingested",
           prev_hashes := [] }]) := by
  refine ⟨rfl, ?_, ?_⟩ <;> decide

theorem firstOccurBy_mem {α κ : Type} [DecidableEq κ] (f : α → κ) :
    ∀ (l : List α) (seen : List κ) (x : α), x ∈ firstOccurBy f l seen → x ∈ l
  | [], _, x, hx => absurd hx (by simp [firstOccurBy])
  | a :: l, seen, x, hx => by
      unfold firstOccurBy at hx
      by_cases hfa : f a ∈ seen
      · rw [if_pos hfa] at hx
        exact List.mem_cons_of_mem a (firstOccurBy_mem f l seen x hx)
      · rw [if_neg hfa] at hx
        rcases List.mem_cons.mp hx with rfl | hmem
        · exact List.mem_cons_self _ _
        · exact List.mem_cons_of_mem a (firstOccurBy_mem f l _ x hmem)

theorem firstOccurBy_spec {α κ : Type} [DecidableEq κ] (f : α → κ) :
    ∀ (l : List α) (seen : List κ),
      ((firstOccurBy f l seen).map f).Nodup ∧ ∀ x ∈ firstOccurBy f l seen, f x ∉ seen
  | [], seen => ⟨by simp [firstOccurBy], by simp [firstOccurBy]⟩
  | a :: l, seen => by
      unfold firstOccurBy
      by_cases hfa : f a ∈ seen
      · rw [if_pos hfa]
        exact firstOccurBy_spec f l seen
      · rw [if_neg hfa]
        obtain ⟨ih1, ih2⟩ := firstOccurBy_spec f l (f a :: seen)
        constructor
        · rw [List.map_cons]
          refine List.nodup_cons.mpr ⟨?_, ih1⟩
          intro hmem
          rcases List.mem_map.mp hmem with ⟨y, hy, hyf⟩
          exact (ih2 y hy) (by rw [hyf]; exact List.mem_cons_self _ _)
        · intro x hx
          rcases List.mem_cons.mp hx with rfl | hmem
          · exact hfa
          · intro hxs
            exact (ih2 x hmem) (List.mem_cons_of_mem _ hxs)

theorem mem_foldr_append {α β : Type} (g : β → List α) :
    ∀ (l : List β) (x : α), x ∈ l.foldr (fun q acc => g q ++ acc) [] → ∃ q ∈ l, x ∈ g q
  | [], x, hx => absurd hx (by simp)
  | b :: l, x, hx => by
      rw [List.foldr_cons] at hx
      rcases List.mem_append.mp hx with h1 | h1
      · exact ⟨b, List.mem_cons_self _ _, h1⟩
      · rcases mem_foldr_append g l x h1 with ⟨q, hq, hx2⟩
        exact ⟨q, List.mem_cons_of_mem _ hq, hx2⟩

theorem pairsOf_lt : ∀ (l : List String), l.Nodup → ∀ p ∈ pairsOf l, p.1 < p.2
  | [], _, p, hp => absurd hp (by simp [pairsOf])
  | a :: rest, hnd, p, hp => by
      unfold pairsOf at hp
      rcases List.mem_append.mp hp with h1 | h1
      · rcases List.mem_map.mp h1 with ⟨b, hb, rfl⟩
        have hab : a ≠ b := fun h => (List.nodup_cons.mp hnd).1 (h ▸ hb)
        by_cases hlt : a < b
        · rw [if_pos hlt]
          exact hlt
        · rw [if_neg hlt]
          exact lt_of_le_of_ne (not_lt.mp hlt) hab.symm
      · exact pairsOf_lt rest (List.nodup_cons.mp hnd).2 p h1

theorem coCandidates_lt (cem : List (Nat × List String)) :
    ∀ p ∈ coCandidates cem, p.1 < p.2 := by
  intro p hp
  rcases mem_foldr_append _ cem p hp with ⟨q, _, hpq⟩
  refine pairsOf_lt _ ?_ p hpq
  have := (firstOccurBy_spec (fun x => x) q.2 []).1
  simpa using this

/-- Two edges cover the same unordered endpoint pair. -/
def SamePair (e1 e2 : GEdge) : Prop :=
  (e1.source_id = e2.source_id ∧ e1.target_id = e2.target_id) ∨
  (e1.source_id = e2.target_id ∧ e1.target_id = e2.source_id)

theorem coOccursEdges_pairwise (ns : String) (cem : List (Nat × List String)) :
    (coOccursEdges ns cem).Pairwise (fun e1 e2 => ¬ SamePair e1 e2) := by
  unfold coOccursEdges
  rw [List.pairwise_map]
  have hnd : (firstOccurBy (fun p => p) (coCandidates cem) []).Nodup := by
    have := (firstOccurBy_spec (fun p => p) (coCandidates cem) []).1
    simpa using this
  have hsub := firstOccurBy_mem (fun p => p) (coCandidates cem) []
  refine List.Pairwise.imp_of_mem ?_ hnd
  intro k1 k2 h1 h2 hne
  have l1 := coCandidates_lt cem k1 (hsub k1 h1)
  have l2 := coCandidates_lt cem k2 (hsub k2 h2)
  rintro (⟨ha, hb⟩ | ⟨ha, hb⟩)
  · exact hne (Prod.ext ha hb)
  · have ha2 : k1.1 = k2.2 := ha
    have hb2 : k1.2 = k2.1 := hb
    rw [ha2, hb2] at l1
    exact (lt_asymm l1) l2

theorem relCandidates_spec (lk : List (String × String)) (cem : List (Nat × List String)) :
    ∀ k ∈ relCandidates lk cem,
      (k.2.2 = "ROLE_AT" ∧ dictGet lk k.1 = some "Role" ∧
        dictGet lk k.2.1 = some "Organization") ∨
      (k.2.2 = "USES_TECH" ∧
        (dictGet lk k.1 = some "Role" ∨ dictGet lk k.1 = some "Organization") ∧
        dictGet lk k.2.1 = some "Technology") := by
  intro k hk
  unfold relCandidates at hk
  rcases mem_foldr_append _ cem k hk with ⟨q, _, hkq⟩
  rcases List.mem_append.mp hkq with h1 | h1
  · rcases mem_foldr_append _ _ k h1 with ⟨r, hr, hk2⟩
    rcases List.mem_map.mp hk2 with ⟨o, ho, rfl⟩
    left
    refine ⟨rfl, ?_, ?_⟩
    · simpa using (List.mem_filter.mp (List.mem_of_mem_take hr)).2
    · simpa using (List.mem_filter.mp (List.mem_of_mem_take ho)).2
  · rcases mem_foldr_append _ _ k h1 with ⟨h, hh, hk2⟩
    rcases List.mem_map.mp hk2 with ⟨t, ht, rfl⟩
    right
    refine ⟨rfl, ?_, ?_⟩
    · rcases List.mem_append.mp hh with hh1 | hh1
      · exact Or.inl (by simpa using (List.mem_filter.mp hh1).2)
      · exact Or.inr (by simpa using (List.mem_filter.mp hh1).2)
    · simpa using (List.mem_filter.mp (List.mem_of_mem_take ht)).2

theorem relEdges_pairwise (ns : String) (lk : List (String × String))
    (cem : List (Nat × List String)) :
    (relEdges ns (relCandidates lk cem)).Pairwise (fun e1 e2 => ¬ SamePair e1 e2) := by
  unfold relEdges
  rw [List.pairwise_map]
  have hnd : (firstOccurBy (fun k => k) (relCandidates lk cem) []).Nodup := by
    have := (firstOccurBy_spec (fun k => k) (relCandidates lk cem) []).1
    simpa using this
  have hsub := firstOccurBy_mem (fun k => k) (relCandidates lk cem) []
  refine List.Pairwise.imp_of_mem ?_ hnd
  intro k1 k2 h1 h2 hne
  have s1 := relCandidates_spec lk cem k1 (hsub k1 h1)
  have s2 := relCandidates_spec lk cem k2 (hsub k2 h2)
  obtain ⟨a1, b1, c1⟩ := k1
  obtain ⟨a2, b2, c2⟩ := k2
  rintro (⟨ha, hb⟩ | ⟨ha, hb⟩) <;>
    rcases s1 with ⟨hc1, hl1, hm1⟩ | ⟨hc1, hl1, hm1⟩ <;>
      rcases s2 with ⟨hc2, hl2, hm2⟩ | ⟨hc2, hl2, hm2⟩ <;>
        simp_all <;> rcases hl1 with hl1 | hl1 <;> rcases hl2 with hl2 | hl2 <;> simp_all

theorem mem_coOccursEdges_relation (ns : String) (cem : List (Nat × List String))
    (e : GEdge) (he : e ∈ coOccursEdges ns cem) : e.relation = "CO_OCCURS" := by
  unfold coOccursEdges at he
  rcases List.mem_map.mp he with ⟨k, _, rfl⟩
  rfl

theorem mem_relEdges_relation (ns : String) (lk : List (String × String))
    (cem : List (Nat × List String)) (e : GEdge)
    (he : e ∈ relEdges ns (relCandidates lk cem)) :
    e.relation = "ROLE_AT" ∨ e.relation = "USES_TECH" := by
  unfold relEdges at he
  rcases List.mem_map.mp he with ⟨k, hk, rfl⟩
  rcases relCandidates_spec lk cem k (firstOccurBy_mem _ _ _ k hk) with ⟨h, _⟩ | ⟨h, _⟩
  · exact Or.inl h
  · exact Or.inr h

/-- **C6**: within a single `ingest_document` call, the derived CO_OCCURS,
ROLE_AT and USES_TECH edge families written by `_upsert_graph_full` contain
no duplicate unordered endpoint pair per relation: CO_OCCURS pairs are sorted
and deduplicated through `added_pairs`, and the `rel_added` keys combined
with the disjoint entity labels (Role/Organization/Technology endpoints)
exclude both repeated and reversed pairs — this holds for every
`chunk_entity_map` and label lookup an ingest can produce. -/
theorem C6_derived_edge_dedup (ns rel : String) (cem : List (Nat × List String))
    (lk : List (String × String)) :
    ((coOccursEdges ns cem ++ relEdges ns (relCandidates lk cem)).filter
      (fun e => e.relation = rel)).Pairwise (fun e1 e2 => ¬ SamePair e1 e2) := by
  rw [List.filter_append]
  refine List.pairwise_append.mpr ⟨?_, ?_, ?_⟩
  · exact List.Pairwise.sublist (List.filter_sublist _) (coOccursEdges_pairwise ns cem)
  · exact List.Pairwise.sublist (List.filter_sublist _) (relEdges_pairwise ns lk cem)
  · intro e1 h1 e2 h2
    have he1 := List.mem_filter.mp h1
    have he2 := List.mem_filter.mp h2
    have q1 : e1.relation = rel := by simpa using he1.2
    have q2 : e2.relation = rel := by simpa using he2.2
    rw [mem_coOccursEdges_relation ns cem e1 he1.1] at q1
    intro hS
    rcases mem_relEdges_relation ns lk cem e2 he2.1 with h | h <;> rw [h] at q2 <;>
      exact absurd (q1.trans q2.symm) (by decide)

theorem dictGet_upsertMap_same : ∀ (m : List (String × String)) (k v : String),
    m.any (fun p => p.1 = k) = true →
    dictGet (m.map (fun p => if p.1 = k then (k, v) else p)) k = some v
  | [], k, v, h => by simp at h
  | p :: ps, k, v, h => by
      unfold dictGet
      by_cases hp : p.1 = k
      · rw [List.map_cons, if_pos hp, List.find?_cons_of_pos _ (by simp)]
        rfl
      · rw [List.map_cons, if_neg hp, List.find?_cons_of_neg _ (by simpa using hp)]
        have h2 : ps.any (fun p => p.1 = k) = true := by
          rcases List.any_eq_true.mp h with ⟨q, hq, hqk⟩
          rcases List.mem_cons.mp hq with rfl | hq2
          · exact absurd (by simpa using hqk) hp
          · exact List.any_eq_true.mpr ⟨q, hq2, hqk⟩
        exact dictGet_upsertMap_same ps k v h2

theorem dictGet_append_single : ∀ (m : List (String × String)) (k v : String),
    (∀ p ∈ m, ¬ p.1 = k) → dictGet (m ++ [(k, v)]) k = some v
  | [], k, v, _ => by simp [dictGet]
  | p :: ps, k, v, h => by
      unfold dictGet
      rw [List.cons_append,
        List.find?_cons_of_neg _ (by simpa using h p (List.mem_cons_self _ _))]
      exact dictGet_append_single ps k v (fun q hq => h q (List.mem_cons_of_mem _ hq))

theorem dictGet_upsert_same (m : List (String × String)) (k v : String) :
    dictGet (dictUpsert m k v) k = some v := by
  unfold dictUpsert
  by_cases hmem : m.any (fun p => p.1 = k)
  · rw [if_pos hmem]
    exact dictGet_upsertMap_same m k v hmem
  · rw [if_neg hmem]
    refine dictGet_append_single m k v ?_
    intro p hp hpk
    exact hmem (List.any_eq_true.mpr ⟨p, hp, by simpa using hpk⟩)

theorem dictGet_upsertMap_ne : ∀ (m : List (String × String)) (k v k2 : String),
    ¬ k2 = k →
    dictGet (m.map (fun p => if p.1 = k then (k, v) else p)) k2 = dictGet m k2
  | [], _, _, _, _ => rfl
  | p :: ps, k, v, k2, h => by
      unfold dictGet
      by_cases hp2 : p.1 = k2
      · have hpk : ¬ p.1 = k := fun hh => h (hp2.symm.trans hh)
        rw [List.map_cons, if_neg hpk, List.find?_cons_of_pos _ (by simpa using hp2),
          List.find?_cons_of_pos _ (by simpa using hp2)]
      · have hhead : ¬ ((if p.1 = k then (k, v) else p) : String × String).1 = k2 := by
          by_cases hpk : p.1 = k
          · rw [if_pos hpk]
            exact fun hh => h hh.symm
          · rw [if_neg hpk]
            exact hp2
        rw [List.map_cons, List.find?_cons_of_neg _ (by simpa using hhead),
          List.find?_cons_of_neg _ (by simpa using hp2)]
        exact dictGet_upsertMap_ne ps k v k2 h

theorem dictGet_append_single_ne : ∀ (m : List (String × String)) (k v k2 : String),
    ¬ k2 = k → dictGet (m ++ [(k, v)]) k2 = dictGet m k2
  | [], k, v, k2, h => by
      unfold dictGet
      rw [List.nil_append, List.find?_cons_of_neg _ (by simpa using fun hh => h hh.symm)]
  | p :: ps, k, v, k2, h => by
      unfold dictGet
      by_cases hp2 : p.1 = k2
      · rw [List.cons_append, List.find?_cons_of_pos _ (by simpa using hp2),
          List.find?_cons_of_pos _ (by simpa using hp2)]
      · rw [List.cons_append, List.find?_cons_of_neg _ (by simpa using hp2),
          List.find?_cons_of_neg _ (by simpa using hp2)]
        exact dictGet_append_single_ne ps k v k2 h

theorem dictGet_upsert_ne (m : List (String × String)) (k v k2 : String) (h : ¬ k2 = k) :
    dictGet (dictUpsert m k v) k2 = dictGet m k2 := by
  unfold dictUpsert
  by_cases hmem : m.any (fun p => p.1 = k)
  · rw [if_pos hmem]
    exact dictGet_upsertMap_ne m k v k2 h
  · rw [if_neg hmem]
    exact dictGet_append_single_ne m k v k2 h

theorem entityFold_dict_hit (purged : List GNode) (doc_id ns : String) (dis : Bool)
    (embed : String → List ℚ) (nm : String) (ex : GNode)
    (hhit : entityKeyMatch purged nm ns = some ex) :
    ∀ (ls : List ExtNode) (m : List (String × String)) (acc : List GNode),
      ((∃ n ∈ ls, n.name = nm) ∨ dictGet m nm = some ex.id) →
      dictGet (entityFoldAux purged doc_id ns dis embed ls m acc).1 nm = some ex.id
  | [], m, acc, hpre => by
      rcases hpre with ⟨n, hn, _⟩ | hpre
      · exact absurd hn (by simp)
      · exact hpre
  | n0 :: rest, m, acc, hpre => by
      unfold entityFoldAux
      by_cases hname : n0.name = nm
      · rw [hname, hhit]
        refine entityFold_dict_hit purged doc_id ns dis embed nm ex hhit rest _ _ (Or.inr ?_)
        exact dictGet_upsert_same m nm ex.id
      · have hpre2 : (∃ n ∈ rest, n.name = nm) ∨ dictGet (dictUpsert m n0.name
            (match entityKeyMatch purged n0.name ns with
             | some e => e.id
             | none => n0.id)) nm = some ex.id := by
          rcases hpre with ⟨n, hn, hnnm⟩ | hpre
          · rcases List.mem_cons.mp hn with rfl | hn2
            · exact absurd hnnm hname
            · exact Or.inl ⟨n, hn2, hnnm⟩
          · exact Or.inr (by rw [dictGet_upsert_ne m n0.name _ nm
              (fun hh => hname hh.symm)]; exact hpre)
        rcases hmatch : entityKeyMatch purged n0.name ns with _ | e
        · refine entityFold_dict_hit purged doc_id ns dis embed nm ex hhit rest _ _ ?_
          rcases hpre2 with h | h
          · exact Or.inl h
          · refine Or.inr ?_
            rw [hmatch] at h
            exact h
        · refine entityFold_dict_hit purged doc_id ns dis embed nm ex hhit rest _ _ ?_
          rcases hpre2 with h | h
          · exact Or.inl h
          · refine Or.inr ?_
            rw [hmatch] at h
            exact h

theorem entityFold_new (purged : List GNode) (doc_id ns : String) (dis : Bool)
    (embed : String → List ℚ) :
    ∀ (ls : List ExtNode) (m : List (String × String)) (acc : List GNode),
      ∀ gn ∈ (entityFoldAux purged doc_id ns dis embed ls m acc).2,
        gn ∈ acc ∨ ∃ n ∈ ls, entityKeyMatch purged n.name ns = none ∧
          gn = mkEntityNode doc_id ns dis embed n
  | [], m, acc, gn, hgn => Or.inl hgn
  | n0 :: rest, m, acc, gn, hgn => by
      unfold entityFoldAux at hgn
      rcases hmatch : entityKeyMatch purged n0.name ns with _ | e
      · rw [hmatch] at hgn
        rcases entityFold_new purged doc_id ns dis embed rest _ _ gn hgn with h | ⟨n, hn, h1, h2⟩
        · rcases List.mem_append.mp h with h2 | h2
          · exact Or.inl h2
          · exact Or.inr ⟨n0, List.mem_cons_self _ _, hmatch, List.mem_singleton.mp h2⟩
        · exact Or.inr ⟨n, List.mem_cons_of_mem _ hn, h1, h2⟩
      · rw [hmatch] at hgn
        rcases entityFold_new purged doc_id ns dis embed rest _ _ gn hgn with h | ⟨n, hn, h1, h2⟩
        · exact Or.inl h
        · exact Or.inr ⟨n, List.mem_cons_of_mem _ hn, h1, h2⟩

theorem entityKeyMatch_mem (purged : List GNode) (nm ns : String) (ex : GNode)
    (h : entityKeyMatch purged nm ns = some ex) :
    ex ∈ purged ∧ strLower ex.name = strLower nm ∧ propNs ex.props = some ns := by
  unfold entityKeyMatch at h
  rcases List.mem_getLast?_eq_getLast (Option.mem_iff.mpr h) with ⟨hne, hex⟩
  have hmem : ex ∈ purged.filter
      (fun n => decide (strLower n.name = strLower nm ∧ propNs n.props = some ns)) := by
    rw [hex]
    exact List.getLast_mem hne
  have h2 := List.mem_filter.mp hmem
  refine ⟨h2.1, ?_, ?_⟩
  · have := h2.2
    simp at this
    exact this.1
  · have := h2.2
    simp at this
    exact this.2

theorem entityKeyMatch_congr (purged : List GNode) (ns a b : String)
    (h : strLower a = strLower b) :
    entityKeyMatch purged a ns = entityKeyMatch purged b ns := by
  unfold entityKeyMatch
  rw [h]

/-- **C10**: frame property of the entity dedup.  When an extracted entity's
lowercased name already exists in the target namespace (a hit in the
`existing_lookup` built from the pre-state), the upsert step records the
existing row's id in `entity_name_to_id` — so all derived edges reference the
existing entity — creates no new node for that name key, and carries the
existing row over to the committed store verbatim: its label, name,
properties, source_ids and embedding are untouched and the new `doc_id` is
not appended. -/
theorem C10_entity_dedup_frame (σ : Store) (doc_id : String) (chunks : List String)
    (extraction : ExtractionResult) (dis : Bool) (ns : String) (sm : List SectionMeta)
    (embed : String → List ℚ) (n : ExtNode) (hn : n ∈ extraction.nodes) (ex : GNode)
    (hhit : entityKeyMatch (upsertPurgedNodes σ doc_id) n.name ns = some ex) :
    dictGet (upsertEntities σ doc_id ns dis embed extraction).1 n.name = some ex.id ∧
    (∀ gn ∈ (upsertEntities σ doc_id ns dis embed extraction).2,
      ¬ strLower gn.name = strLower n.name) ∧
    ex ∈ (upsertGraphFull σ doc_id chunks extraction dis ns sm embed true).1.nodes ∧
    ex ∈ σ.nodes := by
  have hmemfacts := entityKeyMatch_mem _ _ _ _ hhit
  refine ⟨?_, ?_, ?_, ?_⟩
  · exact entityFold_dict_hit (upsertPurgedNodes σ doc_id) doc_id ns dis embed n.name ex
      hhit extraction.nodes [] [] (Or.inl ⟨n, hn, rfl⟩)
  · intro gn hgn hlow
    rcases entityFold_new (upsertPurgedNodes σ doc_id) doc_id ns dis embed
        extraction.nodes [] [] gn hgn with h | ⟨n2, _, hnone, hgn2⟩
    · exact absurd h (by simp)
    · have hname : strLower n2.name = strLower n.name := by
        rw [← hlow, hgn2]
        rfl
      rw [entityKeyMatch_congr (upsertPurgedNodes σ doc_id) ns n2.name n.name hname,
        hhit] at hnone
      exact absurd hnone (by simp)
  · have hres : (upsertGraphFull σ doc_id chunks extraction dis ns sm embed true).1.nodes
        = upsertPurgedNodes σ doc_id
          ++ upsertNewNodes σ doc_id chunks extraction dis ns sm embed := rfl
    rw [hres]
    exact List.mem_append.mpr (Or.inl hmemfacts.1)
  · exact (List.mem_filter.mp hmemfacts.1).1

/-- The pre-existing entity row of the C10 witness run. -/
def exC10Node : GNode :=
  { id := "e1", label := "Entity", name := "alice",
    props := [("namespace", PVal.str "public")], source_ids := ["d0"],
    embedding := [], nsCol := some "public" }

/-- The extraction node whose lowercased name collides with it. -/
def exC10ExtNode : ExtNode :=
  { id := "x1", label := "Entity", name := "Alice", props := [] }

def exC10Ext : ExtractionResult :=
  { nodes := [exC10ExtNode], edges := [], reasoning := "r" }

def exC10Store : Store := { nodes := [exC10Node], edges := [], log := [] }

/-- Witness for C10 at a concrete dedup hit (case-insensitive collision). -/
theorem C10_entity_dedup_frame_witness :
    dictGet (upsertEntities exC10Store "d1" "public" true (fun _ => []) exC10Ext).1
        exC10ExtNode.name = some exC10Node.id ∧
    exC10Node ∈ (upsertGraphFull exC10Store "d1" [] exC10Ext true "public" []
        (fun _ => []) true).1.nodes :=
  ⟨(C10_entity_dedup_frame exC10Store "d1" [] exC10Ext true "public" [] (fun _ => [])
      exC10ExtNode (by decide) exC10Node (by decide)).1,
   (C10_entity_dedup_frame exC10Store "d1" [] exC10Ext true "public" [] (fun _ => [])
      exC10ExtNode (by decide) exC10Node (by decide)).2.2.1⟩
